import Mathlib

/-!
# pdaisp go-client: a shallow embedding of `fabric-samples/go-client/main.go`

The client is a menu loop over a ledger gateway.  The embedding has three parts:

* `Json`: the byte scanner of Go's `encoding/json` and `json.Indent`, which is all that
  `formatJSON` calls;
* `Bootstrap`: `populateWallet` and the bootstrap step of `main` over an explicit file system
  and identity store;
* `Client`: the dispatch loop of `main` and its nine handlers over explicit standard
  input, standard output and ledger.

Go byte slices are lists of byte values (`Bytes`); Go strings that carry text (names,
arguments, messages) are Lean strings, written to standard output as their UTF-8 bytes.
-/

/-- A byte slice: one natural number per byte. -/
abbrev Bytes := List Nat

namespace Json

/-! ## encoding/json: the scanner (scanner.go) -/

/-- The scanner's result codes (`scanContinue` ... `scanError`). -/
inductive Code where
  | scanContinue
  | scanBeginLiteral
  | scanBeginObject
  | scanObjectKey
  | scanObjectValue
  | scanEndObject
  | scanBeginArray
  | scanArrayValue
  | scanEndArray
  | scanSkipSpace
  | scanEnd
  | scanError
  deriving DecidableEq, Repr

/-- The entries of the scanner's parse stack. -/
inductive ParseState where
  | parseObjectKey
  | parseObjectValue
  | parseArrayValue
  deriving DecidableEq, Repr

/-- The scanner's `step` field: which state function handles the next byte. -/
inductive Step where
  | stateBeginValue
  | stateBeginValueOrEmpty
  | stateBeginStringOrEmpty
  | stateBeginString
  | stateEndValue
  | stateEndTop
  | stateInString
  | stateInStringEsc
  | stateInStringEscU
  | stateInStringEscU1
  | stateInStringEscU12
  | stateInStringEscU123
  | stateNeg
  | state1
  | state0
  | stateDot
  | stateDot0
  | stateE
  | stateESign
  | stateE0
  | stateT
  | stateTr
  | stateTru
  | stateF
  | stateFa
  | stateFal
  | stateFals
  | stateN
  | stateNu
  | stateNul
  | stateError
  deriving DecidableEq, Repr

/-- The scanner.  `parseState` is the stack with its top at the head of the list (Go
appends at the end of a slice); `err` records that an error was set (its text and the
byte offset it carries are not modelled). -/
structure Scanner where
  step : Step
  endTop : Bool
  parseState : List ParseState
  err : Bool
  deriving DecidableEq, Repr

/-- The nesting limit of the scanner (`maxNestingDepth`). -/
def maxNestingDepth : Nat := 10000

/-- A scanner after `reset`. -/
def newScanner : Scanner :=
  { step := .stateBeginValue, endTop := false, parseState := [], err := false }

/-- The four JSON space bytes: space, tab, carriage return, line feed. -/
def isSpace (c : Nat) : Bool :=
  decide (c ≤ 32) && (c == 32 || c == 9 || c == 13 || c == 10)

/-- Go's `scanner.error`: record the error and switch to the error state. -/
def Scanner.error (s : Scanner) : Scanner × Code :=
  ({ s with step := .stateError, err := true }, .scanError)

/-- Go's `pushParseState`: push, and fail beyond the nesting limit. -/
def pushParseState (s : Scanner) (newParseState : ParseState) (successState : Code) :
    Scanner × Code :=
  let s1 := { s with parseState := newParseState :: s.parseState }
  if s1.parseState.length ≤ maxNestingDepth then (s1, successState) else s1.error

/-- Go's `popParseState`. -/
def popParseState (s : Scanner) : Scanner :=
  let rest := s.parseState.tail
  if rest.length = 0 then { s with parseState := rest, step := .stateEndTop, endTop := true }
  else { s with parseState := rest, step := .stateEndValue }

/-- After the top-level value only space may follow. -/
def stateEndTop (s : Scanner) (c : Nat) : Scanner × Code :=
  if !isSpace c then ((s.error).1, .scanEnd) else (s, .scanEnd)

/-- After a value: a separator or closing bracket, according to the stack's top. -/
def stateEndValue (s : Scanner) (c : Nat) : Scanner × Code :=
  match s.parseState with
  | [] => stateEndTop { s with step := .stateEndTop, endTop := true } c
  | ps :: rest =>
    if isSpace c then ({ s with step := .stateEndValue }, .scanSkipSpace)
    else
      match ps with
      | .parseObjectKey =>
        if c = 58 then -- ':'
          ({ s with parseState := .parseObjectValue :: rest, step := .stateBeginValue },
            .scanObjectKey)
        else s.error
      | .parseObjectValue =>
        if c = 44 then -- ','
          ({ s with parseState := .parseObjectKey :: rest, step := .stateBeginString },
            .scanObjectValue)
        else if c = 125 then -- '}'
          (popParseState s, .scanEndObject)
        else s.error
      | .parseArrayValue =>
        if c = 44 then -- ','
          ({ s with step := .stateBeginValue }, .scanArrayValue)
        else if c = 93 then -- ']'
          (popParseState s, .scanEndArray)
        else s.error

/-- At the start of a value. -/
def stateBeginValue (s : Scanner) (c : Nat) : Scanner × Code :=
  if isSpace c then (s, .scanSkipSpace)
  else if c = 123 then -- '{'
    pushParseState { s with step := .stateBeginStringOrEmpty } .parseObjectKey .scanBeginObject
  else if c = 91 then -- '['
    pushParseState { s with step := .stateBeginValueOrEmpty } .parseArrayValue .scanBeginArray
  else if c = 34 then -- '"'
    ({ s with step := .stateInString }, .scanBeginLiteral)
  else if c = 45 then -- '-'
    ({ s with step := .stateNeg }, .scanBeginLiteral)
  else if c = 48 then -- '0'
    ({ s with step := .state0 }, .scanBeginLiteral)
  else if c = 116 then -- 't'
    ({ s with step := .stateT }, .scanBeginLiteral)
  else if c = 102 then -- 'f'
    ({ s with step := .stateF }, .scanBeginLiteral)
  else if c = 110 then -- 'n'
    ({ s with step := .stateN }, .scanBeginLiteral)
  else if 49 ≤ c ∧ c ≤ 57 then -- '1'..'9'
    ({ s with step := .state1 }, .scanBeginLiteral)
  else s.error

/-- After `[`. -/
def stateBeginValueOrEmpty (s : Scanner) (c : Nat) : Scanner × Code :=
  if isSpace c then (s, .scanSkipSpace)
  else if c = 93 then stateEndValue s c -- ']'
  else stateBeginValue s c

/-- After `,` in an object: a key must follow. -/
def stateBeginString (s : Scanner) (c : Nat) : Scanner × Code :=
  if isSpace c then (s, .scanSkipSpace)
  else if c = 34 then ({ s with step := .stateInString }, .scanBeginLiteral)
  else s.error

/-- After `{`. -/
def stateBeginStringOrEmpty (s : Scanner) (c : Nat) : Scanner × Code :=
  if isSpace c then (s, .scanSkipSpace)
  else if c = 125 then -- '}'
    stateEndValue { s with parseState := .parseObjectValue :: s.parseState.tail } c
  else stateBeginString s c

/-- Inside a string literal. -/
def stateInString (s : Scanner) (c : Nat) : Scanner × Code :=
  if c = 34 then ({ s with step := .stateEndValue }, .scanContinue)
  else if c = 92 then ({ s with step := .stateInStringEsc }, .scanContinue) -- '\\'
  else if c < 32 then s.error
  else (s, .scanContinue)

/-- After a backslash in a string. -/
def stateInStringEsc (s : Scanner) (c : Nat) : Scanner × Code :=
  if c = 98 ∨ c = 102 ∨ c = 110 ∨ c = 114 ∨ c = 116 ∨ c = 92 ∨ c = 47 ∨ c = 34 then
    ({ s with step := .stateInString }, .scanContinue)
  else if c = 117 then ({ s with step := .stateInStringEscU }, .scanContinue) -- 'u'
  else s.error

/-- A hexadecimal digit byte. -/
def isHex (c : Nat) : Bool :=
  (decide (48 ≤ c) && decide (c ≤ 57)) || (decide (97 ≤ c) && decide (c ≤ 102)) ||
    (decide (65 ≤ c) && decide (c ≤ 70))

/-- The four states after a backslash-u share one shape: a hex digit leads to `next`. -/
def stateHex (next : Step) (s : Scanner) (c : Nat) : Scanner × Code :=
  if isHex c then ({ s with step := next }, .scanContinue) else s.error

/-- After `-` in a number. -/
def stateNeg (s : Scanner) (c : Nat) : Scanner × Code :=
  if c = 48 then ({ s with step := .state0 }, .scanContinue)
  else if 49 ≤ c ∧ c ≤ 57 then ({ s with step := .state1 }, .scanContinue)
  else s.error

/-- After a leading `0` of a number. -/
def state0 (s : Scanner) (c : Nat) : Scanner × Code :=
  if c = 46 then ({ s with step := .stateDot }, .scanContinue) -- '.'
  else if c = 101 ∨ c = 69 then ({ s with step := .stateE }, .scanContinue) -- 'e' 'E'
  else stateEndValue s c

/-- After a leading non-zero digit of a number. -/
def state1 (s : Scanner) (c : Nat) : Scanner × Code :=
  if 48 ≤ c ∧ c ≤ 57 then ({ s with step := .state1 }, .scanContinue)
  else state0 s c

/-- After the decimal point. -/
def stateDot (s : Scanner) (c : Nat) : Scanner × Code :=
  if 48 ≤ c ∧ c ≤ 57 then ({ s with step := .stateDot0 }, .scanContinue)
  else s.error

/-- After a digit of the fraction. -/
def stateDot0 (s : Scanner) (c : Nat) : Scanner × Code :=
  if 48 ≤ c ∧ c ≤ 57 then (s, .scanContinue)
  else if c = 101 ∨ c = 69 then ({ s with step := .stateE }, .scanContinue)
  else stateEndValue s c

/-- After the sign of the exponent (or in its place). -/
def stateESign (s : Scanner) (c : Nat) : Scanner × Code :=
  if 48 ≤ c ∧ c ≤ 57 then ({ s with step := .stateE0 }, .scanContinue)
  else s.error

/-- After `e` or `E`. -/
def stateE (s : Scanner) (c : Nat) : Scanner × Code :=
  if c = 43 ∨ c = 45 then ({ s with step := .stateESign }, .scanContinue) -- '+' '-'
  else stateESign s c

/-- After a digit of the exponent. -/
def stateE0 (s : Scanner) (c : Nat) : Scanner × Code :=
  if 48 ≤ c ∧ c ≤ 57 then (s, .scanContinue)
  else stateEndValue s c

/-- The states inside `true`, `false` and `null` share one shape: the byte `want` leads
to `next`. -/
def stateLit (want : Nat) (next : Step) (s : Scanner) (c : Nat) : Scanner × Code :=
  if c = want then ({ s with step := next }, .scanContinue) else s.error

/-- Go's `scan.step(scan, c)`: run the current state function on one byte. -/
def Scanner.stepByte (s : Scanner) (c : Nat) : Scanner × Code :=
  match s.step with
  | .stateBeginValue => stateBeginValue s c
  | .stateBeginValueOrEmpty => stateBeginValueOrEmpty s c
  | .stateBeginStringOrEmpty => stateBeginStringOrEmpty s c
  | .stateBeginString => stateBeginString s c
  | .stateEndValue => stateEndValue s c
  | .stateEndTop => stateEndTop s c
  | .stateInString => stateInString s c
  | .stateInStringEsc => stateInStringEsc s c
  | .stateInStringEscU => stateHex .stateInStringEscU1 s c
  | .stateInStringEscU1 => stateHex .stateInStringEscU12 s c
  | .stateInStringEscU12 => stateHex .stateInStringEscU123 s c
  | .stateInStringEscU123 => stateHex .stateInString s c
  | .stateNeg => stateNeg s c
  | .state1 => state1 s c
  | .state0 => state0 s c
  | .stateDot => stateDot s c
  | .stateDot0 => stateDot0 s c
  | .stateE => stateE s c
  | .stateESign => stateESign s c
  | .stateE0 => stateE0 s c
  | .stateT => stateLit 114 .stateTr s c -- 'r'
  | .stateTr => stateLit 117 .stateTru s c -- 'u'
  | .stateTru => stateLit 101 .stateEndValue s c -- 'e'
  | .stateF => stateLit 97 .stateFa s c -- 'a'
  | .stateFa => stateLit 108 .stateFal s c -- 'l'
  | .stateFal => stateLit 115 .stateFals s c -- 's'
  | .stateFals => stateLit 101 .stateEndValue s c -- 'e'
  | .stateN => stateLit 117 .stateNu s c -- 'u'
  | .stateNu => stateLit 108 .stateNul s c -- 'l'
  | .stateNul => stateLit 108 .stateEndValue s c -- 'l'
  | .stateError => (s, .scanError)

/-- Go's `scanner.eof`: `true` when the input may end here (`scanEnd`), `false` for
`scanError`. -/
def Scanner.eof (s : Scanner) : Bool :=
  if s.err then false
  else if s.endTop then true
  else
    let s1 := (s.stepByte 32).1
    if s1.endTop then true else false

/-! ## encoding/json: Indent (indent.go) -/

/-- Go's `newline`: a line feed, the line lead-in, and `depth` indents. -/
def newline (dst pfx indent : Bytes) (depth : Int) : Bytes :=
  dst ++ [10] ++ pfx ++ (List.replicate depth.toNat indent).flatten

/-- The body of the loop of `Indent`, from the byte after the `needIndent` block on:
what one byte with scan code `v` appends, and the new `needIndent` and `depth`. -/
def emit (pfx indent : Bytes) (v : Code) (c : Nat) (needIndent : Bool) (depth : Int)
    (dst : Bytes) : Bool × Int × Bytes :=
  if v = .scanContinue then (needIndent, depth, dst ++ [c])
  else if c = 123 ∨ c = 91 then (true, depth, dst ++ [c]) -- '{' '['
  else if c = 44 then (needIndent, depth, newline (dst ++ [c]) pfx indent depth) -- ','
  else if c = 58 then (needIndent, depth, dst ++ [c, 32]) -- ':'
  else if c = 125 ∨ c = 93 then -- '}' ']'
    if needIndent then (false, depth, dst ++ [c])
    else (needIndent, depth - 1, newline dst pfx indent (depth - 1) ++ [c])
  else (needIndent, depth, dst ++ [c])

/-- The loop of `Indent` over the remaining source bytes; it stops at the first
`scanError`. -/
def indentLoop (pfx indent : Bytes) :
    Bytes → Scanner → Bool → Int → Bytes → Scanner × Bytes
  | [], scan, _, _, dst => (scan, dst)
  | c :: src, scan, needIndent, depth, dst =>
    let r := scan.stepByte c
    if r.2 = .scanSkipSpace then indentLoop pfx indent src r.1 needIndent depth dst
    else if r.2 = .scanError then (r.1, dst)
    else
      let pre : Bool × Int × Bytes :=
        if needIndent && r.2 != .scanEndObject && r.2 != .scanEndArray then
          (false, depth + 1, newline dst pfx indent (depth + 1))
        else (needIndent, depth, dst)
      let e := emit pfx indent r.2 c pre.1 pre.2.1 pre.2.2
      indentLoop pfx indent src r.1 e.1 e.2.1 e.2.2

/-- Go's `json.Indent` writing into the buffer `dst`: the new buffer contents, or `none`
when it returns an error (the buffer is then truncated to what it held). -/
def Indent (dst src pfx indent : Bytes) : Option Bytes :=
  let r := indentLoop pfx indent src newScanner false 0 dst
  if r.1.eof then some r.2 else none

/-- Go's `json.Valid` (`checkValid`): run the scanner over every byte. -/
def checkValid : Bytes → Scanner → Bool
  | [], scan => scan.eof
  | c :: data, scan =>
    let r := scan.stepByte c
    if r.2 = .scanError then false else checkValid data r.1

/-- The source's `formatJSON`: `json.Indent` with empty line lead-in and indent into a
fresh buffer; `none` stands for the panic on an `Indent` error. -/
def formatJSON (data : Bytes) : Option Bytes :=
  Indent [] data [] []

end Json

/-! ## Text and standard output -/

/-- The UTF-8 bytes of one character. -/
def utf8Char (c : Char) : Bytes :=
  let n := c.toNat
  if n < 128 then [n]
  else if n < 2048 then [192 + n / 64, 128 + n % 64]
  else if n < 65536 then [224 + n / 4096, 128 + n / 64 % 64, 128 + n % 64]
  else [240 + n / 262144, 128 + n / 4096 % 64, 128 + n / 64 % 64, 128 + n % 64]

/-- The bytes of a Go string holding the text `s`. -/
def utf8 (s : String) : Bytes :=
  (s.data.map utf8Char).flatten

namespace Bootstrap

/-! ## The identity store and `populateWallet` -/

/-- An X.509 identity as `gateway.NewX509Identity` builds it. -/
structure Identity where
  mspID : String
  certificate : Bytes
  key : Bytes
  deriving DecidableEq, Repr

/-- The identity store (`gateway.Wallet`): its entries by label, and the error its backing
store answers an insertion with, if it is out of order. -/
structure Wallet where
  entries : List (String × Identity)
  putError : Option String
  deriving DecidableEq, Repr

/-- The store holds the label (`wallet.Exists`). -/
def Wallet.Exists (w : Wallet) (label : String) : Bool :=
  w.entries.any fun e => e.1 == label

/-- Insert or replace the entry of a label (`wallet.Put`). -/
def Wallet.Put (w : Wallet) (label : String) (id : Identity) : Except String Wallet :=
  match w.putError with
  | some e => .error e
  | none => .ok { w with entries := (label, id) :: w.entries.filter fun e => e.1 != label }

/-- The file system as the program sees it: `ioutil.ReadFile` of a path, and the entry
names `ioutil.ReadDir` lists for a directory. -/
structure FileSystem where
  readFile : String → Except String Bytes
  readDir : String → Except String (List String)

/-- A file-system access the program made. -/
inductive Access where
  | file (path : String)
  | dir (path : String)
  deriving DecidableEq, Repr

/-- Go's `filepath.Join` on the path elements the program passes: fixed names and the name
of a directory entry, none of them empty or holding a separator, so that the joined path is
already clean and `filepath.Clean` returns it unchanged. -/
def Join (elems : List String) : String :=
  "/".intercalate (elems.filter fun e => e != "")

/-- The test for a word boundary of `strings.Title`, on ASCII text. -/
def isSeparator (c : Char) : Bool :=
  !(c.isAlphanum || c == '_') && decide (c.toNat < 128)

/-- Go's `strings.Title` on ASCII text: the first letter of every word in upper case. -/
def Title (s : String) : String :=
  String.mk (s.data.foldl
    (fun (acc : List Char × Char) c =>
      (acc.1 ++ [if isSeparator acc.2 then c.toUpper else c], c)) ([], ' ')).1

/-- The label of the user's identity for an organization. -/
def label (orgNum : String) : String :=
  "User1@" ++ orgNum ++ ".example.com"

/-- The credential directory of `populateWallet`. -/
def credPath (orgNum : String) : String :=
  Join ["..", "test-network", "organizations", "peerOrganizations",
    orgNum ++ ".example.com", "users", "User1@" ++ orgNum ++ ".example.com", "msp"]

/-- The certificate file. -/
def certPath (orgNum : String) : String :=
  Join [credPath orgNum, "signcerts", "cert.pem"]

/-- The keystore directory. -/
def keyDir (orgNum : String) : String :=
  Join [credPath orgNum, "keystore"]

/-- The result of a run over the store: the error returned (if any), the store afterwards
and the file-system accesses made, in order. -/
structure Ran where
  err : Option String
  wallet : Wallet
  accesses : List Access
  deriving DecidableEq, Repr

/-- The source's `populateWallet`, with the global `orgNum` as a parameter. -/
def populateWallet (fs : FileSystem) (orgNum : String) (wallet : Wallet) : Ran :=
  match fs.readFile (certPath orgNum) with
  | .error err => ⟨some err, wallet, [.file (certPath orgNum)]⟩
  | .ok cert =>
    match fs.readDir (keyDir orgNum) with
    | .error err => ⟨some err, wallet, [.file (certPath orgNum), .dir (keyDir orgNum)]⟩
    | .ok files =>
      if files.length ≠ 1 then
        ⟨some "keystore folder should have contain one file", wallet,
          [.file (certPath orgNum), .dir (keyDir orgNum)]⟩
      else
        let keyPath := Join [keyDir orgNum, files.headD ""]
        let accesses := [.file (certPath orgNum), .dir (keyDir orgNum), .file keyPath]
        match fs.readFile keyPath with
        | .error err => ⟨some err, wallet, accesses⟩
        | .ok key =>
          let identity : Identity := ⟨Title orgNum ++ "MSP", cert, key⟩
          match wallet.Put (label orgNum) identity with
          | .error err => ⟨some err, wallet, accesses⟩
          | .ok wallet1 => ⟨none, wallet1, accesses⟩

/-- The bootstrap step of `main` (the `if !wallet.Exists(...)` block): an error stands for
the message `Failed to populate wallet contents: ...` followed by `os.Exit(1)`. -/
def bootstrap (fs : FileSystem) (orgNum : String) (wallet : Wallet) : Ran :=
  if !wallet.Exists (label orgNum) then populateWallet fs orgNum wallet
  else ⟨none, wallet, []⟩

end Bootstrap

namespace Client

/-! ## The dispatch loop of `main` and its handlers -/

/-- The two call shapes of the contract handle. -/
inductive Kind where
  | submit
  | evaluate
  deriving DecidableEq, Repr

/-- One ledger call: `SubmitTransaction(name, args...)` or
`EvaluateTransaction(name, args...)`. -/
structure Call where
  kind : Kind
  name : String
  args : List String
  deriving DecidableEq, Repr

/-- The ledger behind the contract handle: what a call returns (payload or error text),
given the calls made before it. -/
abbrev Ledger := List Call → Call → Except String Bytes

/-- The float32 of the repair price: what `fmt.Scanf("%f")` stores for an answer (`none`
when the scan fails) and what `fmt.Sprintf("%f")` renders. -/
structure Float32 where
  F : Type
  zero : F
  scan : String → Option F
  format : F → String

/-- The state of the interactive session.  `stdin` holds what the read calls still to come
consume from standard input, one entry per read call: the text the call scans, after the
space it skips and without the one character it reads past the end of its token and drops
(for an answer typed on a line of its own, the line feed); for the fault description the
entry is all that the reads of its `bufio.Scanner` take from standard input, the line feed
and what is read ahead past it included.  A read call at the end of input finds no entry.
`stdout` holds the
writes made, one entry per print call; `calls` the ledger calls made; `option` is the
variable `option` of `main`, declared before the loop. -/
structure Session where
  option : Int
  stdin : List String
  stdout : List Bytes
  calls : List Call
  deriving DecidableEq, Repr

/-- The session when the loop is entered: `var option int` is zero. -/
def Session.start (stdin : List String) : Session :=
  { option := 0, stdin := stdin, stdout := [], calls := [] }

/-- How a handler ends: it returns, or it panics (the process aborts). -/
inductive Ret where
  | returned (s : Session)
  | panicked (s : Session)
  deriving DecidableEq, Repr

/-- How one iteration of the loop ends: back at the top of the loop awaiting a selection,
out of the loop through `break loop` (`main` returns), or aborted by a panic. -/
inductive Outcome where
  | awaiting (s : Session)
  | exited (s : Session)
  | panicked (s : Session)
  deriving DecidableEq, Repr

/-- One print call writing the text `t` (`fmt.Printf` of a constant format). -/
def printf (s : Session) (t : String) : Session :=
  { s with stdout := s.stdout ++ [utf8 t] }

/-- Go's `fmt.Println` of one text. -/
def println (s : Session) (t : String) : Session :=
  { s with stdout := s.stdout ++ [utf8 t ++ [10]] }

/-- What `fmt.Scanf("%d")` stores when it scans the text `tok`: the number of the optional
sign and the decimal digits at its start, within the range of a 64-bit `int`; `none` when
the scan fails (no digit there, or a number out of range). -/
def scanInt (tok : String) : Option Int :=
  let signed : Bool × List Char :=
    match tok.data with
    | '-' :: r => (true, r)
    | '+' :: r => (false, r)
    | r => (false, r)
  let digits := signed.2.takeWhile Char.isDigit
  if digits = [] then none
  else
    let v : Nat := digits.foldl (fun a d => 10 * a + (d.toNat - 48)) 0
    let i : Int := if signed.1 then -(v : Int) else (v : Int)
    if -9223372036854775808 ≤ i ∧ i ≤ 9223372036854775807 then some i else none

/-- The statement `fmt.Scanf("%d", &option)`: a failed scan (also at the end of input)
leaves `option` as it was, and the text it scanned is consumed all the same; the error
Scanf returns is discarded. -/
def scanOption (s : Session) : Session :=
  match s.stdin with
  | [] => s
  | t :: rest =>
    match scanInt t with
    | some n => { s with option := n, stdin := rest }
    | none => { s with stdin := rest }

/-- The statements `var v string; fmt.Scanf("%s", &v)`: the text scanned, or the empty
string at the end of input. -/
def scanString (s : Session) : String × Session :=
  match s.stdin with
  | [] => ("", s)
  | t :: rest => (t, { s with stdin := rest })

/-- Go's `bufio.MaxScanTokenSize`: the most bytes the buffer of a `bufio.Scanner` grows to,
for a scanner made by `bufio.NewScanner`. -/
def MaxScanTokenSize : Nat := 64 * 1024

/-- Go's `dropCR` of `bufio`: the data without one terminal carriage return. -/
def dropCR (data : List Char) : List Char :=
  if data.getLast? = some '\r' then data.dropLast else data

/-- The first `scanner.Scan()` of a fresh `bufio.NewScanner(os.Stdin)` followed by
`scanner.Text()`, where `taken` is all the text the reads of the scanner take from standard
input; `none` when `Scan` returns false.  The scanner reads until its buffer holds a line
feed, the input ends, or the buffer is full at `MaxScanTokenSize` bytes.  A line of
`MaxScanTokenSize` bytes or more before its line feed fills the buffer first and `Scan`
fails (`bufio.ErrTooLong`); at the end of input with nothing read `Scan` fails too;
otherwise the split function `bufio.ScanLines` gives the text before the first line feed
(or, at the end of input, all of the text), less one terminal carriage return. -/
def Scan (taken : String) : Option String :=
  let line := taken.data.takeWhile fun c => c != '\n'
  if MaxScanTokenSize ≤ (utf8 (String.mk line)).length then none
  else if taken.data.isEmpty then none
  else some (String.mk (dropCR line))

/-- The statements `var description string; scanner := bufio.NewScanner(os.Stdin);
if scanner.Scan() { description = scanner.Text() }`: the description stays empty when
`Scan` returns false, also at the end of input.  All that the scanner took is consumed: the
scanner is dropped after this one line, and what it read ahead with it. -/
def scanDescription (s : Session) : String × Session :=
  match s.stdin with
  | [] => ("", s)
  | t :: rest => ((Scan t).getD "", { s with stdin := rest })

/-- The statements `var repairPrice float32; fmt.Scanf("%f", &repairPrice)`. -/
def scanFloat (fp : Float32) (s : Session) : fp.F × Session :=
  match s.stdin with
  | [] => (fp.zero, s)
  | t :: rest => ((fp.scan t).getD fp.zero, { s with stdin := rest })

/-- Go's `contract.SubmitTransaction`. -/
def SubmitTransaction (l : Ledger) (s : Session) (name : String) (args : List String) :
    Except String Bytes × Session :=
  (l s.calls ⟨.submit, name, args⟩, { s with calls := s.calls ++ [⟨.submit, name, args⟩] })

/-- Go's `contract.EvaluateTransaction`. -/
def EvaluateTransaction (l : Ledger) (s : Session) (name : String) (args : List String) :
    Except String Bytes × Session :=
  (l s.calls ⟨.evaluate, name, args⟩,
    { s with calls := s.calls ++ [⟨.evaluate, name, args⟩] })

/-- The success banner of the submit handlers. -/
def banner : String := "######## Success ########\n"

/-- The tail every submit handler shares after its call: the wrapped error, or the
banner. -/
def afterSubmit (r : Except String Bytes × Session) : Ret :=
  match r.1 with
  | .error err => .returned (println r.2 ("failed to submit transaction: " ++ err))
  | .ok _ => .returned (printf r.2 banner)

/-- The tail every evaluate handler shares after its call: the wrapped error, or the
result formatted by `formatJSON` (which may panic). -/
def afterEvaluate (r : Except String Bytes × Session) : Ret :=
  match r.1 with
  | .error err => .returned (println r.2 ("failed to evaluate transaction: " ++ err))
  | .ok evaluateResult =>
    match Json.formatJSON evaluateResult with
    | none => .panicked r.2
    | some result =>
      .returned { r.2 with stdout := r.2.stdout ++ [utf8 "######## Result:" ++ result ++ [10]] }

/-- The source's `initLedger`. -/
def initLedger (l : Ledger) (s : Session) : Ret :=
  afterSubmit (SubmitTransaction l s "InitLedger" [])

/-- The source's `readPersonAsset`. -/
def readPersonAsset (l : Ledger) (s : Session) (id : String) : Ret :=
  afterEvaluate (EvaluateTransaction l s "ReadPersonAsset" [id])

/-- The source's `readCarAsset`. -/
def readCarAsset (l : Ledger) (s : Session) (id : String) : Ret :=
  afterEvaluate (EvaluateTransaction l s "ReadCarAsset" [id])

/-- The source's `getCarsByColor`. -/
def getCarsByColor (l : Ledger) (s : Session) (color : String) : Ret :=
  afterEvaluate (EvaluateTransaction l s "GetCarsByColor" [color])

/-- The source's `getCarsByColorAndOwner`. -/
def getCarsByColorAndOwner (l : Ledger) (s : Session) (color ownerID : String) : Ret :=
  afterEvaluate (EvaluateTransaction l s "GetCarsByColorAndOwner" [color, ownerID])

/-- Go's `strconv.FormatBool`. -/
def FormatBool (b : Bool) : String :=
  if b then "true" else "false"

/-- The source's `transferCarAsset`. -/
def transferCarAsset (l : Ledger) (s : Session) (id newOwner : String) (acceptfault : Bool) :
    Ret :=
  afterSubmit (SubmitTransaction l s "TransferCarAsset" [id, newOwner, FormatBool acceptfault])

/-- The source's `addCarfault`. -/
def addCarfault (fp : Float32) (l : Ledger) (s : Session) (id description : String)
    (repairPrice : fp.F) : Ret :=
  afterSubmit (SubmitTransaction l s "AddCarfault" [id, description, fp.format repairPrice])

/-- The source's `changeCarColor`. -/
def changeCarColor (l : Ledger) (s : Session) (id newColor : String) : Ret :=
  afterSubmit (SubmitTransaction l s "ChangeCarColor" [id, newColor])

/-- The source's `repairCar`. -/
def repairCar (l : Ledger) (s : Session) (id : String) : Ret :=
  afterSubmit (SubmitTransaction l s "RepairCar" [id])

/-- The ten lines of the menu. -/
def menu : List String :=
  ["Menu, choose option: ", "0: Initialize ledger", "1: Read person asset",
    "2: Read car asset", "3: Get cars by color", "4: Get cars by color and owner",
    "5: Transfer car to another owner", "6: Add car fault", "7: Change car color",
    "8: Repair car", "9: Exit"]

/-- The fault-acceptance flag of selection 5, from the answer to its last prompt. -/
def acceptfaultedBool (accept : String) : Bool :=
  if accept = "n" then false else true

/-- The `switch option` of the loop body, for the cases that call a handler. -/
def dispatch (fp : Float32) (l : Ledger) (s : Session) : Ret :=
  if s.option = 0 then
    initLedger l (println s "Initializing ledger...")
  else if s.option = 1 then
    let personID := scanString (printf s "Person ID: ")
    readPersonAsset l personID.2 personID.1
  else if s.option = 2 then
    let carID := scanString (printf s "Car ID: ")
    readCarAsset l carID.2 carID.1
  else if s.option = 3 then
    let color := scanString (printf s "Car color: ")
    getCarsByColor l color.2 color.1
  else if s.option = 4 then
    let color := scanString (printf s "Car color: ")
    let ownerID := scanString (printf color.2 "Car owner: ")
    getCarsByColorAndOwner l ownerID.2 color.1 ownerID.1
  else if s.option = 5 then
    let carID := scanString (printf s "Car ID: ")
    let newOwnerID := scanString (printf carID.2 "New owner ID: ")
    let accept := scanString (printf newOwnerID.2 "Accept faulted car? (Y/n): ")
    transferCarAsset l accept.2 carID.1 newOwnerID.1 (acceptfaultedBool accept.1)
  else if s.option = 6 then
    let carID := scanString (printf s "Car ID: ")
    let description := scanDescription (println carID.2 "Fault description:")
    let repairPrice := scanFloat fp (printf description.2 "Fault repair price: ")
    addCarfault fp l repairPrice.2 carID.1 description.1 repairPrice.1
  else if s.option = 7 then
    let carID := scanString (printf s "Car ID: ")
    let newColor := scanString (printf carID.2 "New car color: ")
    changeCarColor l newColor.2 carID.1 newColor.1
  else if s.option = 8 then
    let carID := scanString (printf s "Car ID: ")
    repairCar l carID.2 carID.1
  else
    .returned (printf s "No such option")

/-- One iteration of the loop of `main`: the menu, the read of `option`, the switch, and
the closing line feed (skipped by `break loop` and by a panic). -/
def iteration (fp : Float32) (l : Ledger) (s : Session) : Outcome :=
  let s1 := scanOption (menu.foldl println s)
  if s1.option = 9 then .exited s1
  else
    match dispatch fp l s1 with
    | .panicked s2 => .panicked s2
    | .returned s2 => .awaiting (printf s2 "\n")

/-- The loop of `main`, for at most `fuel` iterations: it stops at `break loop` and at a
panic, and otherwise goes on. -/
def loop (fp : Float32) (l : Ledger) : Nat → Session → Outcome
  | 0, s => .awaiting s
  | fuel + 1, s =>
    match iteration fp l s with
    | .awaiting s1 => loop fp l fuel s1
    | o => o

end Client

namespace Client

/-! ## Reading the loop: accessors, the table of the specification, the prompts -/

/-- The session an outcome carries. -/
def Outcome.session : Outcome → Session
  | .awaiting s => s
  | .exited s => s
  | .panicked s => s

/-- The session a handler's end carries. -/
def Ret.session : Ret → Session
  | .returned s => s
  | .panicked s => s

/-- The writes of the menu, one per line. -/
def menuLines : List Bytes :=
  menu.map fun t => utf8 t ++ [10]

/-- The `boolAsString` of the specification's table: `"false"` for the answer `n`, `"true"`
for any other answer. -/
def boolAsString (accept : String) : String :=
  if accept = "n" then "false" else "true"

/-- The `priceAsString` of the specification's table: the rendering of the float32 scanned
from the price answer, or of zero when there is no answer or it does not scan. -/
def priceAsString (fp : Float32) (answer : Option String) : String :=
  fp.format ((answer.bind fp.scan).getD fp.zero)

/-- The inputs the prompts of selection `n` receive from the entries of standard input, in
prompt order: each entry as it stands, except the fault description of selection 6, which
is the line its scanner returns for its entry (the empty string when `Scan` fails). -/
def received (n : Int) (entries : List String) : List String :=
  match entries with
  | id :: taken :: rest => if n = 6 then id :: (Scan taken).getD "" :: rest else entries
  | _ => entries

/-- A line of 65536 letters `a`, one byte each: as long as `MaxScanTokenSize`. -/
def longLine : String :=
  String.mk (List.replicate 65536 'a')

/-- The table of section 4.3 of the specification: the ledger call of selection `n`, from
the prompted inputs in prompt order (a missing answer is the empty string); selection 9
and every other number name no call. -/
def tableCall (fp : Float32) (n : Int) (inputs : List String) : Option Call :=
  if n = 0 then some ⟨.submit, "InitLedger", []⟩
  else if n = 1 then some ⟨.evaluate, "ReadPersonAsset", [inputs.getD 0 ""]⟩
  else if n = 2 then some ⟨.evaluate, "ReadCarAsset", [inputs.getD 0 ""]⟩
  else if n = 3 then some ⟨.evaluate, "GetCarsByColor", [inputs.getD 0 ""]⟩
  else if n = 4 then
    some ⟨.evaluate, "GetCarsByColorAndOwner", [inputs.getD 0 "", inputs.getD 1 ""]⟩
  else if n = 5 then
    some ⟨.submit, "TransferCarAsset",
      [inputs.getD 0 "", inputs.getD 1 "", boolAsString (inputs.getD 2 "")]⟩
  else if n = 6 then
    some ⟨.submit, "AddCarfault",
      [inputs.getD 0 "", inputs.getD 1 "", priceAsString fp (inputs.drop 2).head?]⟩
  else if n = 7 then some ⟨.submit, "ChangeCarColor", [inputs.getD 0 "", inputs.getD 1 ""]⟩
  else if n = 8 then some ⟨.submit, "RepairCar", [inputs.getD 0 ""]⟩
  else none

/-- The writes selection `n` makes before its ledger call, one per print call. -/
def prompts (n : Int) : List Bytes :=
  if n = 0 then [utf8 "Initializing ledger..." ++ [10]]
  else if n = 1 then [utf8 "Person ID: "]
  else if n = 2 then [utf8 "Car ID: "]
  else if n = 3 then [utf8 "Car color: "]
  else if n = 4 then [utf8 "Car color: ", utf8 "Car owner: "]
  else if n = 5 then [utf8 "Car ID: ", utf8 "New owner ID: ", utf8 "Accept faulted car? (Y/n): "]
  else if n = 6 then
    [utf8 "Car ID: ", utf8 "Fault description:" ++ [10], utf8 "Fault repair price: "]
  else if n = 7 then [utf8 "Car ID: ", utf8 "New car color: "]
  else if n = 8 then [utf8 "Car ID: "]
  else []

/-- The number of answers selection `n` reads after the selection itself. -/
def arity (n : Int) : Nat :=
  if n = 0 then 0
  else if n = 1 ∨ n = 2 ∨ n = 3 ∨ n = 8 then 1
  else if n = 4 ∨ n = 7 then 2
  else if n = 5 ∨ n = 6 then 3
  else 0

/-- The wrapped error line a handler prints for a failed call of kind `k`. -/
def wrapped (k : Kind) (cause : String) : Bytes :=
  match k with
  | .submit => utf8 ("failed to submit transaction: " ++ cause) ++ [10]
  | .evaluate => utf8 ("failed to evaluate transaction: " ++ cause) ++ [10]

/-- The end of a handler after its call of kind `k`. -/
def afterCall (k : Kind) (r : Except String Bytes × Session) : Ret :=
  match k with
  | .submit => afterSubmit r
  | .evaluate => afterEvaluate r

/-- A float32 for the examples, exact on the price answers they use: a whole number below
2^24 written in digits, which a float32 holds exactly, scans to its value and renders with
six zero decimals, and the empty answer does not scan.  Every other answer is taken as a
failed scan too, which the scan of Go need not be; the theorems hold for every `Float32`,
and no example reads such an answer. -/
def wholePrices : Float32 where
  F := Nat
  zero := 0
  scan t :=
    let v : Nat := t.data.foldl (fun a d => 10 * a + (d.toNat - 48)) 0
    if t.data ≠ [] ∧ t.data.all Char.isDigit ∧ v < 16777216 then some v else none
  format v := toString v ++ ".000000"

/-- A ledger that answers every call with the empty payload and no error. -/
def emptyLedger : Ledger :=
  fun _ _ => .ok []

/-- A ledger that fails every call with the cause `boom`. -/
def downLedger : Ledger :=
  fun _ _ => .error "boom"

end Client

/-- The bytes of an ASCII text, one per character. -/
def ascii (s : String) : Bytes :=
  s.data.map Char.toNat

namespace Bootstrap

/-- The organization `main` sets before the bootstrap step. -/
def orgNum : String := "org1"

/-- A file system laid out as the program expects for `org1`: the certificate, and a
keystore holding the given entries, each a readable file. -/
def sampleFs (keys : List String) : FileSystem where
  readFile p :=
    if p = certPath orgNum then .ok [67]
    else if keys.any (fun k => p == Join [keyDir orgNum, k]) then .ok [75]
    else .error "no such file"
  readDir p := if p = keyDir orgNum then .ok keys else .error "no such directory"

/-- An empty identity store in working order. -/
def emptyWallet : Wallet :=
  ⟨[], none⟩

end Bootstrap

namespace Json

/-! ## formatJSON unrolled, and the words of the specification about it -/

/-- What the loop of `Indent` appends for one byte with scan code `v`, and the new
`needIndent`, when the line lead-in and the indent are empty (as `formatJSON` passes
them): the line feed owed after an opening bracket, the byte, and the spacing around
punctuation. -/
def appended (v : Code) (c : Nat) (needIndent : Bool) : Bool × Bytes :=
  let pre : Bool × Bytes :=
    if needIndent && v != .scanEndObject && v != .scanEndArray then (false, [10])
    else (needIndent, [])
  if v = .scanContinue then (pre.1, pre.2 ++ [c])
  else if c = 123 ∨ c = 91 then (true, pre.2 ++ [c])
  else if c = 44 then (pre.1, pre.2 ++ [c, 10])
  else if c = 58 then (pre.1, pre.2 ++ [c, 32])
  else if c = 125 ∨ c = 93 then
    if pre.1 then (false, pre.2 ++ [c]) else (pre.1, pre.2 ++ [10, c])
  else (pre.1, pre.2 ++ [c])

/-- The output of `formatJSON` for the source bytes still to be read, from a scanner state
and a `needIndent` flag; `none` when the scanner reports an error. -/
def formatFrom : Scanner → Bool → Bytes → Option Bytes
  | scan, _, [] => if scan.eof then some [] else none
  | scan, needIndent, c :: src =>
    let r := scan.stepByte c
    if r.2 = .scanSkipSpace then formatFrom r.1 needIndent src
    else if r.2 = .scanError then none
    else
      let k := appended r.2 c needIndent
      (formatFrom r.1 k.1 src).map fun out => k.2 ++ out

/-- Where a byte stands relative to the string literals of a text. -/
inductive Lex where
  | outside
  | inString
  | escaped
  deriving DecidableEq, Repr

/-- The text without its insignificant whitespace: the space, tab, carriage return and line
feed bytes outside string literals are dropped, every other byte is kept in place. -/
def compactFrom : Lex → Bytes → Bytes
  | _, [] => []
  | .outside, c :: r =>
    if isSpace c then compactFrom .outside r
    else if c = 34 then c :: compactFrom .inString r
    else c :: compactFrom .outside r
  | .inString, c :: r =>
    if c = 34 then c :: compactFrom .outside r
    else if c = 92 then c :: compactFrom .escaped r
    else c :: compactFrom .inString r
  | .escaped, c :: r => c :: compactFrom .inString r

/-- The text without its insignificant whitespace, from its start. -/
def compact (p : Bytes) : Bytes :=
  compactFrom .outside p

/-- The scanner's flags agree with its state: an error is recorded exactly in the error
state, and outside it the top-level value is marked ended exactly in the end state. -/
def Scanner.WF (s : Scanner) : Prop :=
  (s.err = true ↔ s.step = .stateError) ∧
    (s.err = false → (s.endTop = true ↔ s.step = .stateEndTop))

end Json

namespace Json

/-! ## A reading of the scanner's transitions, for the proofs -/

/-- The states at the start of a value or key, in which space is skipped. -/
def Step.begins : Step → Bool
  | .stateBeginValue | .stateBeginValueOrEmpty | .stateBeginStringOrEmpty
  | .stateBeginString => true
  | _ => false

/-- The two states right after an opening bracket. -/
def Step.orEmpty : Step → Bool
  | .stateBeginValueOrEmpty | .stateBeginStringOrEmpty => true
  | _ => false

/-- The states in which a number may end. -/
def Step.numEnd : Step → Bool
  | .state0 | .state1 | .stateDot0 | .stateE0 => true
  | _ => false

/-- The states after a complete value: `stateEndValue` and the states in which a number may
end. -/
def Step.ends : Step → Bool
  | .stateEndValue | .state0 | .state1 | .stateDot0 | .stateE0 => true
  | _ => false

/-- The states inside a string, a number or a literal name. -/
def Step.mid : Step → Bool
  | .stateInString | .stateInStringEsc | .stateInStringEscU | .stateInStringEscU1
  | .stateInStringEscU12 | .stateInStringEscU123 | .stateNeg | .state1 | .state0 | .stateDot
  | .stateDot0 | .stateE | .stateESign | .stateE0 | .stateT | .stateTr | .stateTru | .stateF
  | .stateFa | .stateFal | .stateFals | .stateN | .stateNu | .stateNul => true
  | _ => false

/-- Where the scanner stands relative to string literals. -/
def lexOf : Step → Lex
  | .stateInString | .stateInStringEscU | .stateInStringEscU1 | .stateInStringEscU12
  | .stateInStringEscU123 => .inString
  | .stateInStringEsc => .escaped
  | _ => .outside

/-- How one byte moves the position relative to string literals. -/
def lexNext : Lex → Nat → Lex
  | .outside, c => if c = 34 then .inString else .outside
  | .inString, c => if c = 34 then .outside else if c = 92 then .escaped else .inString
  | .escaped, _ => .inString

/-- The byte `c` starts a literal whose scan continues in state `st`. -/
def startsLit (c : Nat) (st : Step) : Prop :=
  (c = 34 ∧ st = .stateInString) ∨ (c = 45 ∧ st = .stateNeg) ∨ (c = 48 ∧ st = .state0) ∨
    (49 ≤ c ∧ c ≤ 57 ∧ st = .state1) ∨ (c = 116 ∧ st = .stateT) ∨ (c = 102 ∧ st = .stateF) ∨
    (c = 110 ∧ st = .stateN)

/-- The transitions of the scanner by kind: `Trans s c s1 v` lists every way in which the
byte `c` can take the scanner `s` to `s1` with code `v`. -/
inductive Trans (s : Scanner) (c : Nat) (s1 : Scanner) : Code → Prop where
  | skipSame (e : s1 = s) (hc : isSpace c = true)
      (hs : s.step.begins = true ∨ (s.step = .stateEndValue ∧ s.parseState ≠ [])) :
      Trans s c s1 .scanSkipSpace
  | skipEnd (e : s1 = { s with step := .stateEndValue }) (hc : isSpace c = true)
      (hs : s.step.numEnd = true) (hp : s.parseState ≠ []) :
      Trans s c s1 .scanSkipSpace
  | error (h1 : s1.step = .stateError) (h2 : s1.err = true) : Trans s c s1 .scanError
  | cont (st : Step) (e : s1 = { s with step := st }) (hs : s.step.mid = true)
      (ht : st.mid = true ∨ st = .stateEndValue) (hl : lexNext (lexOf s.step) c = lexOf st) :
      Trans s c s1 .scanContinue
  | beginLit (st : Step) (e : s1 = { s with step := st }) (hs : s.step.begins = true)
      (hc : startsLit c st) :
      Trans s c s1 .scanBeginLiteral
  | openObj
      (e : s1 = { s with step := .stateBeginStringOrEmpty,
                         parseState := .parseObjectKey :: s.parseState })
      (hs : s.step = .stateBeginValue ∨ s.step = .stateBeginValueOrEmpty) (hc : c = 123) :
      Trans s c s1 .scanBeginObject
  | openArr
      (e : s1 = { s with step := .stateBeginValueOrEmpty,
                         parseState := .parseArrayValue :: s.parseState })
      (hs : s.step = .stateBeginValue ∨ s.step = .stateBeginValueOrEmpty) (hc : c = 91) :
      Trans s c s1 .scanBeginArray
  | key (rest : List ParseState)
      (e : s1 = { s with parseState := .parseObjectValue :: rest, step := .stateBeginValue })
      (hs : s.step.ends = true) (hp : s.parseState = .parseObjectKey :: rest) (hc : c = 58) :
      Trans s c s1 .scanObjectKey
  | sepObj (rest : List ParseState)
      (e : s1 = { s with parseState := .parseObjectKey :: rest, step := .stateBeginString })
      (hs : s.step.ends = true) (hp : s.parseState = .parseObjectValue :: rest) (hc : c = 44) :
      Trans s c s1 .scanObjectValue
  | sepArr (rest : List ParseState) (e : s1 = { s with step := .stateBeginValue })
      (hs : s.step.ends = true) (hp : s.parseState = .parseArrayValue :: rest) (hc : c = 44) :
      Trans s c s1 .scanArrayValue
  | closeObj (e : s1 = popParseState s)
      (hs : (s.step.ends = true ∧ ∃ rest, s.parseState = .parseObjectValue :: rest) ∨
        s.step = .stateBeginStringOrEmpty)
      (hc : c = 125) :
      Trans s c s1 .scanEndObject
  | closeArr (e : s1 = popParseState s)
      (hs : (s.step.ends = true ∨ s.step = .stateBeginValueOrEmpty) ∧
        ∃ rest, s.parseState = .parseArrayValue :: rest)
      (hc : c = 93) :
      Trans s c s1 .scanEndArray
  | top (e : s1 = { s with step := .stateEndTop, endTop := true }) (hc : isSpace c = true)
      (hs : s.step = .stateEndTop ∨ (s.step.ends = true ∧ s.parseState = [])) :
      Trans s c s1 .scanEnd
  | topError (hc : isSpace c = false) (h1 : s1.step = .stateError) (h2 : s1.err = true) :
      Trans s c s1 .scanEnd

/-- The flag `needIndent` of the loop is set only right after an opening bracket. -/
def NiOk (ni : Bool) (s : Scanner) : Prop :=
  ni = true → s.step.orEmpty = true

/-- What `compactFrom` keeps of one byte at a position. -/
def kept (l : Lex) (c : Nat) : Bytes :=
  if l = .outside ∧ isSpace c = true then [] else [c]

end Json

namespace Json

/-- The second pass of `formatJSON` over its own output lags the first pass by at most the
space after a number: its scanner `s2` is the first pass's scanner `s`, or is still in a
state in which a number may end while `s` has read space after that number. -/
def Lag (s s2 : Scanner) : Prop :=
  s2 = s ∨
    (s2.step.numEnd = true ∧ s2.parseState ≠ [] ∧ s = { s2 with step := .stateEndValue })

end Json

namespace Json

/-! ## The grammar of JSON texts (RFC 8259), read on bytes

A recogniser that follows the grammar rule by rule.  Each function takes the bytes still to
be read and returns the bytes left after the longest match of its rule, or `none` when the
rule does not match.  The unescaped characters of a string are read on their bytes: every
byte from 32 up other than the quotation mark and the backslash. -/

/-- `ws`: the text after its leading insignificant whitespace. -/
def skipWs : Bytes → Bytes
  | [] => []
  | c :: r => if isSpace c then skipWs r else c :: r

/-- `DIGIT`. -/
def isDigit (c : Nat) : Bool :=
  decide (48 ≤ c) && decide (c ≤ 57)

/-- `*DIGIT`: the text after its leading digits. -/
def skipDigits : Bytes → Bytes
  | [] => []
  | c :: r => if isDigit c then skipDigits r else c :: r

/-- `1*DIGIT`. -/
def digits1 : Bytes → Option Bytes
  | [] => none
  | c :: r => if isDigit c then some (skipDigits r) else none

/-- `int = zero / ( digit1-9 *DIGIT )`. -/
def intPart : Bytes → Option Bytes
  | [] => none
  | c :: r =>
    if c = 48 then some r
    else if 49 ≤ c ∧ c ≤ 57 then some (skipDigits r)
    else none

/-- `[ frac ]`, with `frac = decimal-point 1*DIGIT`. -/
def optFrac : Bytes → Option Bytes
  | [] => some []
  | c :: r => if c = 46 then digits1 r else some (c :: r)

/-- `[ minus / plus ] 1*DIGIT`, the part of `exp` after the letter. -/
def expTail : Bytes → Option Bytes
  | [] => none
  | c :: r => if c = 43 ∨ c = 45 then digits1 r else digits1 (c :: r)

/-- `[ exp ]`, with `exp = e [ minus / plus ] 1*DIGIT`. -/
def optExp : Bytes → Option Bytes
  | [] => some []
  | c :: r => if c = 101 ∨ c = 69 then expTail r else some (c :: r)

/-- `number = [ minus ] int [ frac ] [ exp ]`. -/
def number : Bytes → Option Bytes
  | [] => none
  | c :: r =>
    ((if c = 45 then intPart r else intPart (c :: r)).bind optFrac).bind optExp

/-- The text after `4HEXDIG`. -/
def hex4 : Bytes → Option Bytes
  | a :: b :: c :: d :: r => if isHex a && isHex b && isHex c && isHex d then some r else none
  | _ => none

/-- The bytes after the opening quotation mark of a string, up to and including the closing
one: `*char quotation-mark`, with
`char = unescaped / escape ( %x22 / %x5C / %x2F / %x62 / %x66 / %x6E / %x72 / %x74 / %x75 4HEXDIG )`.
An unescaped character is read byte by byte: every byte from `0x20` up other than the
quotation mark and the reverse solidus, so the bytes of a multi-byte character pass one by
one.  The fuel bounds the number of characters. -/
def chars : Nat → Bytes → Option Bytes
  | 0, _ => none
  | _ + 1, [] => none
  | fuel + 1, c :: r =>
    if c = 34 then some r
    else if c = 92 then
      match r with
      | [] => none
      | e :: r1 =>
        if e = 34 ∨ e = 92 ∨ e = 47 ∨ e = 98 ∨ e = 102 ∨ e = 110 ∨ e = 114 ∨ e = 116 then
          chars fuel r1
        else if e = 117 then (hex4 r1).bind (chars fuel)
        else none
    else if c < 32 then none
    else chars fuel r

/-- The text after the bytes `lit`, when it starts with them. -/
def literal : Bytes → Bytes → Option Bytes
  | [], r => some r
  | _ :: _, [] => none
  | l :: lit, c :: r => if c = l then literal lit r else none

mutual

/-- `value = false / null / true / object / array / number / string`, where `depth` is the
number of brackets that may still be opened around a nested value. -/
def value : Nat → Nat → Bytes → Option Bytes
  | 0, _, _ => none
  | _ + 1, _, [] => none
  | fuel + 1, depth, c :: r =>
    if c = 123 then
      match depth with
      | 0 => none
      | d + 1 =>
        match skipWs r with
        | [] => none
        | c1 :: r1 => if c1 = 125 then some r1 else members fuel d (c1 :: r1)
    else if c = 91 then
      match depth with
      | 0 => none
      | d + 1 =>
        match skipWs r with
        | [] => none
        | c1 :: r1 => if c1 = 93 then some r1 else elements fuel d (c1 :: r1)
    else if c = 34 then chars (r.length + 1) r
    else if c = 116 then literal [114, 117, 101] r
    else if c = 102 then literal [97, 108, 115, 101] r
    else if c = 110 then literal [117, 108, 108] r
    else if c = 45 ∨ isDigit c then number (c :: r)
    else none

/-- The elements of a non-empty array and its closing bracket:
`value *( ws %x2C ws value ) ws %x5D`. -/
def elements : Nat → Nat → Bytes → Option Bytes
  | 0, _, _ => none
  | fuel + 1, d, r =>
    match value fuel d r with
    | none => none
    | some r1 =>
      match skipWs r1 with
      | [] => none
      | c :: r2 =>
        if c = 44 then elements fuel d (skipWs r2)
        else if c = 93 then some r2
        else none

/-- The members of a non-empty object and its closing bracket:
`member *( ws %x2C ws member ) ws %x7D`, with `member = string ws %x3A ws value`. -/
def members : Nat → Nat → Bytes → Option Bytes
  | 0, _, _ => none
  | _ + 1, _, [] => none
  | fuel + 1, d, q :: r =>
    if q = 34 then
      match chars (r.length + 1) r with
      | none => none
      | some r1 =>
        match skipWs r1 with
        | [] => none
        | c :: r2 =>
          if c = 58 then
            match value fuel d (skipWs r2) with
            | none => none
            | some r3 =>
              match skipWs r3 with
              | [] => none
              | c3 :: r4 =>
                if c3 = 44 then members fuel d (skipWs r4)
                else if c3 = 125 then some r4
                else none
          else none
    else none

end

/-- `JSON-text = ws value ws`, with arrays and objects nested at most `maxDepth` deep. -/
def jsonWithin (maxDepth : Nat) (p : Bytes) : Bool :=
  match value (2 * p.length + 1) maxDepth (skipWs p) with
  | none => false
  | some r => (skipWs r).isEmpty

/-- A syntactically valid JSON text, whatever its nesting: a text of `n` bytes opens fewer
than `n + 1` brackets. -/
def validJSON (p : Bytes) : Bool :=
  jsonWithin p.length p

end Json

namespace Json

/-- The scanner in state `st` with stack `stk` and no flag set. -/
def inState (st : Step) (stk : List ParseState) : Scanner :=
  ⟨st, false, stk, false⟩

/-- Whether the scanner accepts the rest of a text once a value has ended under the stack
`stk`. -/
def afterValue (stk : List ParseState) (r : Bytes) : Bool :=
  checkValid r (inState .stateEndValue stk)

/-- The outcome of a rule of the grammar, continued by the scanner after the value. -/
def andThen (stk : List ParseState) (o : Option Bytes) : Bool :=
  match o with
  | none => false
  | some r => afterValue stk r

/-- The text is empty or starts with a byte that is not space. -/
def NoLeadingSpace (r : Bytes) : Prop :=
  ∀ c r0, r = c :: r0 → isSpace c = false

/-- The scanner at the start of a value accepts what the rule `value` accepts with fuel `f`,
and the rule consumes at least one byte. -/
def ValueOk (f : Nat) : Prop :=
  ∀ (r : Bytes) (stk : List ParseState) (d : Nat), 2 * r.length ≤ f →
    d + stk.length = maxNestingDepth → NoLeadingSpace r →
    checkValid r (inState .stateBeginValue stk) = andThen stk (value f d r) ∧
      ∀ r1, value f d r = some r1 → r1.length < r.length

/-- The scanner at the start of an element of an array accepts what the rule `elements`
accepts with fuel `f`. -/
def ElementsOk (f : Nat) : Prop :=
  ∀ (r : Bytes) (stk : List ParseState) (d : Nat), 2 * r.length + 1 ≤ f →
    d + (stk.length + 1) = maxNestingDepth → NoLeadingSpace r →
    checkValid r (inState .stateBeginValue (.parseArrayValue :: stk)) =
        andThen stk (elements f d r) ∧
      ∀ r1, elements f d r = some r1 → r1.length < r.length

/-- The scanner at the start of a key of an object accepts what the rule `members` accepts
with fuel `f`. -/
def MembersOk (f : Nat) : Prop :=
  ∀ (r : Bytes) (stk : List ParseState) (d : Nat), 2 * r.length + 1 ≤ f →
    d + (stk.length + 1) = maxNestingDepth → NoLeadingSpace r →
    checkValid r (inState .stateBeginString (.parseObjectKey :: stk)) =
        andThen stk (members f d r) ∧
      ∀ r1, members f d r = some r1 → r1.length < r.length

end Json

namespace Json

/-- The text of `n` opening square brackets followed by `n` closing ones: the empty array
nested `n` deep. -/
def nested (n : Nat) : Bytes :=
  List.replicate n 91 ++ List.replicate n 93

end Json

namespace Json

/-! ## The scanner's transitions -/

theorem stateEndValue_trans (s : Scanner) (c : Nat) (hs : s.step.ends = true) :
    Trans s c (stateEndValue s c).1 (stateEndValue s c).2 := by
  obtain ⟨st, et, ps, er⟩ := s
  simp only at hs
  unfold stateEndValue
  rcases ps with _ | ⟨ps, rest⟩
  · simp only [stateEndTop]
    cases hc : isSpace c
    · exact Trans.topError hc rfl rfl
    · exact Trans.top rfl hc (Or.inr ⟨hs, rfl⟩)
  · simp only
    cases hc : isSpace c
    · simp only [Bool.false_eq_true, if_false]
      cases ps
      · simp only
        by_cases h : c = 58
        · rw [if_pos h]; exact Trans.key rest rfl hs rfl h
        · rw [if_neg h]; exact Trans.error rfl rfl
      · simp only
        by_cases h : c = 44
        · rw [if_pos h]; exact Trans.sepObj rest rfl hs rfl h
        · rw [if_neg h]
          by_cases h2 : c = 125
          · rw [if_pos h2]; exact Trans.closeObj rfl (Or.inl ⟨hs, rest, rfl⟩) h2
          · rw [if_neg h2]; exact Trans.error rfl rfl
      · simp only
        by_cases h : c = 44
        · rw [if_pos h]; exact Trans.sepArr rest rfl hs rfl h
        · rw [if_neg h]
          by_cases h2 : c = 93
          · rw [if_pos h2]; exact Trans.closeArr rfl ⟨Or.inl hs, rest, rfl⟩ h2
          · rw [if_neg h2]; exact Trans.error rfl rfl
    · simp only [if_true]
      by_cases he : st = .stateEndValue
      · subst he
        exact Trans.skipSame rfl hc (Or.inr ⟨rfl, by simp⟩)
      · refine Trans.skipEnd rfl hc ?_ (by simp)
        revert hs he
        cases st <;> simp [Step.ends, Step.numEnd]

end Json

namespace Json

theorem lexNext_outside (c : Nat) (h : c ≠ 34) : lexNext .outside c = .outside := by
  simp [lexNext, h]

theorem lexNext_inString (c : Nat) (h1 : c ≠ 34) (h2 : c ≠ 92) :
    lexNext .inString c = .inString := by
  simp [lexNext, h1, h2]

theorem stateBeginValue_trans (s : Scanner) (c : Nat)
    (hs : s.step = .stateBeginValue ∨ s.step = .stateBeginValueOrEmpty) :
    Trans s c (stateBeginValue s c).1 (stateBeginValue s c).2 := by
  obtain ⟨st, et, ps, er⟩ := s
  simp only at hs
  have hb : st.begins = true := by rcases hs with h | h <;> subst h <;> rfl
  unfold stateBeginValue
  cases hc : isSpace c
  · simp only [Bool.false_eq_true, if_false]
    by_cases h1 : c = 123
    · rw [if_pos h1]
      unfold pushParseState
      by_cases hd : (ParseState.parseObjectKey :: ps).length ≤ maxNestingDepth
      · simp only [hd, if_true]; exact Trans.openObj rfl hs h1
      · simp only [hd, if_false]; exact Trans.error rfl rfl
    rw [if_neg h1]
    by_cases h2 : c = 91
    · rw [if_pos h2]
      unfold pushParseState
      by_cases hd : (ParseState.parseArrayValue :: ps).length ≤ maxNestingDepth
      · simp only [hd, if_true]; exact Trans.openArr rfl hs h2
      · simp only [hd, if_false]; exact Trans.error rfl rfl
    rw [if_neg h2]
    by_cases h3 : c = 34
    · rw [if_pos h3]; exact Trans.beginLit _ rfl hb (Or.inl ⟨h3, rfl⟩)
    rw [if_neg h3]
    by_cases h4 : c = 45
    · rw [if_pos h4]; exact Trans.beginLit _ rfl hb (Or.inr (Or.inl ⟨h4, rfl⟩))
    rw [if_neg h4]
    by_cases h5 : c = 48
    · rw [if_pos h5]; exact Trans.beginLit _ rfl hb (Or.inr (Or.inr (Or.inl ⟨h5, rfl⟩)))
    rw [if_neg h5]
    by_cases h6 : c = 116
    · rw [if_pos h6]
      exact Trans.beginLit _ rfl hb (Or.inr (Or.inr (Or.inr (Or.inr (Or.inl ⟨h6, rfl⟩)))))
    rw [if_neg h6]
    by_cases h7 : c = 102
    · rw [if_pos h7]
      exact Trans.beginLit _ rfl hb (Or.inr (Or.inr (Or.inr (Or.inr (Or.inr (Or.inl ⟨h7, rfl⟩))))))
    rw [if_neg h7]
    by_cases h8 : c = 110
    · rw [if_pos h8]
      exact Trans.beginLit _ rfl hb (Or.inr (Or.inr (Or.inr (Or.inr (Or.inr (Or.inr ⟨h8, rfl⟩))))))
    rw [if_neg h8]
    by_cases h9 : 49 ≤ c ∧ c ≤ 57
    · rw [if_pos h9]
      exact Trans.beginLit _ rfl hb (Or.inr (Or.inr (Or.inr (Or.inl ⟨h9.1, h9.2, rfl⟩))))
    rw [if_neg h9]
    exact Trans.error rfl rfl
  · simp only [if_true]
    exact Trans.skipSame rfl hc (Or.inl hb)

theorem stateBeginString_trans (s : Scanner) (c : Nat)
    (hs : s.step = .stateBeginString ∨ s.step = .stateBeginStringOrEmpty) :
    Trans s c (stateBeginString s c).1 (stateBeginString s c).2 := by
  obtain ⟨st, et, ps, er⟩ := s
  simp only at hs
  have hb : st.begins = true := by rcases hs with h | h <;> subst h <;> rfl
  unfold stateBeginString
  cases hc : isSpace c
  · simp only [Bool.false_eq_true, if_false]
    by_cases h3 : c = 34
    · rw [if_pos h3]; exact Trans.beginLit _ rfl hb (Or.inl ⟨h3, rfl⟩)
    rw [if_neg h3]
    exact Trans.error rfl rfl
  · simp only [if_true]
    exact Trans.skipSame rfl hc (Or.inl hb)

theorem isSpace_93 : isSpace 93 = false := by decide

theorem isSpace_125 : isSpace 125 = false := by decide

theorem stateBeginValueOrEmpty_trans (s : Scanner) (c : Nat)
    (hs : s.step = .stateBeginValueOrEmpty) :
    Trans s c (stateBeginValueOrEmpty s c).1 (stateBeginValueOrEmpty s c).2 := by
  unfold stateBeginValueOrEmpty
  cases hc : isSpace c
  · simp only [Bool.false_eq_true, if_false]
    by_cases h1 : c = 93
    · rw [if_pos h1]
      subst h1
      obtain ⟨st, et, ps, er⟩ := s
      simp only at hs
      subst hs
      unfold stateEndValue
      rcases ps with _ | ⟨p, rest⟩
      · simp only [stateEndTop, isSpace_93]
        exact Trans.topError isSpace_93 rfl rfl
      · simp only [isSpace_93]
        cases p
        · exact Trans.error rfl rfl
        · exact Trans.error rfl rfl
        · exact Trans.closeArr rfl ⟨Or.inr rfl, rest, rfl⟩ rfl
    · rw [if_neg h1]
      exact stateBeginValue_trans s c (Or.inr hs)
  · simp only [if_true]
    exact Trans.skipSame rfl hc (Or.inl (by rw [hs]; rfl))

theorem stateBeginStringOrEmpty_trans (s : Scanner) (c : Nat)
    (hs : s.step = .stateBeginStringOrEmpty) :
    Trans s c (stateBeginStringOrEmpty s c).1 (stateBeginStringOrEmpty s c).2 := by
  unfold stateBeginStringOrEmpty
  cases hc : isSpace c
  · simp only [Bool.false_eq_true, if_false]
    by_cases h1 : c = 125
    · rw [if_pos h1]
      subst h1
      obtain ⟨st, et, ps, er⟩ := s
      simp only at hs
      subst hs
      unfold stateEndValue
      simp only [isSpace_125]
      exact Trans.closeObj rfl (Or.inr rfl) rfl
    · rw [if_neg h1]
      exact stateBeginString_trans s c (Or.inr hs)
  · simp only [if_true]
    exact Trans.skipSame rfl hc (Or.inl (by rw [hs]; rfl))

end Json

namespace Json

theorem stateInString_trans (s : Scanner) (c : Nat) (hs : s.step = .stateInString) :
    Trans s c (stateInString s c).1 (stateInString s c).2 := by
  obtain ⟨st, et, ps, er⟩ := s
  simp only at hs
  subst hs
  unfold stateInString
  by_cases h1 : c = 34
  · rw [if_pos h1]; subst h1; exact Trans.cont _ rfl rfl (Or.inr rfl) rfl
  rw [if_neg h1]
  by_cases h2 : c = 92
  · rw [if_pos h2]; subst h2; exact Trans.cont _ rfl rfl (Or.inl rfl) rfl
  rw [if_neg h2]
  by_cases h3 : c < 32
  · rw [if_pos h3]; exact Trans.error rfl rfl
  rw [if_neg h3]
  exact Trans.cont .stateInString rfl rfl (Or.inl rfl) (lexNext_inString c h1 h2)

theorem stateInStringEsc_trans (s : Scanner) (c : Nat) (hs : s.step = .stateInStringEsc) :
    Trans s c (stateInStringEsc s c).1 (stateInStringEsc s c).2 := by
  obtain ⟨st, et, ps, er⟩ := s
  simp only at hs
  subst hs
  unfold stateInStringEsc
  by_cases h1 : c = 98 ∨ c = 102 ∨ c = 110 ∨ c = 114 ∨ c = 116 ∨ c = 92 ∨ c = 47 ∨ c = 34
  · rw [if_pos h1]; exact Trans.cont _ rfl rfl (Or.inl rfl) rfl
  rw [if_neg h1]
  by_cases h2 : c = 117
  · rw [if_pos h2]; exact Trans.cont _ rfl rfl (Or.inl rfl) rfl
  rw [if_neg h2]
  exact Trans.error rfl rfl

theorem isHex_ne (c : Nat) (h : isHex c = true) : c ≠ 34 ∧ c ≠ 92 := by
  simp only [isHex, Bool.or_eq_true, Bool.and_eq_true, decide_eq_true_eq] at h
  omega

theorem stateHex_trans (next : Step) (s : Scanner) (c : Nat) (hs : lexOf s.step = .inString)
    (hm : s.step.mid = true) (hn : lexOf next = .inString) (hnm : next.mid = true) :
    Trans s c (stateHex next s c).1 (stateHex next s c).2 := by
  obtain ⟨st, et, ps, er⟩ := s
  simp only at hs hm
  unfold stateHex
  cases h : isHex c
  · simp only [Bool.false_eq_true, if_false]; exact Trans.error rfl rfl
  · simp only [if_true]
    refine Trans.cont next rfl hm (Or.inl hnm) ?_
    simp only [hs, hn]
    exact lexNext_inString c (isHex_ne c h).1 (isHex_ne c h).2

theorem stateLit_trans (want : Nat) (next : Step) (s : Scanner) (c : Nat)
    (hs : lexOf s.step = .outside) (hm : s.step.mid = true) (hw : want ≠ 34)
    (hn : lexOf next = .outside) (hnm : next.mid = true ∨ next = .stateEndValue) :
    Trans s c (stateLit want next s c).1 (stateLit want next s c).2 := by
  obtain ⟨st, et, ps, er⟩ := s
  simp only at hs hm
  unfold stateLit
  by_cases h : c = want
  · rw [if_pos h]
    refine Trans.cont next rfl hm hnm ?_
    simp only [hs, hn]
    exact lexNext_outside c (by omega)
  · rw [if_neg h]; exact Trans.error rfl rfl

/-- A continuation step outside strings on a byte other than the quote. -/
theorem Trans.contOutside (s : Scanner) (c : Nat) (st : Step) (hs : lexOf s.step = .outside)
    (hm : s.step.mid = true) (hc : c ≠ 34) (hn : lexOf st = .outside)
    (hnm : st.mid = true) : Trans s c { s with step := st } .scanContinue := by
  refine Trans.cont st rfl hm (Or.inl hnm) ?_
  rw [hs, hn]
  exact lexNext_outside c hc

theorem stateNeg_trans (s : Scanner) (c : Nat) (hs : s.step = .stateNeg) :
    Trans s c (stateNeg s c).1 (stateNeg s c).2 := by
  obtain ⟨st, et, ps, er⟩ := s
  simp only at hs
  subst hs
  unfold stateNeg
  by_cases h1 : c = 48
  · rw [if_pos h1]; exact Trans.contOutside _ c _ rfl rfl (by omega) rfl rfl
  rw [if_neg h1]
  by_cases h2 : 49 ≤ c ∧ c ≤ 57
  · rw [if_pos h2]; exact Trans.contOutside _ c _ rfl rfl (by omega) rfl rfl
  rw [if_neg h2]
  exact Trans.error rfl rfl

theorem state0_trans (s : Scanner) (c : Nat) (hs : s.step = .state0 ∨ s.step = .state1) :
    Trans s c (state0 s c).1 (state0 s c).2 := by
  have hm : s.step.mid = true := by rcases hs with h | h <;> rw [h] <;> rfl
  have hl : lexOf s.step = .outside := by rcases hs with h | h <;> rw [h] <;> rfl
  have he : s.step.ends = true := by rcases hs with h | h <;> rw [h] <;> rfl
  unfold state0
  by_cases h1 : c = 46
  · rw [if_pos h1]; exact Trans.contOutside _ c _ hl hm (by omega) rfl rfl
  rw [if_neg h1]
  by_cases h2 : c = 101 ∨ c = 69
  · rw [if_pos h2]; exact Trans.contOutside _ c _ hl hm (by omega) rfl rfl
  rw [if_neg h2]
  exact stateEndValue_trans s c he

theorem state1_trans (s : Scanner) (c : Nat) (hs : s.step = .state1) :
    Trans s c (state1 s c).1 (state1 s c).2 := by
  unfold state1
  by_cases h1 : 48 ≤ c ∧ c ≤ 57
  · rw [if_pos h1]
    exact Trans.contOutside _ c _ (by rw [hs]; rfl) (by rw [hs]; rfl) (by omega) rfl rfl
  rw [if_neg h1]
  exact state0_trans s c (Or.inr hs)

theorem stateDot_trans (s : Scanner) (c : Nat) (hs : s.step = .stateDot) :
    Trans s c (stateDot s c).1 (stateDot s c).2 := by
  unfold stateDot
  by_cases h1 : 48 ≤ c ∧ c ≤ 57
  · rw [if_pos h1]
    exact Trans.contOutside _ c _ (by rw [hs]; rfl) (by rw [hs]; rfl) (by omega) rfl rfl
  rw [if_neg h1]
  exact Trans.error rfl rfl

theorem stateDot0_trans (s : Scanner) (c : Nat) (hs : s.step = .stateDot0) :
    Trans s c (stateDot0 s c).1 (stateDot0 s c).2 := by
  unfold stateDot0
  by_cases h1 : 48 ≤ c ∧ c ≤ 57
  · rw [if_pos h1]
    have := Trans.contOutside s c .stateDot0 (by rw [hs]; rfl) (by rw [hs]; rfl) (by omega)
      rfl rfl
    have he : ({ s with step := .stateDot0 } : Scanner) = s := by
      cases s; simp only at hs; subst hs; rfl
    rw [he] at this
    exact this
  rw [if_neg h1]
  by_cases h2 : c = 101 ∨ c = 69
  · rw [if_pos h2]
    exact Trans.contOutside _ c _ (by rw [hs]; rfl) (by rw [hs]; rfl) (by omega) rfl rfl
  rw [if_neg h2]
  exact stateEndValue_trans s c (by rw [hs]; rfl)

theorem stateESign_trans (s : Scanner) (c : Nat) (hs : s.step = .stateESign ∨ s.step = .stateE) :
    Trans s c (stateESign s c).1 (stateESign s c).2 := by
  have hm : s.step.mid = true := by rcases hs with h | h <;> rw [h] <;> rfl
  have hl : lexOf s.step = .outside := by rcases hs with h | h <;> rw [h] <;> rfl
  unfold stateESign
  by_cases h1 : 48 ≤ c ∧ c ≤ 57
  · rw [if_pos h1]; exact Trans.contOutside _ c _ hl hm (by omega) rfl rfl
  rw [if_neg h1]
  exact Trans.error rfl rfl

theorem stateE_trans (s : Scanner) (c : Nat) (hs : s.step = .stateE) :
    Trans s c (stateE s c).1 (stateE s c).2 := by
  unfold stateE
  by_cases h1 : c = 43 ∨ c = 45
  · rw [if_pos h1]
    exact Trans.contOutside _ c _ (by rw [hs]; rfl) (by rw [hs]; rfl) (by omega) rfl rfl
  rw [if_neg h1]
  exact stateESign_trans s c (Or.inr hs)

theorem stateE0_trans (s : Scanner) (c : Nat) (hs : s.step = .stateE0) :
    Trans s c (stateE0 s c).1 (stateE0 s c).2 := by
  unfold stateE0
  by_cases h1 : 48 ≤ c ∧ c ≤ 57
  · rw [if_pos h1]
    have := Trans.contOutside s c .stateE0 (by rw [hs]; rfl) (by rw [hs]; rfl) (by omega)
      rfl rfl
    have he : ({ s with step := .stateE0 } : Scanner) = s := by
      cases s; simp only at hs; subst hs; rfl
    rw [he] at this
    exact this
  rw [if_neg h1]
  exact stateEndValue_trans s c (by rw [hs]; rfl)

theorem stateEndTop_trans (s : Scanner) (c : Nat) (hs : s.step = .stateEndTop)
    (he : s.endTop = true) : Trans s c (stateEndTop s c).1 (stateEndTop s c).2 := by
  obtain ⟨st, et, ps, er⟩ := s
  simp only at hs he
  subst hs he
  unfold stateEndTop
  cases hc : isSpace c
  · exact Trans.topError hc rfl rfl
  · exact Trans.top rfl hc (Or.inl rfl)

/-- Every step of the scanner is one of the transitions listed by `Trans`. -/
theorem stepByte_trans (s : Scanner) (c : Nat) (h : s.WF) :
    Trans s c (s.stepByte c).1 (s.stepByte c).2 := by
  unfold Scanner.stepByte
  cases hs : s.step with
  | stateBeginValue => exact stateBeginValue_trans s c (Or.inl hs)
  | stateBeginValueOrEmpty => exact stateBeginValueOrEmpty_trans s c hs
  | stateBeginStringOrEmpty => exact stateBeginStringOrEmpty_trans s c hs
  | stateBeginString => exact stateBeginString_trans s c (Or.inl hs)
  | stateEndValue => exact stateEndValue_trans s c (by rw [hs]; rfl)
  | stateEndTop =>
    refine stateEndTop_trans s c hs ?_
    have he : s.err = false := by
      cases h2 : s.err
      · rfl
      · rw [h.1.mp h2] at hs; cases hs
    exact (h.2 he).mpr hs
  | stateInString => exact stateInString_trans s c hs
  | stateInStringEsc => exact stateInStringEsc_trans s c hs
  | stateInStringEscU =>
    exact stateHex_trans _ s c (by rw [hs]; rfl) (by rw [hs]; rfl) rfl rfl
  | stateInStringEscU1 =>
    exact stateHex_trans _ s c (by rw [hs]; rfl) (by rw [hs]; rfl) rfl rfl
  | stateInStringEscU12 =>
    exact stateHex_trans _ s c (by rw [hs]; rfl) (by rw [hs]; rfl) rfl rfl
  | stateInStringEscU123 =>
    exact stateHex_trans _ s c (by rw [hs]; rfl) (by rw [hs]; rfl) rfl rfl
  | stateNeg => exact stateNeg_trans s c hs
  | state1 => exact state1_trans s c hs
  | state0 => exact state0_trans s c (Or.inl hs)
  | stateDot => exact stateDot_trans s c hs
  | stateDot0 => exact stateDot0_trans s c hs
  | stateE => exact stateE_trans s c hs
  | stateESign => exact stateESign_trans s c (Or.inl hs)
  | stateE0 => exact stateE0_trans s c hs
  | stateT =>
    exact stateLit_trans _ _ s c (by rw [hs]; rfl) (by rw [hs]; rfl) (by decide) rfl (Or.inl rfl)
  | stateTr =>
    exact stateLit_trans _ _ s c (by rw [hs]; rfl) (by rw [hs]; rfl) (by decide) rfl (Or.inl rfl)
  | stateTru =>
    exact stateLit_trans _ _ s c (by rw [hs]; rfl) (by rw [hs]; rfl) (by decide) rfl (Or.inr rfl)
  | stateF =>
    exact stateLit_trans _ _ s c (by rw [hs]; rfl) (by rw [hs]; rfl) (by decide) rfl (Or.inl rfl)
  | stateFa =>
    exact stateLit_trans _ _ s c (by rw [hs]; rfl) (by rw [hs]; rfl) (by decide) rfl (Or.inl rfl)
  | stateFal =>
    exact stateLit_trans _ _ s c (by rw [hs]; rfl) (by rw [hs]; rfl) (by decide) rfl (Or.inl rfl)
  | stateFals =>
    exact stateLit_trans _ _ s c (by rw [hs]; rfl) (by rw [hs]; rfl) (by decide) rfl (Or.inr rfl)
  | stateN =>
    exact stateLit_trans _ _ s c (by rw [hs]; rfl) (by rw [hs]; rfl) (by decide) rfl (Or.inl rfl)
  | stateNu =>
    exact stateLit_trans _ _ s c (by rw [hs]; rfl) (by rw [hs]; rfl) (by decide) rfl (Or.inl rfl)
  | stateNul =>
    exact stateLit_trans _ _ s c (by rw [hs]; rfl) (by rw [hs]; rfl) (by decide) rfl (Or.inr rfl)
  | stateError =>
    exact Trans.error hs (h.1.mpr hs)

end Json

namespace Json

/-! ## Invariants of the scanner and of the loop -/

theorem Step.begins_ne (st : Step) (h : st.begins = true) :
    st ≠ .stateError ∧ st ≠ .stateEndTop ∧ st.mid = false ∧ st.ends = false ∧
      lexOf st = .outside := by
  cases st <;> first | exact ⟨by decide, by decide, rfl, rfl, rfl⟩ | cases h

theorem Step.mid_ne (st : Step) (h : st.mid = true) :
    st ≠ .stateError ∧ st ≠ .stateEndTop ∧ st.begins = false ∧ st ≠ .stateEndValue := by
  cases st <;> first | exact ⟨by decide, by decide, rfl, by decide⟩ | cases h

theorem Step.ends_ne (st : Step) (h : st.ends = true) :
    st ≠ .stateError ∧ st ≠ .stateEndTop ∧ st.begins = false ∧ lexOf st = .outside ∧
      (st = .stateEndValue ∨ st.numEnd = true) := by
  cases st <;> first | exact ⟨by decide, by decide, rfl, rfl, by decide⟩ | cases h

theorem Step.numEnd_ends (st : Step) (h : st.numEnd = true) :
    st.ends = true ∧ st.mid = true ∧ st ≠ .stateEndValue := by
  cases st <;> first | exact ⟨rfl, rfl, by decide⟩ | cases h

theorem Step.orEmpty_begins (st : Step) (h : st.orEmpty = true) :
    st.begins = true ∧ (st = .stateBeginValueOrEmpty ∨ st = .stateBeginStringOrEmpty) := by
  cases st <;> first | exact ⟨rfl, by decide⟩ | cases h

/-- In a state that is neither the error nor the end state, no flag is set. -/
theorem Scanner.WF.flags (s : Scanner) (h : s.WF) (h1 : s.step ≠ .stateError)
    (h2 : s.step ≠ .stateEndTop) : s.err = false ∧ s.endTop = false := by
  have he : s.err = false := by
    cases h3 : s.err
    · rfl
    · exact absurd (h.1.mp h3) h1
  refine ⟨he, ?_⟩
  cases h3 : s.endTop
  · rfl
  · exact absurd ((h.2 he).mp h3) h2

/-- Moving between states that are neither the error nor the end state keeps the flags in
agreement. -/
theorem Scanner.WF.move (s : Scanner) (st : Step) (ps : List ParseState) (h : s.WF)
    (h1 : s.step ≠ .stateError) (h2 : s.step ≠ .stateEndTop) (h3 : st ≠ .stateError)
    (h4 : st ≠ .stateEndTop) : ({ s with step := st, parseState := ps } : Scanner).WF := by
  obtain ⟨he, ht⟩ := h.flags s h1 h2
  obtain ⟨st0, et, ps0, er⟩ := s
  simp only at he ht
  subst he ht
  simp [Scanner.WF, h3, h4]

theorem Scanner.WF.pop (s : Scanner) (h : s.WF) (h1 : s.step ≠ .stateError)
    (h2 : s.step ≠ .stateEndTop) : (popParseState s).WF := by
  obtain ⟨he, ht⟩ := h.flags s h1 h2
  obtain ⟨st0, et, ps0, er⟩ := s
  simp only at he ht
  subst he ht
  unfold popParseState
  simp only []
  split <;> simp [Scanner.WF]

theorem Scanner.WF.toTop (s : Scanner) (h : s.WF) (h1 : s.step ≠ .stateError) :
    ({ s with step := .stateEndTop, endTop := true } : Scanner).WF := by
  have he : s.err = false := by
    cases h3 : s.err
    · rfl
    · exact absurd (h.1.mp h3) h1
  obtain ⟨st0, et, ps0, er⟩ := s
  simp only at he
  subst he
  simp [Scanner.WF]

theorem Scanner.WF.ofError (s1 : Scanner) (h1 : s1.step = .stateError) (h2 : s1.err = true) :
    s1.WF := by
  obtain ⟨st0, et, ps0, er⟩ := s1
  simp only at h1 h2
  subst h1 h2
  simp [Scanner.WF]

/-- The flags stay in agreement with the state along every transition. -/
theorem Trans.WF (s : Scanner) (c : Nat) (s1 : Scanner) (v : Code) (t : Trans s c s1 v)
    (h : s.WF) : s1.WF := by
  cases t with
  | skipSame e hc hs =>
    subst e
    exact h
  | skipEnd e hc hs hp =>
    subst e
    have hn := Step.numEnd_ends _ hs
    have hm := Step.mid_ne _ hn.2.1
    exact h.move s _ s.parseState hm.1 hm.2.1 (by decide) (by decide)
  | error h1 h2 => exact Scanner.WF.ofError s1 h1 h2
  | cont st e hs ht hl =>
    subst e
    have hm := Step.mid_ne _ hs
    refine h.move s st s.parseState hm.1 hm.2.1 ?_ ?_
    · rcases ht with ht | ht
      · exact (Step.mid_ne _ ht).1
      · rw [ht]; decide
    · rcases ht with ht | ht
      · exact (Step.mid_ne _ ht).2.1
      · rw [ht]; decide
  | beginLit st e hs hc =>
    subst e
    have hb := Step.begins_ne _ hs
    refine h.move s st s.parseState hb.1 hb.2.1 ?_ ?_
    · rcases hc with ⟨_, h⟩ | ⟨_, h⟩ | ⟨_, h⟩ | ⟨_, _, h⟩ | ⟨_, h⟩ | ⟨_, h⟩ | ⟨_, h⟩ <;>
        rw [h] <;> decide
    · rcases hc with ⟨_, h⟩ | ⟨_, h⟩ | ⟨_, h⟩ | ⟨_, _, h⟩ | ⟨_, h⟩ | ⟨_, h⟩ | ⟨_, h⟩ <;>
        rw [h] <;> decide
  | openObj e hs hc =>
    subst e
    have hb : s.step ≠ .stateError ∧ s.step ≠ .stateEndTop := by
      rcases hs with h | h <;> rw [h] <;> exact ⟨by decide, by decide⟩
    exact h.move s _ _ hb.1 hb.2 (by decide) (by decide)
  | openArr e hs hc =>
    subst e
    have hb : s.step ≠ .stateError ∧ s.step ≠ .stateEndTop := by
      rcases hs with h | h <;> rw [h] <;> exact ⟨by decide, by decide⟩
    exact h.move s _ _ hb.1 hb.2 (by decide) (by decide)
  | key rest e hs hp hc =>
    subst e
    have he := Step.ends_ne _ hs
    exact h.move s _ _ he.1 he.2.1 (by decide) (by decide)
  | sepObj rest e hs hp hc =>
    subst e
    have he := Step.ends_ne _ hs
    exact h.move s _ _ he.1 he.2.1 (by decide) (by decide)
  | sepArr rest e hs hp hc =>
    subst e
    have he := Step.ends_ne _ hs
    exact h.move s _ s.parseState he.1 he.2.1 (by decide) (by decide)
  | closeObj e hs hc =>
    subst e
    refine h.pop s ?_ ?_
    · rcases hs with ⟨h, _⟩ | h
      · exact (Step.ends_ne _ h).1
      · rw [h]; decide
    · rcases hs with ⟨h, _⟩ | h
      · exact (Step.ends_ne _ h).2.1
      · rw [h]; decide
  | closeArr e hs hc =>
    subst e
    refine h.pop s ?_ ?_
    · rcases hs.1 with h | h
      · exact (Step.ends_ne _ h).1
      · rw [h]; decide
    · rcases hs.1 with h | h
      · exact (Step.ends_ne _ h).2.1
      · rw [h]; decide
  | top e hc hs =>
    subst e
    refine h.toTop s ?_
    rcases hs with h | ⟨h, _⟩
    · rw [h]; decide
    · exact (Step.ends_ne _ h).1
  | topError hc h1 h2 => exact Scanner.WF.ofError s1 h1 h2

theorem newScanner_WF : newScanner.WF := by
  simp [Scanner.WF, newScanner]

theorem stepByte_WF (s : Scanner) (c : Nat) (h : s.WF) : (s.stepByte c).1.WF :=
  Trans.WF s c _ _ (stepByte_trans s c h) h

/-- In the error state nothing is formatted. -/
theorem formatFrom_error (s : Scanner) (ni : Bool) (src : Bytes) (h : s.WF)
    (he : s.step = .stateError) : formatFrom s ni src = none := by
  cases src with
  | nil =>
    have : s.err = true := h.1.mpr he
    simp [formatFrom, Scanner.eof, this]
  | cons c src =>
    have : s.stepByte c = (s, .scanError) := by
      unfold Scanner.stepByte; rw [he]
    simp [formatFrom, this]

end Json

namespace Json

/-! ## formatJSON changes only insignificant whitespace -/

theorem formatFrom_skip (s s1 : Scanner) (ni : Bool) (c : Nat) (src : Bytes)
    (h : s.stepByte c = (s1, .scanSkipSpace)) :
    formatFrom s ni (c :: src) = formatFrom s1 ni src := by
  simp [formatFrom, h]

theorem formatFrom_fail (s s1 : Scanner) (ni : Bool) (c : Nat) (src : Bytes)
    (h : s.stepByte c = (s1, .scanError)) : formatFrom s ni (c :: src) = none := by
  simp [formatFrom, h]

theorem formatFrom_emit (s s1 : Scanner) (v : Code) (ni : Bool) (c : Nat) (src : Bytes)
    (h : s.stepByte c = (s1, v)) (h1 : v ≠ .scanSkipSpace) (h2 : v ≠ .scanError) :
    formatFrom s ni (c :: src) =
      (formatFrom s1 (appended v c ni).1 src).map fun out => (appended v c ni).2 ++ out := by
  simp [formatFrom, h, h1, h2]

theorem isSpace_cases (c : Nat) (h : isSpace c = true) : c = 32 ∨ c = 9 ∨ c = 13 ∨ c = 10 := by
  simp only [isSpace, Bool.and_eq_true, Bool.or_eq_true, beq_iff_eq, decide_eq_true_eq] at h
  omega

theorem compactFrom_space (c : Nat) (x : Bytes) (h : isSpace c = true) :
    compactFrom .outside (c :: x) = compactFrom .outside x := by
  simp [compactFrom, h]

theorem compactFrom_cons (l : Lex) (c : Nat) (x : Bytes) :
    compactFrom l (c :: x) = kept l c ++ compactFrom (lexNext l c) x := by
  cases l with
  | outside =>
    cases hc : isSpace c
    · by_cases h : c = 34
      · subst h
        have h34 : isSpace 34 = false := by decide
        simp [compactFrom, kept, lexNext, h34]
      · simp [compactFrom, kept, lexNext, hc, h]
    · have h : c ≠ 34 := by
        rcases isSpace_cases c hc with h | h | h | h <;> omega
      simp [compactFrom, kept, lexNext, hc, h]
  | inString =>
    by_cases h : c = 34
    · simp [compactFrom, kept, lexNext, h]
    · by_cases h2 : c = 92
      · simp [compactFrom, kept, lexNext, h2]
      · simp [compactFrom, kept, lexNext, h, h2]
  | escaped => simp [compactFrom, kept, lexNext]

theorem appended_cont (c : Nat) : appended .scanContinue c false = (false, [c]) := by
  simp [appended]

theorem startsLit_facts (c : Nat) (st : Step) (h : startsLit c st) :
    c ≠ 123 ∧ c ≠ 91 ∧ c ≠ 44 ∧ c ≠ 58 ∧ c ≠ 125 ∧ c ≠ 93 ∧ isSpace c = false ∧
      lexNext .outside c = lexOf st ∧ st.mid = true := by
  rcases h with ⟨h, h2⟩ | ⟨h, h2⟩ | ⟨h, h2⟩ | ⟨h, h1, h2⟩ | ⟨h, h2⟩ | ⟨h, h2⟩ | ⟨h, h2⟩
  · subst h h2; decide
  · subst h h2; decide
  · subst h h2; decide
  · subst h2
    have hs : isSpace c = false := by
      cases hc : isSpace c
      · rfl
      · rcases isSpace_cases c hc with h | h | h | h <;> omega
    refine ⟨by omega, by omega, by omega, by omega, by omega, by omega, hs, ?_, rfl⟩
    exact lexNext_outside c (by omega)
  · subst h h2; decide
  · subst h h2; decide
  · subst h h2; decide

theorem appended_lit (c : Nat) (ni : Bool) (h1 : c ≠ 123) (h2 : c ≠ 91) (h3 : c ≠ 44)
    (h4 : c ≠ 58) (h5 : c ≠ 125) (h6 : c ≠ 93) :
    appended .scanBeginLiteral c ni = (false, (if ni then [10] else []) ++ [c]) := by
  cases ni <;> simp [appended, h1, h2, h3, h4, h5, h6]

theorem appended_end (c : Nat) (h : isSpace c = true) :
    appended .scanEnd c false = (false, [c]) := by
  rcases isSpace_cases c h with h | h | h | h <;> subst h <;> rfl

end Json

namespace Json

theorem compactFrom_nl (x : Bytes) :
    compactFrom .outside (10 :: x) = compactFrom .outside x :=
  compactFrom_space 10 x (by decide)

/-- From any scanner state, what `formatJSON` writes and what it reads are the same text
once insignificant whitespace is dropped. -/
theorem formatFrom_compact (src : Bytes) :
    ∀ (s : Scanner) (ni : Bool) (out : Bytes), s.WF → NiOk ni s →
      formatFrom s ni src = some out →
      compactFrom (lexOf s.step) out = compactFrom (lexOf s.step) src := by
  induction src with
  | nil =>
    intro s ni out _ _ h
    unfold formatFrom at h
    split at h
    · injection h with h; rw [← h]
    · cases h
  | cons c src ih =>
    intro s ni out hw hn h
    rcases hT : s.stepByte c with ⟨s1, v⟩
    have t : Trans s c s1 v := by
      have t0 := stepByte_trans s c hw
      rw [hT] at t0
      exact t0
    have hw1 : s1.WF := Trans.WF s c s1 v t hw
    -- the common end of every emitting case
    have fin : ∀ (k1 : Bool) (k2 : Bytes), appended v c ni = (k1, k2) →
        v ≠ .scanSkipSpace → v ≠ .scanError → (s1.step ≠ .stateError → NiOk k1 s1) →
        (∀ x, compactFrom (lexOf s.step) (k2 ++ x) =
          kept (lexOf s.step) c ++ compactFrom (lexOf s1.step) x) →
        lexNext (lexOf s.step) c = lexOf s1.step →
        compactFrom (lexOf s.step) out = compactFrom (lexOf s.step) (c :: src) := by
      intro k1 k2 hk hv1 hv2 hni hshape hlex
      rw [formatFrom_emit s s1 v ni c src hT hv1 hv2, hk] at h
      simp only [Option.map_eq_some'] at h
      obtain ⟨out1, h1, h2⟩ := h
      have hne : s1.step ≠ .stateError := by
        intro he
        rw [formatFrom_error s1 k1 src hw1 he] at h1
        cases h1
      have := ih s1 k1 out1 hw1 (hni hne) h1
      rw [← h2, hshape, this, compactFrom_cons, hlex]
    cases t with
    | skipSame e hc hs =>
      rw [e] at hT
      rw [formatFrom_skip s s ni c src hT] at h
      have hl : lexOf s.step = .outside := by
        rcases hs with hs | ⟨hs, _⟩
        · exact (Step.begins_ne _ hs).2.2.2.2
        · rw [hs]; rfl
      have := ih s ni out hw hn h
      rw [hl] at this ⊢
      rw [compactFrom_space c src hc]
      exact this
    | skipEnd e hc hs hp =>
      subst e
      rw [formatFrom_skip s _ ni c src hT] at h
      have hnum := Step.numEnd_ends _ hs
      have hl : lexOf s.step = .outside := (Step.ends_ne _ hnum.1).2.2.2.1
      have hni : NiOk ni { s with step := .stateEndValue } := by
        intro h1
        have := Step.orEmpty_begins _ (hn h1)
        rw [(Step.mid_ne _ hnum.2.1).2.2.1] at this
        cases this.1
      have := ih _ ni out hw1 hni h
      rw [hl]
      rw [compactFrom_space c src hc]
      exact this
    | error h1 h2 =>
      rw [formatFrom_fail s s1 ni c src hT] at h
      cases h
    | cont st e hs ht hl =>
      subst e
      have hni : ni = false := by
        cases hb : ni
        · rfl
        · have := Step.orEmpty_begins _ (hn hb)
          rw [(Step.mid_ne _ hs).2.2.1] at this
          cases this.1
      subst hni
      refine fin false [c] (appended_cont c) (by decide) (by decide) ?_ ?_ hl
      · intro _ h1; cases h1
      · intro x
        rw [List.singleton_append, compactFrom_cons, hl]
    | beginLit st e hs hc =>
      subst e
      have hf := startsLit_facts c st hc
      have hl : lexOf s.step = .outside := (Step.begins_ne _ hs).2.2.2.2
      refine fin false _ (appended_lit c ni hf.1 hf.2.1 hf.2.2.1 hf.2.2.2.1 hf.2.2.2.2.1
        hf.2.2.2.2.2.1) (by decide) (by decide) ?_ ?_ ?_
      · intro _ h1; cases h1
      · intro x
        rw [hl]
        cases ni
        · simp only [Bool.false_eq_true, if_false, List.nil_append, List.singleton_append]
          rw [compactFrom_cons, hf.2.2.2.2.2.2.2.1]
        · simp only [if_true, List.cons_append, List.nil_append]
          rw [compactFrom_nl, compactFrom_cons, hf.2.2.2.2.2.2.2.1]
      · rw [hl]; exact hf.2.2.2.2.2.2.2.1
    | openObj e hs hc =>
      subst e
      subst hc
      have hl : lexOf s.step = .outside := by rcases hs with h | h <;> rw [h] <;> rfl
      refine fin true ((if ni then [10] else []) ++ [123]) (by cases ni <;> rfl) (by decide)
        (by decide) ?_ ?_ ?_
      · intro _ _; rfl
      · intro x
        rw [hl]
        cases ni
        · rfl
        · simp only [if_true, List.cons_append, List.nil_append]
          rw [compactFrom_nl]; rfl
      · rw [hl]; rfl
    | openArr e hs hc =>
      subst e
      subst hc
      have hl : lexOf s.step = .outside := by rcases hs with h | h <;> rw [h] <;> rfl
      refine fin true ((if ni then [10] else []) ++ [91]) (by cases ni <;> rfl) (by decide)
        (by decide) ?_ ?_ ?_
      · intro _ _; rfl
      · intro x
        rw [hl]
        cases ni
        · rfl
        · simp only [if_true, List.cons_append, List.nil_append]
          rw [compactFrom_nl]; rfl
      · rw [hl]; rfl
    | key rest e hs hp hc =>
      subst e
      subst hc
      have he := Step.ends_ne _ hs
      have hni : ni = false := by
        cases hb : ni
        · rfl
        · have := Step.orEmpty_begins _ (hn hb)
          rw [he.2.2.1] at this
          cases this.1
      subst hni
      refine fin false [58, 32] rfl (by decide) (by decide) ?_ ?_ ?_
      · intro _ h1; cases h1
      · intro x; rw [he.2.2.2.1]; rfl
      · rw [he.2.2.2.1]; rfl
    | sepObj rest e hs hp hc =>
      subst e
      subst hc
      have he := Step.ends_ne _ hs
      have hni : ni = false := by
        cases hb : ni
        · rfl
        · have := Step.orEmpty_begins _ (hn hb)
          rw [he.2.2.1] at this
          cases this.1
      subst hni
      refine fin false [44, 10] rfl (by decide) (by decide) ?_ ?_ ?_
      · intro _ h1; cases h1
      · intro x; rw [he.2.2.2.1]; rfl
      · rw [he.2.2.2.1]; rfl
    | sepArr rest e hs hp hc =>
      subst e
      subst hc
      have he := Step.ends_ne _ hs
      have hni : ni = false := by
        cases hb : ni
        · rfl
        · have := Step.orEmpty_begins _ (hn hb)
          rw [he.2.2.1] at this
          cases this.1
      subst hni
      refine fin false [44, 10] rfl (by decide) (by decide) ?_ ?_ ?_
      · intro _ h1; cases h1
      · intro x; rw [he.2.2.2.1]; rfl
      · rw [he.2.2.2.1]; rfl
    | closeObj e hs hc =>
      subst e
      subst hc
      have hl : lexOf s.step = .outside := by
        rcases hs with ⟨h, _⟩ | h
        · exact (Step.ends_ne _ h).2.2.2.1
        · rw [h]; rfl
      have hl1 : lexOf (popParseState s).step = .outside := by
        unfold popParseState; simp only []; split <;> rfl
      refine fin false ((if ni then [] else [10]) ++ [125]) (by cases ni <;> rfl) (by decide)
        (by decide) ?_ ?_ ?_
      · intro _ h1; cases h1
      · intro x
        rw [hl, hl1]
        cases ni
        · simp only [Bool.false_eq_true, if_false, List.cons_append, List.nil_append]
          rw [compactFrom_nl]; rfl
        · rfl
      · rw [hl, hl1]; rfl
    | closeArr e hs hc =>
      subst e
      subst hc
      have hl : lexOf s.step = .outside := by
        rcases hs.1 with h | h
        · exact (Step.ends_ne _ h).2.2.2.1
        · rw [h]; rfl
      have hl1 : lexOf (popParseState s).step = .outside := by
        unfold popParseState; simp only []; split <;> rfl
      refine fin false ((if ni then [] else [10]) ++ [93]) (by cases ni <;> rfl) (by decide)
        (by decide) ?_ ?_ ?_
      · intro _ h1; cases h1
      · intro x
        rw [hl, hl1]
        cases ni
        · simp only [Bool.false_eq_true, if_false, List.cons_append, List.nil_append]
          rw [compactFrom_nl]; rfl
        · rfl
      · rw [hl, hl1]; rfl
    | top e hc hs =>
      subst e
      have hb : s.step.begins = false ∧ lexOf s.step = .outside := by
        rcases hs with h | ⟨h, _⟩
        · rw [h]; exact ⟨rfl, rfl⟩
        · exact ⟨(Step.ends_ne _ h).2.2.1, (Step.ends_ne _ h).2.2.2.1⟩
      have hni : ni = false := by
        cases hn2 : ni
        · rfl
        · have := Step.orEmpty_begins _ (hn hn2)
          rw [hb.1] at this
          cases this.1
      subst hni
      have hc34 : c ≠ 34 := by
        rcases isSpace_cases c hc with h | h | h | h <;> omega
      refine fin false [c] (appended_end c hc) (by decide) (by decide) ?_ ?_ ?_
      · intro _ h1; cases h1
      · intro x
        rw [hb.2, List.singleton_append, compactFrom_cons, lexNext_outside c hc34]
        rfl
      · rw [hb.2]; exact lexNext_outside c hc34
    | topError hc h1 h2 =>
      rw [formatFrom_emit s s1 _ ni c src hT (by decide) (by decide)] at h
      rw [formatFrom_error s1 _ src hw1 h1] at h
      cases h

end Json

namespace Json

/-! ## formatJSON is the unrolled loop -/

theorem flatten_replicate_nil (n : Nat) : (List.replicate n ([] : Bytes)).flatten = [] := by
  induction n with
  | zero => rfl
  | succ n ih => rw [List.replicate_succ, List.flatten_cons, ih]; rfl

theorem newline_empty (dst : Bytes) (d : Int) : newline dst [] [] d = dst ++ [10] := by
  simp [newline, flatten_replicate_nil]

theorem emit_appended (v : Code) (c : Nat) (ni : Bool) (d : Int) (dst k : Bytes) :
    ∃ d1, emit [] [] v c ni d (dst ++ k) =
      ((if v = .scanContinue then (ni, k ++ [c])
        else if c = 123 ∨ c = 91 then (true, k ++ [c])
        else if c = 44 then (ni, k ++ [c, 10])
        else if c = 58 then (ni, k ++ [c, 32])
        else if c = 125 ∨ c = 93 then
          if ni then (false, k ++ [c]) else (ni, k ++ [10, c])
        else (ni, k ++ [c])).1, d1,
       dst ++ (if v = .scanContinue then (ni, k ++ [c])
        else if c = 123 ∨ c = 91 then (true, k ++ [c])
        else if c = 44 then (ni, k ++ [c, 10])
        else if c = 58 then (ni, k ++ [c, 32])
        else if c = 125 ∨ c = 93 then
          if ni then (false, k ++ [c]) else (ni, k ++ [10, c])
        else (ni, k ++ [c])).2) := by
  unfold emit
  simp only [newline_empty]
  by_cases h1 : v = .scanContinue
  · simp only [if_pos h1]; exact ⟨d, by simp⟩
  simp only [if_neg h1]
  by_cases h2 : c = 123 ∨ c = 91
  · simp only [if_pos h2]; exact ⟨d, by simp⟩
  simp only [if_neg h2]
  by_cases h3 : c = 44
  · simp only [if_pos h3]; exact ⟨d, by simp⟩
  simp only [if_neg h3]
  by_cases h4 : c = 58
  · simp only [if_pos h4]; exact ⟨d, by simp⟩
  simp only [if_neg h4]
  by_cases h5 : c = 125 ∨ c = 93
  · simp only [if_pos h5]
    cases ni
    · exact ⟨d - 1, by simp⟩
    · exact ⟨d, by simp⟩
  simp only [if_neg h5]
  exact ⟨d, by simp⟩

/-- One round of the loop of `Indent` appends what `appended` says. -/
theorem loop_round (v : Code) (c : Nat) (ni : Bool) (d : Int) (dst : Bytes) :
    ∃ d1,
      emit [] [] v c
          (if ni && v != .scanEndObject && v != .scanEndArray then
            (false, d + 1, newline dst [] [] (d + 1)) else (ni, d, dst)).1
          (if ni && v != .scanEndObject && v != .scanEndArray then
            (false, d + 1, newline dst [] [] (d + 1)) else (ni, d, dst)).2.1
          (if ni && v != .scanEndObject && v != .scanEndArray then
            (false, d + 1, newline dst [] [] (d + 1)) else (ni, d, dst)).2.2 =
        ((appended v c ni).1, d1, dst ++ (appended v c ni).2) := by
  unfold appended
  cases hP : (ni && v != .scanEndObject && v != .scanEndArray)
  · simp only [Bool.false_eq_true, if_false]
    have := emit_appended v c ni d dst []
    simpa using this
  · simp only [if_true, newline_empty]
    have := emit_appended v c false (d + 1) dst [10]
    simpa using this

theorem scanError_err (s : Scanner) (c : Nat) (s1 : Scanner) (hw : s.WF)
    (h : s.stepByte c = (s1, .scanError)) : s1.err = true := by
  have t : Trans s c s1 .scanError := by
    have t0 := stepByte_trans s c hw
    rw [h] at t0
    exact t0
  cases t with
  | error h1 h2 => exact h2

/-- The loop of `Indent` with empty lead-in and indent, followed by the check of
`scan.eof()`, is `formatFrom` appended to the buffer. -/
theorem indentLoop_eq (src : Bytes) :
    ∀ (s : Scanner) (ni : Bool) (d : Int) (dst : Bytes), s.WF →
      (if (indentLoop [] [] src s ni d dst).1.eof then
          some (indentLoop [] [] src s ni d dst).2 else none) =
        (formatFrom s ni src).map fun out => dst ++ out := by
  induction src with
  | nil =>
    intro s ni d dst _
    simp only [indentLoop, formatFrom]
    split <;> simp
  | cons c src ih =>
    intro s ni d dst hw
    rcases hT : s.stepByte c with ⟨s1, v⟩
    have hw1 : s1.WF := by
      have := stepByte_WF s c hw
      rw [hT] at this
      exact this
    by_cases h1 : v = .scanSkipSpace
    · subst h1
      rw [formatFrom_skip s s1 ni c src hT]
      simp only [indentLoop, hT, if_true]
      exact ih s1 ni d dst hw1
    by_cases h2 : v = .scanError
    · subst h2
      rw [formatFrom_fail s s1 ni c src hT]
      have he := scanError_err s c s1 hw hT
      simp [indentLoop, hT, Scanner.eof, he]
    rw [formatFrom_emit s s1 v ni c src hT h1 h2]
    obtain ⟨d1, hd⟩ := loop_round v c ni d dst
    simp only [indentLoop, hT, if_neg h1, if_neg h2]
    rw [hd]
    rw [ih s1 _ d1 _ hw1]
    cases formatFrom s1 (appended v c ni).1 src <;> simp

/-- The source's `formatJSON` is the unrolled loop from a fresh scanner. -/
theorem formatJSON_eq (p : Bytes) : formatJSON p = formatFrom newScanner false p := by
  have := indentLoop_eq p newScanner false 0 [] newScanner_WF
  simp only [formatJSON, Indent]
  rw [this]
  cases formatFrom newScanner false p <;> simp

end Json

namespace Json

/-! ## formatJSON is idempotent -/

theorem stepByte_space_begins (s : Scanner) (w : Nat) (hs : s.step.begins = true)
    (hw : isSpace w = true) : s.stepByte w = (s, .scanSkipSpace) := by
  obtain ⟨st, et, ps, er⟩ := s
  simp only at hs
  cases st <;> try cases hs
  all_goals
    simp only [Scanner.stepByte, stateBeginValue, stateBeginValueOrEmpty,
      stateBeginStringOrEmpty, stateBeginString, hw, if_true]

theorem stepByte_space_endValue (s : Scanner) (w : Nat) (hs : s.step = .stateEndValue)
    (hp : s.parseState ≠ []) (hw : isSpace w = true) : s.stepByte w = (s, .scanSkipSpace) := by
  obtain ⟨st, et, ps, er⟩ := s
  simp only at hs hp
  subst hs
  cases ps with
  | nil => exact absurd rfl hp
  | cons p rest => simp only [Scanner.stepByte, stateEndValue, hw, if_true]

theorem stepByte_space_numEnd (s : Scanner) (w : Nat) (hs : s.step.numEnd = true)
    (hp : s.parseState ≠ []) (hw : isSpace w = true) :
    s.stepByte w = ({ s with step := .stateEndValue }, .scanSkipSpace) := by
  obtain ⟨st, et, ps, er⟩ := s
  simp only at hs hp
  cases ps with
  | nil => exact absurd rfl hp
  | cons p rest =>
    rcases isSpace_cases w hw with h | h | h | h <;> subst h <;> cases st <;>
      first | rfl | cases hs

/-- A separator or closing bracket is read from a state in which a number may end as it is
read from `stateEndValue`. -/
theorem stepByte_numEnd_punct (s : Scanner) (c : Nat) (hs : s.step.numEnd = true)
    (hc : c = 58 ∨ c = 44 ∨ c = 125 ∨ c = 93) :
    s.stepByte c = ({ s with step := .stateEndValue } : Scanner).stepByte c := by
  obtain ⟨st, et, ps, er⟩ := s
  simp only at hs
  rcases ps with _ | ⟨p, rest⟩
  · rcases hc with h | h | h | h <;> subst h <;> cases st <;> first | rfl | cases hs
  · cases p <;> rcases hc with h | h | h | h <;> subst h <;> cases st <;>
      first | rfl | cases hs

end Json

namespace Json

theorem Lag.refl (s : Scanner) : Lag s s := Or.inl rfl

/-- From a lagging scanner a separator or closing bracket is read as from the leading
one. -/
theorem Lag.punct (s s2 : Scanner) (c : Nat) (h : Lag s s2)
    (hc : c = 58 ∨ c = 44 ∨ c = 125 ∨ c = 93) : s2.stepByte c = s.stepByte c := by
  rcases h with h | ⟨h1, _, h3⟩
  · rw [h]
  · rw [h3]; exact stepByte_numEnd_punct s2 c h1 hc

/-- A lagging scanner whose leader is not after a value is the leader. -/
theorem Lag.eq_of_ne (s s2 : Scanner) (h : Lag s s2) (hs : s.step ≠ .stateEndValue) :
    s2 = s := by
  rcases h with h | ⟨_, _, h3⟩
  · exact h
  · rw [h3] at hs; exact absurd rfl hs

theorem Lag.eq_of_nil (s s2 : Scanner) (h : Lag s s2) (hs : s.parseState = []) :
    s2 = s := by
  rcases h with h | ⟨_, h2, h3⟩
  · exact h
  · rw [h3] at hs; exact absurd hs h2

/-- After a value inside a bracket, the lagging scanner reads a line feed and then a closing
bracket as the leading one reads the bracket. -/
theorem Lag.newline_close (s s2 : Scanner) (c : Nat) (h : Lag s s2) (hs : s.step.ends = true)
    (hp : s.parseState ≠ []) (hc : c = 58 ∨ c = 44 ∨ c = 125 ∨ c = 93) :
    ∃ s3, s2.stepByte 10 = (s3, .scanSkipSpace) ∧ s3.stepByte c = s.stepByte c := by
  have h10 : isSpace 10 = true := by decide
  rcases h with h | ⟨h1, h2, h3⟩
  · subst h
    rcases (Step.ends_ne _ hs).2.2.2.2 with he | he
    · exact ⟨s2, stepByte_space_endValue s2 10 he hp h10, rfl⟩
    · exact ⟨_, stepByte_space_numEnd s2 10 he hp h10, (stepByte_numEnd_punct s2 c he hc).symm⟩
  · refine ⟨s, ?_, rfl⟩
    rw [h3]
    exact stepByte_space_numEnd s2 10 h1 h2 h10

theorem NiOk.false_of (ni : Bool) (s : Scanner) (h : NiOk ni s) (hb : s.step.begins = false) :
    ni = false := by
  cases hn : ni
  · rfl
  · have := Step.orEmpty_begins _ (h hn)
    rw [hb] at this
    cases this.1

theorem formatFrom_nl (s : Scanner) (ni : Bool) (x : Bytes) (hs : s.step.begins = true) :
    formatFrom s ni (10 :: x) = formatFrom s ni x :=
  formatFrom_skip s s ni 10 x (stepByte_space_begins s 10 hs (by decide))

theorem formatFrom_sp (s : Scanner) (ni : Bool) (x : Bytes) (hs : s.step.begins = true) :
    formatFrom s ni (32 :: x) = formatFrom s ni x :=
  formatFrom_skip s s ni 32 x (stepByte_space_begins s 32 hs (by decide))

end Json

namespace Json

/-- The second pass: from a scanner that lags the first pass's scanner as `Lag` allows,
formatting the output of the first pass gives that output again. -/
theorem formatFrom_idem (src : Bytes) :
    ∀ (s s2 : Scanner) (ni : Bool) (out : Bytes), s.WF → NiOk ni s → Lag s s2 →
      formatFrom s ni src = some out → formatFrom s2 ni out = some out := by
  induction src with
  | nil =>
    intro s s2 ni out hw _ hl h
    unfold formatFrom at h
    split at h
    · rename_i he
      injection h with h
      subst h
      rcases hl with hl | ⟨h1, h2, h3⟩
      · subst hl
        simp [formatFrom, he]
      · exfalso
        have hst : s.step = .stateEndValue := by rw [h3]
        have hps : s.parseState ≠ [] := by rw [h3]; exact h2
        have hf := hw.flags s (by rw [hst]; decide) (by rw [hst]; decide)
        have h32 := stepByte_space_endValue s 32 hst hps (by decide)
        simp [Scanner.eof, hf.1, hf.2, h32] at he
    · cases h
  | cons c src ih =>
    intro s s2 ni out hw hn hl h
    rcases hT : s.stepByte c with ⟨s1, v⟩
    have t : Trans s c s1 v := by
      have t0 := stepByte_trans s c hw
      rw [hT] at t0
      exact t0
    have hw1 : s1.WF := Trans.WF s c s1 v t hw
    have fin : ∀ (k1 : Bool) (k2 : Bytes), appended v c ni = (k1, k2) →
        v ≠ .scanSkipSpace → v ≠ .scanError → (s1.step ≠ .stateError → NiOk k1 s1) →
        (∀ x, formatFrom s2 ni (k2 ++ x) = (formatFrom s1 k1 x).map fun o => k2 ++ o) →
        formatFrom s2 ni out = some out := by
      intro k1 k2 hk hv1 hv2 hni hreplay
      rw [formatFrom_emit s s1 v ni c src hT hv1 hv2, hk] at h
      simp only [Option.map_eq_some'] at h
      obtain ⟨out1, h1, h2⟩ := h
      have hne : s1.step ≠ .stateError := by
        intro he
        rw [formatFrom_error s1 k1 src hw1 he] at h1
        cases h1
      have := ih s1 s1 k1 out1 hw1 (hni hne) (Lag.refl s1) h1
      rw [← h2, hreplay, this]
      rfl
    -- reading the byte itself in the second pass
    have direct : ∀ (sa : Scanner) (k1 : Bool) (k2 : Bytes), sa.stepByte c = (s1, v) →
        appended v c ni = (k1, k2) → v ≠ .scanSkipSpace → v ≠ .scanError →
        ∀ x, formatFrom sa ni (c :: x) = (formatFrom s1 k1 x).map fun o => k2 ++ o := by
      intro sa k1 k2 hsa hk hv1 hv2 x
      rw [formatFrom_emit sa s1 v ni c x hsa hv1 hv2, hk]
    cases t with
    | skipSame e hc hs =>
      rw [e] at hT
      rw [formatFrom_skip s s ni c src hT] at h
      exact ih s s2 ni out hw hn hl h
    | skipEnd e hc hs hp =>
      subst e
      rw [formatFrom_skip s _ ni c src hT] at h
      have hnum := Step.numEnd_ends _ hs
      have hni : NiOk ni { s with step := .stateEndValue } := by
        intro h1
        have := Step.orEmpty_begins _ (hn h1)
        rw [(Step.mid_ne _ hnum.2.1).2.2.1] at this
        cases this.1
      have hs2 : s2 = s := Lag.eq_of_ne s s2 hl hnum.2.2
      subst hs2
      exact ih _ s2 ni out hw1 hni (Or.inr ⟨hs, hp, rfl⟩) h
    | error h1 h2 =>
      rw [formatFrom_fail s s1 ni c src hT] at h
      cases h
    | cont st e hs ht hlx =>
      have hm := Step.mid_ne _ hs
      have hni : ni = false := NiOk.false_of ni s hn hm.2.2.1
      subst hni
      have hs2 : s2 = s := Lag.eq_of_ne s s2 hl hm.2.2.2
      subst hs2
      refine fin false [c] (appended_cont c) (by decide) (by decide) ?_ ?_
      · intro _ h1; cases h1
      · intro x
        exact direct s2 false [c] hT (appended_cont c) (by decide) (by decide) x
    | beginLit st e hs hc =>
      have hb := Step.begins_ne _ hs
      have hf := startsLit_facts c st hc
      have hs2 : s2 = s :=
        Lag.eq_of_ne s s2 hl (by intro h0; rw [h0] at hs; cases hs)
      subst hs2
      have hk := appended_lit c ni hf.1 hf.2.1 hf.2.2.1 hf.2.2.2.1 hf.2.2.2.2.1
        hf.2.2.2.2.2.1
      refine fin false _ hk (by decide) (by decide) ?_ ?_
      · intro _ h1; cases h1
      · intro x
        cases hni : ni
        · subst hni
          exact direct s2 false _ hT hk (by decide) (by decide) x
        · subst hni
          simp only [if_true, List.cons_append, List.nil_append]
          rw [formatFrom_nl s2 true _ hs]
          exact direct s2 false _ hT hk (by decide) (by decide) x
    | openObj e hs hc =>
      subst hc
      have hb : s.step.begins = true := by rcases hs with h0 | h0 <;> rw [h0] <;> rfl
      have hs2 : s2 = s :=
        Lag.eq_of_ne s s2 hl (by intro h0; rw [h0] at hb; cases hb)
      subst hs2
      have hk : appended .scanBeginObject 123 ni = (true, (if ni then [10] else []) ++ [123]) := by
        cases ni <;> rfl
      refine fin true _ hk (by decide) (by decide) ?_ ?_
      · intro _ _; rw [e]; rfl
      · intro x
        cases hni : ni
        · subst hni
          exact direct s2 true _ hT hk (by decide) (by decide) x
        · subst hni
          simp only [if_true, List.cons_append, List.nil_append]
          rw [formatFrom_nl s2 true _ hb]
          exact direct s2 true _ hT hk (by decide) (by decide) x
    | openArr e hs hc =>
      subst hc
      have hb : s.step.begins = true := by rcases hs with h0 | h0 <;> rw [h0] <;> rfl
      have hs2 : s2 = s :=
        Lag.eq_of_ne s s2 hl (by intro h0; rw [h0] at hb; cases hb)
      subst hs2
      have hk : appended .scanBeginArray 91 ni = (true, (if ni then [10] else []) ++ [91]) := by
        cases ni <;> rfl
      refine fin true _ hk (by decide) (by decide) ?_ ?_
      · intro _ _; rw [e]; rfl
      · intro x
        cases hni : ni
        · subst hni
          exact direct s2 true _ hT hk (by decide) (by decide) x
        · subst hni
          simp only [if_true, List.cons_append, List.nil_append]
          rw [formatFrom_nl s2 true _ hb]
          exact direct s2 true _ hT hk (by decide) (by decide) x
    | key rest e hs hp hc =>
      subst hc
      have he := Step.ends_ne _ hs
      have hni : ni = false := NiOk.false_of ni s hn he.2.2.1
      subst hni
      have h2 : s2.stepByte 58 = (s1, .scanObjectKey) := by
        rw [Lag.punct s s2 58 hl (by decide), hT]
      refine fin false [58, 32] rfl (by decide) (by decide) ?_ ?_
      · intro _ h1; cases h1
      · intro x
        have := direct s2 false [58, 32] h2 rfl (by decide) (by decide) (32 :: x)
        rw [formatFrom_sp s1 false x (by rw [e]; rfl)] at this
        exact this
    | sepObj rest e hs hp hc =>
      subst hc
      have he := Step.ends_ne _ hs
      have hni : ni = false := NiOk.false_of ni s hn he.2.2.1
      subst hni
      have h2 : s2.stepByte 44 = (s1, .scanObjectValue) := by
        rw [Lag.punct s s2 44 hl (by decide), hT]
      refine fin false [44, 10] rfl (by decide) (by decide) ?_ ?_
      · intro _ h1; cases h1
      · intro x
        have := direct s2 false [44, 10] h2 rfl (by decide) (by decide) (10 :: x)
        rw [formatFrom_nl s1 false x (by rw [e]; rfl)] at this
        exact this
    | sepArr rest e hs hp hc =>
      subst hc
      have he := Step.ends_ne _ hs
      have hni : ni = false := NiOk.false_of ni s hn he.2.2.1
      subst hni
      have h2 : s2.stepByte 44 = (s1, .scanArrayValue) := by
        rw [Lag.punct s s2 44 hl (by decide), hT]
      refine fin false [44, 10] rfl (by decide) (by decide) ?_ ?_
      · intro _ h1; cases h1
      · intro x
        have := direct s2 false [44, 10] h2 rfl (by decide) (by decide) (10 :: x)
        rw [formatFrom_nl s1 false x (by rw [e]; rfl)] at this
        exact this
    | closeObj e hs hc =>
      subst hc
      have hk : appended .scanEndObject 125 ni = (false, (if ni then [] else [10]) ++ [125]) := by
        cases ni <;> rfl
      refine fin false _ hk (by decide) (by decide) ?_ ?_
      · intro _ h1; cases h1
      · intro x
        cases hni : ni
        · subst hni
          simp only [Bool.false_eq_true, if_false, List.cons_append, List.nil_append]
          rcases hs with ⟨hs, rest, hp⟩ | hs
          · obtain ⟨s3, h3, h4⟩ := Lag.newline_close s s2 125 hl hs (by rw [hp]; simp)
              (by decide)
            rw [formatFrom_skip s2 s3 false 10 _ h3]
            exact direct s3 false _ (by rw [h4, hT]) hk (by decide) (by decide) x
          · have hs2 : s2 = s := Lag.eq_of_ne s s2 hl (by rw [hs]; decide)
            subst hs2
            rw [formatFrom_nl s2 false _ (by rw [hs]; rfl)]
            exact direct s2 false _ hT hk (by decide) (by decide) x
        · subst hni
          have hb := (Step.orEmpty_begins _ (hn rfl)).1
          have hs2 : s2 = s :=
            Lag.eq_of_ne s s2 hl (by intro h0; rw [h0] at hb; cases hb)
          subst hs2
          exact direct s2 false _ hT hk (by decide) (by decide) x
    | closeArr e hs hc =>
      subst hc
      have hk : appended .scanEndArray 93 ni = (false, (if ni then [] else [10]) ++ [93]) := by
        cases ni <;> rfl
      refine fin false _ hk (by decide) (by decide) ?_ ?_
      · intro _ h1; cases h1
      · intro x
        cases hni : ni
        · subst hni
          simp only [Bool.false_eq_true, if_false, List.cons_append, List.nil_append]
          obtain ⟨hs, rest, hp⟩ := hs
          rcases hs with hs | hs
          · obtain ⟨s3, h3, h4⟩ := Lag.newline_close s s2 93 hl hs (by rw [hp]; simp)
              (by decide)
            rw [formatFrom_skip s2 s3 false 10 _ h3]
            exact direct s3 false _ (by rw [h4, hT]) hk (by decide) (by decide) x
          · have hs2 : s2 = s := Lag.eq_of_ne s s2 hl (by rw [hs]; decide)
            subst hs2
            rw [formatFrom_nl s2 false _ (by rw [hs]; rfl)]
            exact direct s2 false _ hT hk (by decide) (by decide) x
        · subst hni
          have hb := (Step.orEmpty_begins _ (hn rfl)).1
          have hs2 : s2 = s :=
            Lag.eq_of_ne s s2 hl (by intro h0; rw [h0] at hb; cases hb)
          subst hs2
          exact direct s2 false _ hT hk (by decide) (by decide) x
    | top e hc hs =>
      have hb : s.step.begins = false := by
        rcases hs with h0 | ⟨h0, _⟩
        · rw [h0]; rfl
        · exact (Step.ends_ne _ h0).2.2.1
      have hni : ni = false := NiOk.false_of ni s hn hb
      subst hni
      have hs2 : s2 = s := by
        rcases hs with h0 | ⟨_, h0⟩
        · exact Lag.eq_of_ne s s2 hl (by rw [h0]; decide)
        · exact Lag.eq_of_nil s s2 hl h0
      subst hs2
      refine fin false [c] (appended_end c hc) (by decide) (by decide) ?_ ?_
      · intro _ h1; cases h1
      · intro x
        exact direct s2 false [c] hT (appended_end c hc) (by decide) (by decide) x
    | topError hc h1 h2 =>
      rw [formatFrom_emit s s1 _ ni c src hT (by decide) (by decide)] at h
      rw [formatFrom_error s1 _ src hw1 h1] at h
      cases h

end Json

namespace Client

/-! ## The dispatch loop: lemmas -/

theorem foldl_println (ls : List String) (s : Session) :
    ls.foldl println s =
      { s with stdout := s.stdout ++ ls.map fun t => utf8 t ++ [10] } := by
  induction ls generalizing s with
  | nil => simp
  | cons a ls ih => simp [ih, println]

theorem scanString_eq (s : Session) :
    scanString s = (s.stdin.getD 0 "", { s with stdin := s.stdin.drop 1 }) := by
  unfold scanString; cases s with | mk o i out cs => cases i <;> rfl

theorem scanDescription_eq (s : Session) :
    scanDescription s =
      ((s.stdin.head?.bind Scan).getD "", { s with stdin := s.stdin.drop 1 }) := by
  unfold scanDescription; cases s with | mk o i out cs => cases i <;> rfl

theorem received_of_ne (n : Int) (entries : List String) (h : n ≠ 6) :
    received n entries = entries := by
  unfold received
  split
  · rw [if_neg h]
  · rfl

theorem scanFloat_eq (fp : Float32) (s : Session) :
    scanFloat fp s =
      ((s.stdin.head?.bind fp.scan).getD fp.zero, { s with stdin := s.stdin.drop 1 }) := by
  unfold scanFloat; cases s with | mk o i out cs => cases i <;> rfl

/-- Every case of the switch that has a table row prints its prompts, reads its answers,
makes the row's call once, and ends as the handler does after that call. -/
theorem dispatch_eq (fp : Float32) (l : Ledger) (o : Int) (inp : List String)
    (out : List Bytes) (cs : List Call) (c : Call)
    (h : tableCall fp o (received o inp) = some c) :
    dispatch fp l ⟨o, inp, out, cs⟩ =
      afterCall c.kind (l cs c, ⟨o, inp.drop (arity o), out ++ prompts o, cs ++ [c]⟩) := by
  by_cases h0 : o = 0
  · subst h0
    rw [received_of_ne _ _ (by decide)] at h
    simp [tableCall] at h; subst h
    simp [dispatch, initLedger, SubmitTransaction, println, afterCall, prompts, arity]
  by_cases h1 : o = 1
  · subst h1
    rw [received_of_ne _ _ (by decide)] at h
    simp [tableCall] at h; subst h
    simp [dispatch, readPersonAsset, scanString_eq, EvaluateTransaction, printf, afterCall,
      prompts, arity]
  by_cases h2 : o = 2
  · subst h2
    rw [received_of_ne _ _ (by decide)] at h
    simp [tableCall] at h; subst h
    simp [dispatch, readCarAsset, scanString_eq, EvaluateTransaction, printf, afterCall,
      prompts, arity]
  by_cases h3 : o = 3
  · subst h3
    rw [received_of_ne _ _ (by decide)] at h
    simp [tableCall] at h; subst h
    simp [dispatch, getCarsByColor, scanString_eq, EvaluateTransaction, printf, afterCall,
      prompts, arity]
  by_cases h4 : o = 4
  · subst h4
    rw [received_of_ne _ _ (by decide)] at h
    simp [tableCall] at h; subst h
    simp [dispatch, getCarsByColorAndOwner, scanString_eq, EvaluateTransaction, printf,
      afterCall, prompts, arity]
  by_cases h5 : o = 5
  · subst h5
    rw [received_of_ne _ _ (by decide)] at h
    simp [tableCall] at h; subst h
    simp [dispatch, transferCarAsset, scanString_eq, SubmitTransaction, printf, afterCall,
      prompts, arity, boolAsString, acceptfaultedBool, FormatBool]
  by_cases h6 : o = 6
  · subst h6
    rcases inp with _ | ⟨a, _ | ⟨b, rest⟩⟩ <;>
    · simp [tableCall, received] at h; subst h
      simp [dispatch, addCarfault, scanString_eq, scanDescription_eq, scanFloat_eq,
        SubmitTransaction, printf, println, afterCall, prompts, arity, priceAsString]
  by_cases h7 : o = 7
  · subst h7
    rw [received_of_ne _ _ (by decide)] at h
    simp [tableCall] at h; subst h
    simp [dispatch, changeCarColor, scanString_eq, SubmitTransaction, printf, afterCall,
      prompts, arity]
  by_cases h8 : o = 8
  · subst h8
    rw [received_of_ne _ _ (by decide)] at h
    simp [tableCall] at h; subst h
    simp [dispatch, repairCar, scanString_eq, SubmitTransaction, printf, afterCall,
      prompts, arity]
  rw [received_of_ne _ _ h6] at h
  simp [tableCall, h0, h1, h2, h3, h4, h5, h6, h7, h8] at h

/-- A number without a table row other than 9 falls to the default case. -/
theorem dispatch_default (fp : Float32) (l : Ledger) (o : Int) (inp : List String)
    (out : List Bytes) (cs : List Call) (h : o < 0 ∨ 8 < o) :
    dispatch fp l ⟨o, inp, out, cs⟩ = .returned ⟨o, inp, out ++ [utf8 "No such option"], cs⟩ := by
  have h0 : o ≠ 0 := by omega
  have h1 : o ≠ 1 := by omega
  have h2 : o ≠ 2 := by omega
  have h3 : o ≠ 3 := by omega
  have h4 : o ≠ 4 := by omega
  have h5 : o ≠ 5 := by omega
  have h6 : o ≠ 6 := by omega
  have h7 : o ≠ 7 := by omega
  have h8 : o ≠ 8 := by omega
  simp [dispatch, h0, h1, h2, h3, h4, h5, h6, h7, h8, printf]

theorem tableCall_isSome (fp : Float32) (n : Int) (inputs : List String)
    (h : 0 ≤ n ∧ n ≤ 8) : ∃ c, tableCall fp n inputs = some c := by
  obtain ⟨h0, h8⟩ := h
  have : n = 0 ∨ n = 1 ∨ n = 2 ∨ n = 3 ∨ n = 4 ∨ n = 5 ∨ n = 6 ∨ n = 7 ∨ n = 8 := by omega
  rcases this with h | h | h | h | h | h | h | h | h <;> subst h <;> simp [tableCall]

theorem tableCall_range (fp : Float32) (n : Int) (inputs : List String) (c : Call)
    (h : tableCall fp n inputs = some c) : 0 ≤ n ∧ n ≤ 8 := by
  by_contra hn
  have h0 : n ≠ 0 := by omega
  have h1 : n ≠ 1 := by omega
  have h2 : n ≠ 2 := by omega
  have h3 : n ≠ 3 := by omega
  have h4 : n ≠ 4 := by omega
  have h5 : n ≠ 5 := by omega
  have h6 : n ≠ 6 := by omega
  have h7 : n ≠ 7 := by omega
  have h8 : n ≠ 8 := by omega
  simp [tableCall, h0, h1, h2, h3, h4, h5, h6, h7, h8] at h

/-- The start of an iteration whose menu answer scans to `n`: the menu is printed, the
answer consumed and `option` set. -/
theorem scanOption_menu (s : Session) (tok : String) (inputs : List String) (n : Int)
    (hin : s.stdin = tok :: inputs) (hn : scanInt tok = some n) :
    scanOption (menu.foldl println s) = ⟨n, inputs, s.stdout ++ menuLines, s.calls⟩ := by
  rw [foldl_println]
  simp [scanOption, hin, hn, menuLines]

end Client

namespace Client

theorem afterCall_calls (k : Kind) (r : Except String Bytes × Session) :
    (afterCall k r).session.calls = r.2.calls := by
  cases k
  · simp only [afterCall, afterSubmit]
    cases r.1 <;> simp [Ret.session, println, printf]
  · simp only [afterCall, afterEvaluate]
    cases r.1 with
    | error e => simp [Ret.session, println]
    | ok p => cases h : Json.formatJSON p <;> simp [Ret.session, h]

/-- An iteration whose menu answer scans to `n`, in terms of the switch. -/
theorem iteration_eq (fp : Float32) (l : Ledger) (s : Session) (tok : String)
    (inputs : List String) (n : Int) (hin : s.stdin = tok :: inputs)
    (hn : scanInt tok = some n) :
    iteration fp l s =
      if n = 9 then .exited ⟨n, inputs, s.stdout ++ menuLines, s.calls⟩
      else
        match dispatch fp l ⟨n, inputs, s.stdout ++ menuLines, s.calls⟩ with
        | .panicked s2 => .panicked s2
        | .returned s2 => .awaiting (printf s2 "\n") := by
  simp only [iteration, scanOption_menu s tok inputs n hin hn]

theorem utf8_append (a b : String) : utf8 (a ++ b) = utf8 a ++ utf8 b := by
  simp [utf8]

/-- The ledger calls after an iteration whose menu answer scans to a selection 0..9: those
before it and the call of the table's row, made once. -/
theorem iteration_calls (fp : Float32) (l : Ledger) (s : Session) (tok : String)
    (inputs : List String) (n : Int) (hin : s.stdin = tok :: inputs)
    (hn : scanInt tok = some n) (hr : 0 ≤ n ∧ n ≤ 9) :
    (iteration fp l s).session.calls =
      s.calls ++ (tableCall fp n (received n inputs)).toList := by
  rw [iteration_eq fp l s tok inputs n hin hn]
  by_cases h9 : n = 9
  · subst h9
    simp [Outcome.session, tableCall]
  · obtain ⟨c, hc⟩ := tableCall_isSome fp n (received n inputs) ⟨hr.1, by omega⟩
    have hcalls := afterCall_calls c.kind (l s.calls c,
      ⟨n, inputs.drop (arity n), s.stdout ++ menuLines ++ prompts n, s.calls ++ [c]⟩)
    rw [if_neg h9, dispatch_eq fp l n inputs _ _ c hc, hc]
    cases hd : afterCall c.kind (l s.calls c,
      ⟨n, inputs.drop (arity n), s.stdout ++ menuLines ++ prompts n, s.calls ++ [c]⟩) with
    | returned s2 => rw [hd] at hcalls; simpa [Outcome.session, printf, Ret.session] using hcalls
    | panicked s2 => rw [hd] at hcalls; simpa [Outcome.session, Ret.session] using hcalls

theorem takeWhile_line (line rest : List Char) (h : '\n' ∉ line) :
    (line ++ '\n' :: rest).takeWhile (fun c => c != '\n') = line := by
  induction line with
  | nil => simp
  | cons a line ih =>
    have ha : a ≠ '\n' := fun e => h (by rw [e]; exact List.mem_cons_self _ _)
    have hl : '\n' ∉ line := fun e => h (List.mem_cons_of_mem _ e)
    rw [List.cons_append, List.takeWhile_cons, if_pos (by simpa using ha), ih hl]

/-- The scanner returns a typed line shorter than its buffer without the line feed and
without one carriage return before it, whatever was read ahead past the line feed. -/
theorem Scan_line (d ahead : String) (hnl : '\n' ∉ d.data)
    (hlen : (utf8 d).length < MaxScanTokenSize) :
    Scan (d ++ "\n" ++ ahead) = some (String.mk (dropCR d.data)) := by
  have hdata : (d ++ "\n" ++ ahead).data = d.data ++ '\n' :: ahead.data := by
    simp [String.data_append]
  have hd : String.mk d.data = d := rfl
  unfold Scan
  simp only [hdata, takeWhile_line d.data ahead.data hnl, hd]
  rw [if_neg (by omega), if_neg (by simp)]

/-- A line that does not end in a carriage return is returned as it stands. -/
theorem dropCR_verbatim (d : String) (hcr : d.data.getLast? ≠ some '\r') :
    String.mk (dropCR d.data) = d := by
  unfold dropCR
  rw [if_neg hcr]

/-- The scanner gives up on a line that fills its buffer before the line feed. -/
theorem Scan_too_long (taken : String)
    (h : MaxScanTokenSize ≤
      (utf8 (String.mk (taken.data.takeWhile fun c => c != '\n'))).length) :
    Scan taken = none := by
  unfold Scan
  simp only []
  rw [if_pos h]

theorem takeWhile_replicate_a (n : Nat) :
    (List.replicate n 'a').takeWhile (fun c => c != '\n') = List.replicate n 'a' := by
  induction n with
  | zero => rfl
  | succ n ih =>
    rw [List.replicate_succ, List.takeWhile_cons, if_pos (by decide), ih]

theorem utf8_replicate_a (n : Nat) : (utf8 (String.mk (List.replicate n 'a'))).length = n := by
  induction n with
  | zero => rfl
  | succ n ih =>
    have h : utf8 (String.mk (List.replicate (n + 1) 'a')) =
        97 :: utf8 (String.mk (List.replicate n 'a')) := by
      simp [utf8, List.replicate_succ, utf8Char]
    rw [h, List.length_cons, ih]

theorem Scan_longLine : Scan longLine = none := by
  apply Scan_too_long
  show MaxScanTokenSize ≤
    (utf8 (String.mk ((List.replicate 65536 'a').takeWhile fun c => c != '\n'))).length
  rw [takeWhile_replicate_a, utf8_replicate_a]
  decide

/-- C1 as stated fails: at selection 6 with the car `CAR1`, a fault description of 65536
letters and its line feed, and no price on the rest of the line, the scanner of the
description fills its buffer before the line feed and `Scan` returns false, so the call is
`AddCarfault("CAR1", "", "0.000000")`: the description sent is empty, not the prompted
input, which the table's row would send. -/
theorem long_description_is_dropped :
    (utf8 longLine).length = 65536 ∧
      (iteration wholePrices emptyLedger
          (Session.start ["6", "CAR1", longLine, ""])).session.calls =
        [⟨.submit, "AddCarfault", ["CAR1", "", "0.000000"]⟩] ∧
      tableCall wholePrices 6 ["CAR1", longLine, ""] =
        some ⟨.submit, "AddCarfault", ["CAR1", longLine, "0.000000"]⟩ ∧
      longLine ≠ "" := by
  refine ⟨utf8_replicate_a 65536, ?_, ?_, ?_⟩
  · rw [iteration_calls wholePrices emptyLedger (Session.start ["6", "CAR1", longLine, ""])
      "6" ["CAR1", longLine, ""] 6 rfl (by decide) (by decide)]
    have hp : priceAsString wholePrices (some "") = "0.000000" := by decide
    simp [Session.start, tableCall, received, Scan_longLine, hp]
  · have hp : priceAsString wholePrices (some "") = "0.000000" := by decide
    simp [tableCall, hp]
  · intro h
    have h2 := congrArg String.length h
    have h3 : longLine.length = 65536 := by
      show (List.replicate 65536 'a').length = 65536
      exact List.length_replicate _ _
    rw [h3] at h2
    exact absurd h2 (by decide)

/-- C1, amended: for every menu answer that scans to a selection `n` in 0..9 and every list
of entries of standard input, one iteration of the loop adds to the ledger calls exactly the
call of the table of section 4.3 on the inputs its prompts receive (kind, name, arguments in
order, the flag and the price as the strings of the table), and nothing for selection 9, the
only row without a call.  The inputs received are the entries verbatim, except the fault
description of selection 6, which is what the scanner returns for its entry: a typed line
shorter than 65536 bytes is returned without its line feed and without one carriage return
before it, whatever the scanner read ahead, so verbatim when it does not end in a carriage
return; a line of 65536 bytes or more is dropped, the description sent being empty. -/
theorem iteration_issues_table_call (fp : Float32) (l : Ledger) (s : Session) (tok : String)
    (inputs : List String) (n : Int) (hin : s.stdin = tok :: inputs)
    (hn : scanInt tok = some n) (hr : 0 ≤ n ∧ n ≤ 9) :
    (iteration fp l s).session.calls =
        s.calls ++ (tableCall fp n (received n inputs)).toList ∧
      (tableCall fp n (received n inputs) = none ↔ n = 9) ∧
      (n ≠ 6 → received n inputs = inputs) ∧
      (∀ (id taken : String) (rest : List String),
        received 6 (id :: taken :: rest) = id :: (Scan taken).getD "" :: rest) ∧
      (∀ d ahead : String, '\n' ∉ d.data → (utf8 d).length < MaxScanTokenSize →
        Scan (d ++ "\n" ++ ahead) = some (String.mk (dropCR d.data))) ∧
      (∀ d : String, d.data.getLast? ≠ some '\r' → String.mk (dropCR d.data) = d) ∧
      ∀ taken : String,
        MaxScanTokenSize ≤
            (utf8 (String.mk (taken.data.takeWhile fun c => c != '\n'))).length →
          Scan taken = none := by
  refine ⟨iteration_calls fp l s tok inputs n hin hn hr, ?_, received_of_ne n inputs,
    fun id taken rest => rfl, Scan_line, dropCR_verbatim, Scan_too_long⟩
  by_cases h9 : n = 9
  · subst h9
    simp [tableCall]
  · obtain ⟨c, hc⟩ := tableCall_isSome fp n (received n inputs) ⟨hr.1, by omega⟩
    simp [hc, h9]

/-- The statement of `iteration_issues_table_call` holds at selection 6 with the description
typed on a line of its own and at selection 5 with three answers. -/
theorem iteration_issues_table_call_witness :
    (Session.start ["6", "CAR1", "flat tyre\n", "12"]).stdin =
        "6" :: ["CAR1", "flat tyre\n", "12"] ∧
      scanInt "6" = some 6 ∧
      (iteration wholePrices emptyLedger
          (Session.start ["6", "CAR1", "flat tyre\n", "12"])).session.calls =
        [] ++ [⟨.submit, "AddCarfault", ["CAR1", "flat tyre", "12.000000"]⟩] ∧
      (iteration wholePrices emptyLedger (Session.start ["5", "CAR1", "P2", "n"])).session.calls
        = [] ++ [⟨.submit, "TransferCarAsset", ["CAR1", "P2", "false"]⟩] :=
  ⟨rfl, by decide,
    (iteration_issues_table_call wholePrices emptyLedger
      (Session.start ["6", "CAR1", "flat tyre\n", "12"]) "6" ["CAR1", "flat tyre\n", "12"] 6
      rfl (by decide) (by decide)).1,
    (iteration_issues_table_call wholePrices emptyLedger
      (Session.start ["5", "CAR1", "P2", "n"]) "5" ["CAR1", "P2", "n"] 5 rfl (by decide)
      (by decide)).1⟩

/-- C2: at selection 5 the fault-acceptance flag is false exactly when the answer to the
accept prompt is `n`; every other answer (the empty one, `N` and `no` among them) gives
true, and the third argument of `TransferCarAsset` is `false` in the first case and `true`
otherwise. -/
theorem accept_flag_false_iff_n (fp : Float32) (l : Ledger) (o : Int) (carID newOwner t : String)
    (rest : List String) (out : List Bytes) (cs : List Call) :
    (acceptfaultedBool t = false ↔ t = "n") ∧
      acceptfaultedBool "" = true ∧ acceptfaultedBool "N" = true ∧
      acceptfaultedBool "no" = true ∧
      iteration fp l ⟨o, "5" :: carID :: newOwner :: t :: rest, out, cs⟩ =
        (match transferCarAsset l ⟨5, rest, out ++ menuLines ++ prompts 5, cs⟩ carID newOwner
            (acceptfaultedBool t) with
          | .panicked s2 => .panicked s2
          | .returned s2 => .awaiting (printf s2 "\n")) ∧
      (iteration fp l ⟨o, "5" :: carID :: newOwner :: t :: rest, out, cs⟩).session.calls =
        cs ++ [⟨.submit, "TransferCarAsset",
          [carID, newOwner, if t = "n" then "false" else "true"]⟩] := by
  have h5 : scanInt "5" = some 5 := by decide
  refine ⟨?_, by decide, by decide, by decide, ?_, ?_⟩
  · unfold acceptfaultedBool
    by_cases h : t = "n" <;> simp [h]
  · rw [iteration_eq fp l _ "5" (carID :: newOwner :: t :: rest) 5 rfl h5]
    simp [dispatch, scanString_eq, printf, prompts]
  · have h := iteration_calls fp l
      ⟨o, "5" :: carID :: newOwner :: t :: rest, out, cs⟩ "5" (carID :: newOwner :: t :: rest) 5
      rfl h5 (by decide)
    rw [h, received_of_ne _ _ (by decide)]
    simp [tableCall, boolAsString]

end Client

namespace Client

theorem menuLines_head : ∀ w ∈ menuLines, w.head? ≠ some 35 := by decide

theorem prompts_head (n : Int) : ∀ w ∈ prompts n, w.head? ≠ some 35 := by
  unfold prompts
  split_ifs <;> decide

theorem wrapped_head (k : Kind) (cause : String) : (wrapped k cause).head? = some 102 := by
  have h1 : utf8 "failed to submit transaction: " =
      102 :: (utf8 "failed to submit transaction: ").tail := by decide
  have h2 : utf8 "failed to evaluate transaction: " =
      102 :: (utf8 "failed to evaluate transaction: ").tail := by decide
  cases k
  · simp only [wrapped, utf8_append]; rw [h1]; rfl
  · simp only [wrapped, utf8_append]; rw [h2]; rfl

/-- None of the writes of an iteration whose call fails starts with the number sign that
opens the success banner and the result line. -/
theorem failed_writes_head (n : Int) (k : Kind) (cause : String) :
    ∀ w ∈ menuLines ++ prompts n ++ [wrapped k cause, utf8 "\n"], w.head? ≠ some 35 := by
  intro w hw
  simp only [List.mem_append, List.mem_cons, List.mem_singleton, List.not_mem_nil,
    or_false] at hw
  rcases hw with (hw | hw) | hw | hw
  · exact menuLines_head w hw
  · exact prompts_head n w hw
  · rw [hw, wrapped_head]; decide
  · rw [hw]; decide

/-- C4: for every selection 0..8 (a menu answer that scans to a number with a table row)
whose ledger call returns an error, the iteration makes that one call and no other, prints
after the prompts the wrapped error (`failed to submit transaction: <cause>` for a submit,
`failed to evaluate transaction: <cause>` for an evaluate) and the closing line feed, prints
neither the success banner nor a result line, and is back awaiting a selection. -/
theorem failed_call_prints_wrapped_error (fp : Float32) (l : Ledger) (s : Session)
    (tok : String) (inputs : List String) (n : Int) (c : Call) (cause : String)
    (hin : s.stdin = tok :: inputs) (hn : scanInt tok = some n)
    (hc : tableCall fp n (received n inputs) = some c) (herr : l s.calls c = .error cause) :
    (0 ≤ n ∧ n ≤ 8) ∧
      iteration fp l s = .awaiting ⟨n, inputs.drop (arity n),
        s.stdout ++ (menuLines ++ prompts n ++ [wrapped c.kind cause, utf8 "\n"]),
        s.calls ++ [c]⟩ ∧
      utf8 banner ∉ menuLines ++ prompts n ++ [wrapped c.kind cause, utf8 "\n"] ∧
      ∀ w ∈ menuLines ++ prompts n ++ [wrapped c.kind cause, utf8 "\n"],
        ¬ (utf8 "######## Result:" <+: w) := by
  have hr := tableCall_range fp n (received n inputs) c hc
  have h9 : n ≠ 9 := by omega
  refine ⟨hr, ?_, ?_, ?_⟩
  · rw [iteration_eq fp l s tok inputs n hin hn, if_neg h9, dispatch_eq fp l n inputs _ _ c hc,
      herr]
    cases hk : c.kind <;>
      simp [afterCall, afterSubmit, afterEvaluate, println, printf, wrapped]
  · intro hmem
    exact failed_writes_head n c.kind cause _ hmem (by decide)
  · intro w hw hp
    apply failed_writes_head n c.kind cause w hw
    obtain ⟨t, rfl⟩ := hp
    have h : utf8 "######## Result:" = 35 :: (utf8 "######## Result:").tail := by decide
    rw [h]; rfl

/-- The statement of `failed_call_prints_wrapped_error` holds at selection 2 on a ledger that
is down. -/
theorem failed_call_prints_wrapped_error_witness :
    (Session.start ["2", "CAR1"]).stdin = "2" :: ["CAR1"] ∧ scanInt "2" = some 2 ∧
      tableCall wholePrices 2 (received 2 ["CAR1"]) =
        some ⟨.evaluate, "ReadCarAsset", ["CAR1"]⟩ ∧
      downLedger (Session.start ["2", "CAR1"]).calls ⟨.evaluate, "ReadCarAsset", ["CAR1"]⟩
        = .error "boom" ∧
      iteration wholePrices downLedger (Session.start ["2", "CAR1"]) =
        .awaiting ⟨2, [],
          [] ++ (menuLines ++ prompts 2 ++ [wrapped .evaluate "boom", utf8 "\n"]),
          [] ++ [⟨.evaluate, "ReadCarAsset", ["CAR1"]⟩]⟩ :=
  ⟨rfl, by decide, by decide, rfl,
    (failed_call_prints_wrapped_error wholePrices downLedger (Session.start ["2", "CAR1"]) "2"
      ["CAR1"] 2 ⟨.evaluate, "ReadCarAsset", ["CAR1"]⟩ "boom" rfl (by decide) (by decide)
      rfl).2.1⟩

/-- C3, where the code departs from it: a menu answer that does not scan leaves `option`
as it was, so the iteration runs the case of the earlier selection again.  With the line `x`
typed at the first prompt the read consumes `x` and fails, `option` is still zero, and the
iteration submits `InitLedger`.  With the line `no` typed at the prompt that follows
selection 8 the read consumes `n` and fails, and the case of selection 8 reads `o` as the
car and submits `RepairCar` again.  No `No such option` line is printed. -/
theorem unparsable_answer_reruns_option :
    scanInt "x" = none ∧ scanInt "n" = none ∧
      iteration wholePrices emptyLedger (Session.start ["x", ""]) =
        .awaiting ⟨0, [""],
          menuLines ++ [utf8 "Initializing ledger..." ++ [10], utf8 banner, utf8 "\n"],
          [⟨.submit, "InitLedger", []⟩]⟩ ∧
      (loop wholePrices emptyLedger 2 (Session.start ["8", "CAR1", "n", "o"])).session.calls =
        [⟨.submit, "RepairCar", ["CAR1"]⟩, ⟨.submit, "RepairCar", ["o"]⟩] ∧
      utf8 "No such option" ∉
        (loop wholePrices emptyLedger 2
          (Session.start ["8", "CAR1", "n", "o"])).session.stdout := by
  refine ⟨by decide, by decide, by decide, by decide, by decide⟩

/-- X1: an answer that scans to a number outside 0..9 is a warning and nothing else: the
iteration prints `No such option` and the line feed, makes no ledger call and is back
awaiting a selection. -/
theorem out_of_range_answer_warns (fp : Float32) (l : Ledger) (s : Session) (tok : String)
    (inputs : List String) (n : Int) (hin : s.stdin = tok :: inputs)
    (hn : scanInt tok = some n) (hr : n < 0 ∨ 9 < n) :
    iteration fp l s = .awaiting ⟨n, inputs,
      s.stdout ++ (menuLines ++ [utf8 "No such option", utf8 "\n"]), s.calls⟩ := by
  have h9 : n ≠ 9 := by omega
  rw [iteration_eq fp l s tok inputs n hin hn, if_neg h9,
    dispatch_default fp l n inputs _ _ (by omega)]
  simp [printf]

/-- The statement of `out_of_range_answer_warns` holds at the answer 42. -/
theorem out_of_range_answer_warns_witness :
    (Session.start ["42", "0"]).stdin = "42" :: ["0"] ∧ scanInt "42" = some 42 ∧
      iteration wholePrices emptyLedger (Session.start ["42", "0"]) =
        .awaiting ⟨42, ["0"], [] ++ (menuLines ++ [utf8 "No such option", utf8 "\n"]), []⟩ :=
  ⟨rfl, by decide,
    out_of_range_answer_warns wholePrices emptyLedger (Session.start ["42", "0"]) "42" ["0"] 42
      rfl (by decide) (by decide)⟩

end Client

namespace Client

/-- C5 as stated fails: selection 1 on a ledger that answers with the empty payload and no
error does not return to awaiting a selection; `formatJSON` panics on the payload and the
process aborts after the call. -/
theorem evaluate_empty_payload_panics :
    scanInt "1" = some 1 ∧
      emptyLedger [] ⟨.evaluate, "ReadPersonAsset", ["P1"]⟩ = .ok [] ∧
      iteration wholePrices emptyLedger (Session.start ["1", "P1"]) =
        .panicked ⟨1, [], menuLines ++ [utf8 "Person ID: "],
          [⟨.evaluate, "ReadPersonAsset", ["P1"]⟩]⟩ ∧
      ¬ ∃ s2, iteration wholePrices emptyLedger (Session.start ["1", "P1"]) = .awaiting s2 := by
  have h : iteration wholePrices emptyLedger (Session.start ["1", "P1"]) =
        .panicked ⟨1, [], menuLines ++ [utf8 "Person ID: "],
          [⟨.evaluate, "ReadPersonAsset", ["P1"]⟩]⟩ := by decide
  refine ⟨by decide, rfl, h, ?_⟩
  rw [h]
  rintro ⟨s2, hs⟩
  cases hs

/-- C5, amended: the loop has one non-terminal state.  For a selection 0..8 the step
prints the menu and the prompts, reads the inputs and makes the table's ledger call, once.
It is back awaiting a selection, with the wrapped error printed, when the call returns an
error; with the banner printed, when a submit succeeds; with the result printed, when an
evaluate succeeds with a payload `formatJSON` accepts.  When an evaluate succeeds with a
payload `formatJSON` rejects, the step panics after the call, nothing printed after the
prompts.  Selection 9 leaves the loop without a call and with nothing printed after the
menu, whatever fuel remains, and it is the only selection that leaves through the break. -/
theorem loop_step_outcomes (fp : Float32) (l : Ledger) (s : Session) (tok : String)
    (inputs : List String) (n : Int) (hin : s.stdin = tok :: inputs)
    (hn : scanInt tok = some n) :
    (0 ≤ n ∧ n ≤ 8 → ∃ c, tableCall fp n (received n inputs) = some c ∧
        (∀ cause, l s.calls c = .error cause →
          iteration fp l s = .awaiting ⟨n, inputs.drop (arity n),
            s.stdout ++ (menuLines ++ prompts n ++ [wrapped c.kind cause, utf8 "\n"]),
            s.calls ++ [c]⟩) ∧
        (∀ p, l s.calls c = .ok p → c.kind = .submit →
          iteration fp l s = .awaiting ⟨n, inputs.drop (arity n),
            s.stdout ++ (menuLines ++ prompts n ++ [utf8 banner, utf8 "\n"]),
            s.calls ++ [c]⟩) ∧
        (∀ p out, l s.calls c = .ok p → c.kind = .evaluate → Json.formatJSON p = some out →
          iteration fp l s = .awaiting ⟨n, inputs.drop (arity n),
            s.stdout ++ (menuLines ++ prompts n ++
              [utf8 "######## Result:" ++ out ++ [10], utf8 "\n"]),
            s.calls ++ [c]⟩) ∧
        (∀ p, l s.calls c = .ok p → c.kind = .evaluate → Json.formatJSON p = none →
          iteration fp l s = .panicked ⟨n, inputs.drop (arity n),
            s.stdout ++ (menuLines ++ prompts n), s.calls ++ [c]⟩)) ∧
      (n = 9 → ∀ fuel, loop fp l (fuel + 1) s =
        .exited ⟨9, inputs, s.stdout ++ menuLines, s.calls⟩) ∧
      ((∃ s2, iteration fp l s = .exited s2) ↔ n = 9) := by
  have hit := iteration_eq fp l s tok inputs n hin hn
  refine ⟨?_, ?_, ?_⟩
  · intro hr
    obtain ⟨c, hc⟩ := tableCall_isSome fp n (received n inputs) hr
    have h9 : n ≠ 9 := by omega
    have hd := dispatch_eq fp l n inputs (s.stdout ++ menuLines) s.calls c hc
    refine ⟨c, hc, ?_, ?_, ?_, ?_⟩
    · intro cause herr
      rw [hit, if_neg h9, hd, herr]
      cases hk : c.kind <;>
        simp [afterCall, afterSubmit, afterEvaluate, println, printf, wrapped]
    · intro p hok hk
      rw [hit, if_neg h9, hd, hok, hk]
      simp [afterCall, afterSubmit, printf]
    · intro p out hok hk hfmt
      rw [hit, if_neg h9, hd, hok, hk]
      simp [afterCall, afterEvaluate, hfmt, printf]
    · intro p hok hk hfmt
      rw [hit, if_neg h9, hd, hok, hk]
      simp [afterCall, afterEvaluate, hfmt]
  · intro h9 fuel
    subst h9
    simp [loop, hit]
  · constructor
    · rintro ⟨s2, h2⟩
      by_contra h9
      rw [hit, if_neg h9] at h2
      cases hd : dispatch fp l ⟨n, inputs, s.stdout ++ menuLines, s.calls⟩ <;>
        rw [hd] at h2 <;> cases h2
    · intro h9
      rw [hit, if_pos h9]
      exact ⟨_, rfl⟩

/-- The statement of `loop_step_outcomes` holds at selection 0, which submits `InitLedger`
and is back awaiting a selection, and at selection 9, which leaves the loop. -/
theorem loop_step_outcomes_witness :
    (Session.start ["0", "9"]).stdin = "0" :: ["9"] ∧ scanInt "0" = some 0 ∧
      iteration wholePrices emptyLedger (Session.start ["0", "9"]) =
        .awaiting ⟨0, ["9"],
          [] ++ (menuLines ++ prompts 0 ++ [utf8 banner, utf8 "\n"]),
          [] ++ [⟨.submit, "InitLedger", []⟩]⟩ ∧
      (Session.start ["9", "0"]).stdin = "9" :: ["0"] ∧ scanInt "9" = some 9 ∧
      loop wholePrices emptyLedger 3 (Session.start ["9", "0"]) =
        .exited ⟨9, ["0"], [] ++ menuLines, []⟩ := by
  refine ⟨rfl, by decide, ?_, rfl, by decide,
    (loop_step_outcomes wholePrices emptyLedger (Session.start ["9", "0"]) "9" ["0"] 9 rfl
      (by decide)).2.1 rfl 2⟩
  obtain ⟨c, hc, -, hsub, -, -⟩ :=
    (loop_step_outcomes wholePrices emptyLedger (Session.start ["0", "9"]) "0" ["9"] 0 rfl
      (by decide)).1 (by decide)
  have hc0 : c = ⟨.submit, "InitLedger", []⟩ := by
    simpa [tableCall] using hc.symm
  subst hc0
  exact hsub [] rfl rfl

end Client

namespace Bootstrap

theorem exists_after_put (w w1 : Wallet) (lbl : String) (id : Identity)
    (h : w.Put lbl id = .ok w1) : w1.Exists lbl = true := by
  unfold Wallet.Put at h
  cases hp : w.putError with
  | some e => rw [hp] at h; cases h
  | none =>
    rw [hp] at h
    injection h with h
    subst h
    simp [Wallet.Exists]

/-- A run of `populateWallet` without error leaves the label in the store. -/
theorem populateWallet_exists (fs : FileSystem) (org : String) (w : Wallet)
    (h : (populateWallet fs org w).err = none) :
    (populateWallet fs org w).wallet.Exists (label org) = true := by
  revert h
  unfold populateWallet
  cases fs.readFile (certPath org) with
  | error e => intro h; cases h
  | ok cert =>
    dsimp only
    cases fs.readDir (keyDir org) with
    | error e => intro h; cases h
    | ok files =>
      dsimp only
      split
      · intro h; cases h
      · generalize fs.readFile (Join [keyDir org, files.headD ""]) = r
        cases r with
        | error e => intro h; cases h
        | ok key =>
          dsimp only
          cases hput : w.Put (label org) ⟨Title org ++ "MSP", cert, key⟩ with
          | error e => intro h; cases h
          | ok w1 =>
            intro _
            exact exists_after_put w w1 _ _ hput

/-- C8: when the certificate file is readable and the keystore directory lists `n` files,
then for `n = 0` and for `n >= 2` `populateWallet` returns the explicit error
`keystore folder should have contain one file`, having read the certificate and listed the
directory and nothing else (no key file is read), and leaves the identity store as it was;
for `n = 1` it goes on to read exactly the one listed file and uses its contents as the key
of the identity it puts into the store. -/
theorem keystore_must_hold_one_file (fs : FileSystem) (org : String) (wallet : Wallet)
    (cert : Bytes) (files : List String) (hcert : fs.readFile (certPath org) = .ok cert)
    (hdir : fs.readDir (keyDir org) = .ok files) :
    (files.length = 0 ∨ 2 ≤ files.length →
        populateWallet fs org wallet =
          ⟨some "keystore folder should have contain one file", wallet,
            [.file (certPath org), .dir (keyDir org)]⟩) ∧
      (∀ k, files = [k] →
        (populateWallet fs org wallet).accesses =
            [.file (certPath org), .dir (keyDir org), .file (Join [keyDir org, k])] ∧
          populateWallet fs org wallet =
            match fs.readFile (Join [keyDir org, k]) with
            | .error err =>
              ⟨some err, wallet,
                [.file (certPath org), .dir (keyDir org), .file (Join [keyDir org, k])]⟩
            | .ok key =>
              match wallet.Put (label org) ⟨Title org ++ "MSP", cert, key⟩ with
              | .error err =>
                ⟨some err, wallet,
                  [.file (certPath org), .dir (keyDir org), .file (Join [keyDir org, k])]⟩
              | .ok wallet1 =>
                ⟨none, wallet1,
                  [.file (certPath org), .dir (keyDir org), .file (Join [keyDir org, k])]⟩) := by
  constructor
  · intro hn
    have hl : files.length ≠ 1 := by omega
    simp [populateWallet, hcert, hdir, hl]
  · intro k hk
    subst hk
    have heq : populateWallet fs org wallet =
        match fs.readFile (Join [keyDir org, k]) with
        | .error err =>
          ⟨some err, wallet,
            [.file (certPath org), .dir (keyDir org), .file (Join [keyDir org, k])]⟩
        | .ok key =>
          match wallet.Put (label org) ⟨Title org ++ "MSP", cert, key⟩ with
          | .error err =>
            ⟨some err, wallet,
              [.file (certPath org), .dir (keyDir org), .file (Join [keyDir org, k])]⟩
          | .ok wallet1 =>
            ⟨none, wallet1,
              [.file (certPath org), .dir (keyDir org), .file (Join [keyDir org, k])]⟩ := by
      unfold populateWallet
      rw [hcert, hdir]
      rfl
    refine ⟨?_, heq⟩
    rw [heq]
    split
    · rfl
    · split <;> rfl

/-- The statement of `keystore_must_hold_one_file` holds on a keystore with two files, and
on a keystore with one. -/
theorem keystore_must_hold_one_file_witness :
    (sampleFs ["a_sk", "b_sk"]).readFile (certPath orgNum) = .ok [67] ∧
      (sampleFs ["a_sk", "b_sk"]).readDir (keyDir orgNum) = .ok ["a_sk", "b_sk"] ∧
      populateWallet (sampleFs ["a_sk", "b_sk"]) orgNum emptyWallet =
        ⟨some "keystore folder should have contain one file", emptyWallet,
          [.file (certPath orgNum), .dir (keyDir orgNum)]⟩ ∧
      populateWallet (sampleFs ["priv_sk"]) orgNum emptyWallet =
        ⟨none, ⟨[("User1@org1.example.com", ⟨"Org1MSP", [67], [75]⟩)], none⟩,
          [.file (certPath orgNum), .dir (keyDir orgNum),
            .file (Join [keyDir orgNum, "priv_sk"])]⟩ :=
  ⟨by rfl, by rfl,
    (keystore_must_hold_one_file (sampleFs ["a_sk", "b_sk"]) orgNum emptyWallet [67]
      ["a_sk", "b_sk"] (by rfl) (by rfl)).1 (by decide),
    by decide⟩

/-- C9: the bootstrap step is idempotent.  On a store that already holds the label
`User1@<org>.example.com` the step is skipped: no file-system access, no error, the store
unchanged.  Hence after any run of the step that ends without error, a second run (on any
file system) is skipped and leaves the store of the first run. -/
theorem bootstrap_idempotent (fs fs2 : FileSystem) (org : String) (wallet : Wallet) :
    (wallet.Exists (label org) = true → bootstrap fs org wallet = ⟨none, wallet, []⟩) ∧
      ((bootstrap fs org wallet).err = none →
        bootstrap fs2 org (bootstrap fs org wallet).wallet =
          ⟨none, (bootstrap fs org wallet).wallet, []⟩) := by
  have skip : ∀ (f : FileSystem) (w : Wallet), w.Exists (label org) = true →
      bootstrap f org w = ⟨none, w, []⟩ := by
    intro f w h
    simp [bootstrap, h]
  refine ⟨skip fs wallet, fun h => skip fs2 _ ?_⟩
  by_cases he : wallet.Exists (label org) = true
  · rw [skip fs wallet he]
    exact he
  · have hb : bootstrap fs org wallet = populateWallet fs org wallet := by
      simp [bootstrap, he]
    rw [hb] at h ⊢
    exact populateWallet_exists fs org wallet h

/-- The statement of `bootstrap_idempotent` holds from the empty store: the first run
reads the credentials and fills the store, the second reads nothing. -/
theorem bootstrap_idempotent_witness :
    (bootstrap (sampleFs ["priv_sk"]) orgNum emptyWallet).err = none ∧
      (bootstrap (sampleFs ["priv_sk"]) orgNum emptyWallet).accesses.length = 3 ∧
      bootstrap (sampleFs []) orgNum (bootstrap (sampleFs ["priv_sk"]) orgNum emptyWallet).wallet =
        ⟨none, (bootstrap (sampleFs ["priv_sk"]) orgNum emptyWallet).wallet, []⟩ :=
  ⟨by decide, by decide,
    (bootstrap_idempotent (sampleFs ["priv_sk"]) (sampleFs []) orgNum emptyWallet).2
      (by decide)⟩

end Bootstrap

namespace Json

/-- C6: pretty-printing is idempotent: for every payload `p` on which `formatJSON` succeeds
with output `out`, `formatJSON` applied to `out` succeeds too and returns `out` byte for
byte, that is formatJSON(formatJSON(p)) = formatJSON(p). -/
theorem formatJSON_idempotent (p out : Bytes) (h : formatJSON p = some out) :
    formatJSON out = some out := by
  rw [formatJSON_eq] at h ⊢
  exact formatFrom_idem p newScanner newScanner false out newScanner_WF
    (fun hni => by cases hni) (Lag.refl newScanner) h

/-- The statement of `formatJSON_idempotent` holds on a payload with an object, an array,
numbers followed by space, a string and trailing space. -/
theorem formatJSON_idempotent_witness :
    formatJSON (ascii "\x7b\"a\": [1 , 2.5e3], \"b\" :\"x, y\" \x7d\n") =
        some (ascii "\x7b\n\"a\": [\n1,\n2.5e3\n],\n\"b\": \"x, y\"\n\x7d\n") ∧
      formatJSON (ascii "\x7b\n\"a\": [\n1,\n2.5e3\n],\n\"b\": \"x, y\"\n\x7d\n") =
        some (ascii "\x7b\n\"a\": [\n1,\n2.5e3\n],\n\"b\": \"x, y\"\n\x7d\n") :=
  ⟨by decide,
    formatJSON_idempotent (ascii "\x7b\"a\": [1 , 2.5e3], \"b\" :\"x, y\" \x7d\n")
      (ascii "\x7b\n\"a\": [\n1,\n2.5e3\n],\n\"b\": \"x, y\"\n\x7d\n") (by decide)⟩

end Json

namespace Json

/-! ## The scanner accepts exactly the texts of the grammar -/

theorem checkValid_ok (s s1 : Scanner) (v : Code) (c : Nat) (r : Bytes)
    (h : s.stepByte c = (s1, v)) (hv : v ≠ .scanError) :
    checkValid (c :: r) s = checkValid r s1 := by
  simp [checkValid, h, hv]

theorem checkValid_err (s s1 : Scanner) (c : Nat) (r : Bytes)
    (h : s.stepByte c = (s1, .scanError)) : checkValid (c :: r) s = false := by
  simp [checkValid, h]

/-- In the error state with the error recorded nothing is accepted. -/
theorem checkValid_dead (r : Bytes) (et : Bool) (stk : List ParseState) :
    checkValid r ⟨.stateError, et, stk, true⟩ = false := by
  cases r with
  | nil => rfl
  | cons c r => exact checkValid_err _ _ c r rfl

theorem skipWs_space (c : Nat) (r : Bytes) (h : isSpace c = true) :
    skipWs (c :: r) = skipWs r := by
  simp [skipWs, h]

theorem skipWs_other (c : Nat) (r : Bytes) (h : isSpace c = false) :
    skipWs (c :: r) = c :: r := by
  simp [skipWs, h]

theorem skipWs_length (r : Bytes) : (skipWs r).length ≤ r.length := by
  induction r with
  | nil => simp [skipWs]
  | cons c r ih =>
    cases h : isSpace c
    · rw [skipWs_other c r h]
    · rw [skipWs_space c r h]; simp only [List.length_cons]; omega

/-- What follows skipped whitespace does not start with whitespace. -/
theorem skipWs_head (r : Bytes) (c : Nat) (r1 : Bytes) (h : skipWs r = c :: r1) :
    isSpace c = false := by
  induction r with
  | nil => simp [skipWs] at h
  | cons a r ih =>
    cases ha : isSpace a
    · rw [skipWs_other a r ha] at h
      injection h with h1 h2
      rw [← h1]; exact ha
    · rw [skipWs_space a r ha] at h
      exact ih h

/-- After the top-level value the scanner accepts space only. -/
theorem checkValid_endTop (r : Bytes) :
    checkValid r ⟨.stateEndTop, true, [], false⟩ = (skipWs r).isEmpty := by
  induction r with
  | nil => rfl
  | cons c r ih =>
    cases h : isSpace c
    · rw [skipWs_other c r h]
      have hT : (⟨.stateEndTop, true, [], false⟩ : Scanner).stepByte c =
          (⟨.stateError, true, [], true⟩, .scanEnd) := by
        simp [Scanner.stepByte, stateEndTop, h, Scanner.error]
      rw [checkValid_ok _ _ _ c r hT (by decide), checkValid_dead]
      rfl
    · rw [skipWs_space c r h]
      have hT : (⟨.stateEndTop, true, [], false⟩ : Scanner).stepByte c =
          (⟨.stateEndTop, true, [], false⟩, .scanEnd) := by
        simp [Scanner.stepByte, stateEndTop, h]
      rw [checkValid_ok _ _ _ c r hT (by decide), ih]

theorem afterValue_top (r : Bytes) : afterValue [] r = (skipWs r).isEmpty := by
  unfold afterValue inState
  cases r with
  | nil => rfl
  | cons c r =>
    cases h : isSpace c
    · rw [skipWs_other c r h]
      have hT : (⟨.stateEndValue, false, [], false⟩ : Scanner).stepByte c =
          (⟨.stateError, true, [], true⟩, .scanEnd) := by
        simp [Scanner.stepByte, stateEndValue, stateEndTop, h, Scanner.error]
      rw [checkValid_ok _ _ _ c r hT (by decide), checkValid_dead]
      rfl
    · rw [skipWs_space c r h]
      have hT : (⟨.stateEndValue, false, [], false⟩ : Scanner).stepByte c =
          (⟨.stateEndTop, true, [], false⟩, .scanEnd) := by
        simp [Scanner.stepByte, stateEndValue, stateEndTop, h]
      rw [checkValid_ok _ _ _ c r hT (by decide), checkValid_endTop]

/-- After a closing bracket the scanner goes on as after any value. -/
theorem checkValid_popped (r : Bytes) (st : Step) (p : ParseState) (stk : List ParseState) :
    checkValid r (popParseState ⟨st, false, p :: stk, false⟩) = afterValue stk r := by
  cases stk with
  | nil =>
    rw [afterValue_top]
    exact checkValid_endTop r
  | cons q stk => rfl

/-- Space is skipped at the start of a value or key. -/
theorem checkValid_skipWs_begins (r : Bytes) (s : Scanner) (hs : s.step.begins = true) :
    checkValid r s = checkValid (skipWs r) s := by
  induction r with
  | nil => rfl
  | cons c r ih =>
    cases h : isSpace c
    · rw [skipWs_other c r h]
    · rw [skipWs_space c r h,
        checkValid_ok s s _ c r (stepByte_space_begins s c hs h) (by decide)]
      exact ih

/-- Space is skipped after a value inside a bracket. -/
theorem afterValue_skipWs (r : Bytes) (p : ParseState) (stk : List ParseState) :
    afterValue (p :: stk) r = afterValue (p :: stk) (skipWs r) := by
  unfold afterValue
  induction r with
  | nil => rfl
  | cons c r ih =>
    cases h : isSpace c
    · rw [skipWs_other c r h]
    · rw [skipWs_space c r h,
        checkValid_ok _ _ _ c r
          (stepByte_space_endValue (inState .stateEndValue (p :: stk)) c rfl
            (by simp [inState]) h) (by decide)]
      exact ih

/-- At the end of the text inside a bracket the scanner fails. -/
theorem afterValue_nil (p : ParseState) (stk : List ParseState) :
    afterValue (p :: stk) [] = false := rfl

theorem checkValid_nil_begins (s : Scanner) (hs : s.step.begins = true)
    (he : s.endTop = false) : checkValid [] s = false := by
  unfold checkValid Scanner.eof
  rw [stepByte_space_begins s 32 hs (by decide)]
  simp [he]

end Json

namespace Json

/-! ### Strings -/

theorem checkValid_hex_nil (st next : Step) (stk : List ParseState)
    (hst : ∀ c, (inState st stk).stepByte c = stateHex next (inState st stk) c) :
    checkValid [] (inState st stk) = false := by
  unfold checkValid Scanner.eof
  rw [hst 32]
  simp [stateHex, isHex, inState, Scanner.error]

theorem checkValid_hex_cons (st next : Step) (stk : List ParseState) (c : Nat) (r : Bytes)
    (hst : ∀ c, (inState st stk).stepByte c = stateHex next (inState st stk) c) :
    checkValid (c :: r) (inState st stk) =
      if isHex c then checkValid r (inState next stk) else false := by
  cases h : isHex c
  · rw [checkValid_err _ _ c r (by rw [hst, stateHex, h]; rfl)]
    rfl
  · rw [checkValid_ok _ (inState next stk) .scanContinue c r (by rw [hst, stateHex, h]; rfl)
      (by decide)]
    rfl

/-- After a backslash and `u` the scanner reads four hexadecimal digits. -/
theorem checkValid_hex4 (r : Bytes) (stk : List ParseState) :
    checkValid r (inState .stateInStringEscU stk) =
      match hex4 r with
      | some r2 => checkValid r2 (inState .stateInString stk)
      | none => false := by
  have h0 := checkValid_hex_nil .stateInStringEscU .stateInStringEscU1 stk (fun _ => rfl)
  have h1 := checkValid_hex_nil .stateInStringEscU1 .stateInStringEscU12 stk (fun _ => rfl)
  have h2 := checkValid_hex_nil .stateInStringEscU12 .stateInStringEscU123 stk (fun _ => rfl)
  have h3 := checkValid_hex_nil .stateInStringEscU123 .stateInString stk (fun _ => rfl)
  have c0 := fun c r => checkValid_hex_cons .stateInStringEscU .stateInStringEscU1 stk c r
    (fun _ => rfl)
  have c1 := fun c r => checkValid_hex_cons .stateInStringEscU1 .stateInStringEscU12 stk c r
    (fun _ => rfl)
  have c2 := fun c r => checkValid_hex_cons .stateInStringEscU12 .stateInStringEscU123 stk c r
    (fun _ => rfl)
  have c3 := fun c r => checkValid_hex_cons .stateInStringEscU123 .stateInString stk c r
    (fun _ => rfl)
  rcases r with _ | ⟨a, _ | ⟨b, _ | ⟨c, _ | ⟨d, r⟩⟩⟩⟩
  · rw [h0]; rfl
  · rw [c0, h1]
    simp [hex4]
  · rw [c0, c1, h2]
    simp [hex4]
  · rw [c0, c1, c2, h3]
    simp [hex4]
  · rw [c0, c1, c2, c3]
    simp only [hex4]
    cases isHex a <;> cases isHex b <;> cases isHex c <;> cases isHex d <;> rfl

theorem hex4_length (r r2 : Bytes) (h : hex4 r = some r2) : r2.length + 4 = r.length := by
  rcases r with _ | ⟨a, _ | ⟨b, _ | ⟨c, _ | ⟨d, r⟩⟩⟩⟩
  · simp [hex4] at h
  · simp [hex4] at h
  · simp [hex4] at h
  · simp [hex4] at h
  · simp only [hex4] at h
    split at h
    · injection h with h; subst h; simp
    · cases h

/-- Inside a string the scanner accepts what the rule for characters accepts. -/
theorem checkValid_chars (fuel : Nat) :
    ∀ (r : Bytes) (stk : List ParseState), r.length < fuel →
      checkValid r (inState .stateInString stk) = andThen stk (chars fuel r) := by
  induction fuel with
  | zero => intro r stk h; omega
  | succ fuel ih =>
    intro r stk hlen
    cases r with
    | nil => rfl
    | cons c r =>
      simp only [List.length_cons] at hlen
      unfold chars
      by_cases h1 : c = 34
      · rw [if_pos h1]
        subst h1
        rw [checkValid_ok (inState .stateInString stk) (inState .stateEndValue stk) .scanContinue 34 r
          rfl (by decide)]
        rfl
      rw [if_neg h1]
      by_cases h2 : c = 92
      · rw [if_pos h2]
        subst h2
        rw [checkValid_ok (inState .stateInString stk) (inState .stateInStringEsc stk) .scanContinue
          92 r rfl (by decide)]
        cases r with
        | nil => rfl
        | cons e r1 =>
          simp only [List.length_cons] at hlen
          simp only []
          by_cases h3 : e = 34 ∨ e = 92 ∨ e = 47 ∨ e = 98 ∨ e = 102 ∨ e = 110 ∨ e = 114 ∨ e = 116
          · rw [if_pos h3]
            have hT : (inState .stateInStringEsc stk).stepByte e =
                (inState .stateInString stk, .scanContinue) := by
              have h3b : e = 98 ∨ e = 102 ∨ e = 110 ∨ e = 114 ∨ e = 116 ∨ e = 92 ∨ e = 47 ∨
                  e = 34 := by omega
              simp only [Scanner.stepByte, inState, stateInStringEsc, if_pos h3b]
            rw [checkValid_ok _ _ _ e r1 hT (by decide)]
            exact ih r1 stk (by omega)
          · rw [if_neg h3]
            have h3b : ¬ (e = 98 ∨ e = 102 ∨ e = 110 ∨ e = 114 ∨ e = 116 ∨ e = 92 ∨ e = 47 ∨
                e = 34) := by omega
            by_cases h4 : e = 117
            · rw [if_pos h4]
              have hT : (inState .stateInStringEsc stk).stepByte e =
                  (inState .stateInStringEscU stk, .scanContinue) := by
                simp only [Scanner.stepByte, inState, stateInStringEsc, if_neg h3b, if_pos h4]
              rw [checkValid_ok _ _ _ e r1 hT (by decide), checkValid_hex4]
              cases hh : hex4 r1 with
              | none => rfl
              | some r2 =>
                have := hex4_length r1 r2 hh
                simp only [Option.some_bind]
                exact ih r2 stk (by omega)
            · rw [if_neg h4]
              have hT : (inState .stateInStringEsc stk).stepByte e =
                  (⟨.stateError, false, stk, true⟩, .scanError) := by
                simp only [Scanner.stepByte, inState, stateInStringEsc, if_neg h3b, if_neg h4,
                  Scanner.error]
              rw [checkValid_err _ _ e r1 hT]
              rfl
      rw [if_neg h2]
      by_cases h5 : c < 32
      · rw [if_pos h5]
        have hT : (inState .stateInString stk).stepByte c =
            (⟨.stateError, false, stk, true⟩, .scanError) := by
          simp only [Scanner.stepByte, inState, stateInString, if_neg h1, if_neg h2, if_pos h5,
            Scanner.error]
        rw [checkValid_err _ _ c r hT]
        rfl
      · rw [if_neg h5]
        have hT : (inState .stateInString stk).stepByte c =
            (inState .stateInString stk, .scanContinue) := by
          simp only [Scanner.stepByte, inState, stateInString, if_neg h1, if_neg h2, if_neg h5]
        rw [checkValid_ok _ _ _ c r hT (by decide)]
        exact ih r stk (by omega)

/-- The rule for characters consumes at least the closing quotation mark. -/
theorem chars_length (fuel : Nat) :
    ∀ (r r1 : Bytes), chars fuel r = some r1 → r1.length < r.length := by
  induction fuel with
  | zero => intro r r1 h; simp [chars] at h
  | succ fuel ih =>
    intro r r1 h
    cases r with
    | nil => simp [chars] at h
    | cons c r =>
      unfold chars at h
      simp only [List.length_cons]
      by_cases h1 : c = 34
      · rw [if_pos h1] at h
        injection h with h; subst h; omega
      rw [if_neg h1] at h
      by_cases h2 : c = 92
      · rw [if_pos h2] at h
        cases r with
        | nil => cases h
        | cons e r2 =>
          simp only [] at h
          simp only [List.length_cons]
          by_cases h3 : e = 34 ∨ e = 92 ∨ e = 47 ∨ e = 98 ∨ e = 102 ∨ e = 110 ∨ e = 114 ∨ e = 116
          · rw [if_pos h3] at h
            have := ih r2 r1 h
            omega
          · rw [if_neg h3] at h
            by_cases h4 : e = 117
            · rw [if_pos h4] at h
              cases hh : hex4 r2 with
              | none => rw [hh] at h; cases h
              | some r3 =>
                rw [hh] at h
                have := hex4_length r2 r3 hh
                have := ih r3 r1 h
                omega
            · rw [if_neg h4] at h; cases h
      rw [if_neg h2] at h
      by_cases h5 : c < 32
      · rw [if_pos h5] at h; cases h
      · rw [if_neg h5] at h
        have := ih r r1 h
        omega

end Json

namespace Json

/-! ### The literal names -/

theorem checkValid_lit_nil (st next : Step) (want : Nat) (stk : List ParseState)
    (hst : ∀ c, (inState st stk).stepByte c = stateLit want next (inState st stk) c)
    (hw : want ≠ 32) : checkValid [] (inState st stk) = false := by
  unfold checkValid Scanner.eof
  rw [hst 32]
  have : ¬ (32 = want) := fun h => hw h.symm
  simp [stateLit, inState, Scanner.error, this]

theorem checkValid_lit_cons (st next : Step) (want : Nat) (stk : List ParseState) (c : Nat)
    (r : Bytes)
    (hst : ∀ c, (inState st stk).stepByte c = stateLit want next (inState st stk) c) :
    checkValid (c :: r) (inState st stk) =
      if c = want then checkValid r (inState next stk) else false := by
  by_cases h : c = want
  · rw [if_pos h,
      checkValid_ok _ (inState next stk) .scanContinue c r (by rw [hst, stateLit, if_pos h]; rfl)
        (by decide)]
  · rw [if_neg h, checkValid_err _ _ c r (by rw [hst, stateLit, if_neg h]; rfl)]

theorem literal_nil (r : Bytes) : literal [] r = some r := by
  cases r <;> rfl

theorem literal_cons (l : Nat) (lit : Bytes) (c : Nat) (r : Bytes) :
    literal (l :: lit) (c :: r) = if c = l then literal lit r else none := rfl

theorem literal_length (lit : Bytes) :
    ∀ (r r1 : Bytes), literal lit r = some r1 → r1.length ≤ r.length := by
  induction lit with
  | nil => intro r r1 h; rw [literal_nil] at h; injection h with h; rw [h]
  | cons l lit ih =>
    intro r r1 h
    cases r with
    | nil => cases h
    | cons c r =>
      rw [literal_cons] at h
      split at h
      · have := ih r r1 h
        simp only [List.length_cons]; omega
      · cases h

/-- After `t` the scanner accepts `rue`. -/
theorem checkValid_true (r : Bytes) (stk : List ParseState) :
    checkValid r (inState .stateT stk) = andThen stk (literal [114, 117, 101] r) := by
  have n0 := checkValid_lit_nil .stateT .stateTr 114 stk (fun _ => rfl) (by decide)
  have n1 := checkValid_lit_nil .stateTr .stateTru 117 stk (fun _ => rfl) (by decide)
  have n2 := checkValid_lit_nil .stateTru .stateEndValue 101 stk (fun _ => rfl) (by decide)
  have c0 := fun c r => checkValid_lit_cons .stateT .stateTr 114 stk c r (fun _ => rfl)
  have c1 := fun c r => checkValid_lit_cons .stateTr .stateTru 117 stk c r (fun _ => rfl)
  have c2 := fun c r => checkValid_lit_cons .stateTru .stateEndValue 101 stk c r (fun _ => rfl)
  rcases r with _ | ⟨a, _ | ⟨b, _ | ⟨c, r⟩⟩⟩
  · rw [n0]; rfl
  · rw [c0, n1, literal_cons]; split <;> rfl
  · rw [c0, c1, n2, literal_cons, literal_cons]; split <;> (try split) <;> rfl
  · rw [c0, c1, c2, literal_cons, literal_cons, literal_cons, literal_nil]
    split <;> (try split) <;> (try split) <;> rfl

/-- After `f` the scanner accepts `alse`. -/
theorem checkValid_false (r : Bytes) (stk : List ParseState) :
    checkValid r (inState .stateF stk) = andThen stk (literal [97, 108, 115, 101] r) := by
  have n0 := checkValid_lit_nil .stateF .stateFa 97 stk (fun _ => rfl) (by decide)
  have n1 := checkValid_lit_nil .stateFa .stateFal 108 stk (fun _ => rfl) (by decide)
  have n2 := checkValid_lit_nil .stateFal .stateFals 115 stk (fun _ => rfl) (by decide)
  have n3 := checkValid_lit_nil .stateFals .stateEndValue 101 stk (fun _ => rfl) (by decide)
  have c0 := fun c r => checkValid_lit_cons .stateF .stateFa 97 stk c r (fun _ => rfl)
  have c1 := fun c r => checkValid_lit_cons .stateFa .stateFal 108 stk c r (fun _ => rfl)
  have c2 := fun c r => checkValid_lit_cons .stateFal .stateFals 115 stk c r (fun _ => rfl)
  have c3 := fun c r => checkValid_lit_cons .stateFals .stateEndValue 101 stk c r (fun _ => rfl)
  rcases r with _ | ⟨a, _ | ⟨b, _ | ⟨c, _ | ⟨d, r⟩⟩⟩⟩
  · rw [n0]; rfl
  · rw [c0, n1, literal_cons]; split <;> rfl
  · rw [c0, c1, n2, literal_cons, literal_cons]; split <;> (try split) <;> rfl
  · rw [c0, c1, c2, n3, literal_cons, literal_cons, literal_cons]
    split <;> (try split) <;> (try split) <;> rfl
  · rw [c0, c1, c2, c3, literal_cons, literal_cons, literal_cons, literal_cons, literal_nil]
    split <;> (try split) <;> (try split) <;> (try split) <;> rfl

/-- After `n` the scanner accepts `ull`. -/
theorem checkValid_null (r : Bytes) (stk : List ParseState) :
    checkValid r (inState .stateN stk) = andThen stk (literal [117, 108, 108] r) := by
  have n0 := checkValid_lit_nil .stateN .stateNu 117 stk (fun _ => rfl) (by decide)
  have n1 := checkValid_lit_nil .stateNu .stateNul 108 stk (fun _ => rfl) (by decide)
  have n2 := checkValid_lit_nil .stateNul .stateEndValue 108 stk (fun _ => rfl) (by decide)
  have c0 := fun c r => checkValid_lit_cons .stateN .stateNu 117 stk c r (fun _ => rfl)
  have c1 := fun c r => checkValid_lit_cons .stateNu .stateNul 108 stk c r (fun _ => rfl)
  have c2 := fun c r => checkValid_lit_cons .stateNul .stateEndValue 108 stk c r (fun _ => rfl)
  rcases r with _ | ⟨a, _ | ⟨b, _ | ⟨c, r⟩⟩⟩
  · rw [n0]; rfl
  · rw [c0, n1, literal_cons]; split <;> rfl
  · rw [c0, c1, n2, literal_cons, literal_cons]; split <;> (try split) <;> rfl
  · rw [c0, c1, c2, literal_cons, literal_cons, literal_cons, literal_nil]
    split <;> (try split) <;> (try split) <;> rfl

end Json

namespace Json

/-! ### Numbers -/

/-- What `stateEndValue` does depends on the stack and the flags, not on the state it is
called from. -/
theorem stateEndValue_irrel (st st1 : Step) (et : Bool) (stk : List ParseState) (er : Bool)
    (c : Nat) : stateEndValue ⟨st, et, stk, er⟩ c = stateEndValue ⟨st1, et, stk, er⟩ c := by
  unfold stateEndValue
  cases stk with
  | nil => rfl
  | cons p stk => cases p <;> rfl

theorem checkValid_congr (s s1 : Scanner) (c : Nat) (r : Bytes)
    (h : s.stepByte c = s1.stepByte c) : checkValid (c :: r) s = checkValid (c :: r) s1 := by
  simp only [checkValid, h]

theorem isDigit_iff (c : Nat) : isDigit c = true ↔ 48 ≤ c ∧ c ≤ 57 := by
  simp [isDigit]

theorem skipDigits_digit (c : Nat) (r : Bytes) (h : isDigit c = true) :
    skipDigits (c :: r) = skipDigits r := by
  simp [skipDigits, h]

theorem skipDigits_other (c : Nat) (r : Bytes) (h : isDigit c = false) :
    skipDigits (c :: r) = c :: r := by
  simp [skipDigits, h]

theorem skipDigits_length (r : Bytes) : (skipDigits r).length ≤ r.length := by
  induction r with
  | nil => simp [skipDigits]
  | cons c r ih =>
    cases h : isDigit c
    · rw [skipDigits_other c r h]
    · rw [skipDigits_digit c r h]; simp only [List.length_cons]; omega

/-- At the end of the text a number that may end here ends as any value does. -/
theorem checkValid_numEnd_nil (st : Step) (stk : List ParseState) (hs : st.numEnd = true) :
    checkValid [] (inState st stk) = afterValue stk [] := by
  cases stk with
  | nil => cases st <;> first | rfl | cases hs
  | cons p stk => cases st <;> rfl

/-- After a digit of the exponent. -/
theorem checkValid_E0 (r : Bytes) (stk : List ParseState) :
    checkValid r (inState .stateE0 stk) = afterValue stk (skipDigits r) := by
  induction r with
  | nil => exact checkValid_numEnd_nil .stateE0 stk rfl
  | cons c r ih =>
    cases h : isDigit c
    · rw [skipDigits_other c r h]
      have hd : ¬ (48 ≤ c ∧ c ≤ 57) := by rw [← isDigit_iff, h]; decide
      refine checkValid_congr _ _ c r ?_
      simp only [Scanner.stepByte, inState, stateE0, if_neg hd]
      exact stateEndValue_irrel _ _ _ _ _ c
    · rw [skipDigits_digit c r h]
      have hd : 48 ≤ c ∧ c ≤ 57 := (isDigit_iff c).mp h
      have hT : (inState .stateE0 stk).stepByte c = (inState .stateE0 stk, .scanContinue) := by
        simp only [Scanner.stepByte, inState, stateE0, if_pos hd]
      rw [checkValid_ok _ _ _ c r hT (by decide)]
      exact ih

theorem digits1_cons (c : Nat) (r : Bytes) :
    digits1 (c :: r) = if isDigit c then some (skipDigits r) else none := rfl

/-- After the sign of the exponent. -/
theorem checkValid_ESign (r : Bytes) (stk : List ParseState) :
    checkValid r (inState .stateESign stk) = andThen stk (digits1 r) := by
  cases r with
  | nil => rfl
  | cons c r =>
    rw [digits1_cons]
    cases h : isDigit c
    · have hd : ¬ (48 ≤ c ∧ c ≤ 57) := by rw [← isDigit_iff, h]; decide
      have hT : (inState .stateESign stk).stepByte c =
          (⟨.stateError, false, stk, true⟩, .scanError) := by
        simp only [Scanner.stepByte, inState, stateESign, if_neg hd, Scanner.error]
      rw [checkValid_err _ _ c r hT]
      rfl
    · have hd : 48 ≤ c ∧ c ≤ 57 := (isDigit_iff c).mp h
      have hT : (inState .stateESign stk).stepByte c = (inState .stateE0 stk, .scanContinue) := by
        simp only [Scanner.stepByte, inState, stateESign, if_pos hd]
      rw [checkValid_ok _ _ _ c r hT (by decide), checkValid_E0]
      rfl

theorem expTail_cons (c : Nat) (r : Bytes) :
    expTail (c :: r) = if c = 43 ∨ c = 45 then digits1 r else digits1 (c :: r) := rfl

theorem number_cons (c : Nat) (r : Bytes) :
    number (c :: r) =
      ((if c = 45 then intPart r else intPart (c :: r)).bind optFrac).bind optExp := rfl

/-- After `e` or `E`. -/
theorem checkValid_E (r : Bytes) (stk : List ParseState) :
    checkValid r (inState .stateE stk) = andThen stk (expTail r) := by
  cases r with
  | nil => rfl
  | cons c r =>
    rw [expTail_cons]
    by_cases hs : c = 43 ∨ c = 45
    · rw [if_pos hs]
      have hT : (inState .stateE stk).stepByte c = (inState .stateESign stk, .scanContinue) := by
        simp only [Scanner.stepByte, inState, stateE, if_pos hs]
      rw [checkValid_ok _ _ _ c r hT (by decide)]
      exact checkValid_ESign r stk
    · rw [if_neg hs, ← checkValid_ESign (c :: r) stk]
      refine checkValid_congr _ _ c r ?_
      simp only [Scanner.stepByte, inState, stateE, if_neg hs, stateESign, Scanner.error]

theorem optExp_cons (c : Nat) (r : Bytes) :
    optExp (c :: r) = if c = 101 ∨ c = 69 then expTail r else some (c :: r) := rfl

/-- After a digit of the fraction. -/
theorem checkValid_Dot0 (r : Bytes) (stk : List ParseState) :
    checkValid r (inState .stateDot0 stk) = andThen stk (optExp (skipDigits r)) := by
  induction r with
  | nil => exact checkValid_numEnd_nil .stateDot0 stk rfl
  | cons c r ih =>
    cases h : isDigit c
    · rw [skipDigits_other c r h, optExp_cons]
      have hd : ¬ (48 ≤ c ∧ c ≤ 57) := by rw [← isDigit_iff, h]; decide
      by_cases he : c = 101 ∨ c = 69
      · rw [if_pos he]
        have hT : (inState .stateDot0 stk).stepByte c = (inState .stateE stk, .scanContinue) := by
          simp only [Scanner.stepByte, inState, stateDot0, if_neg hd, if_pos he]
        rw [checkValid_ok _ _ _ c r hT (by decide)]
        exact checkValid_E r stk
      · rw [if_neg he]
        refine checkValid_congr _ _ c r ?_
        simp only [Scanner.stepByte, inState, stateDot0, if_neg hd, if_neg he]
        exact stateEndValue_irrel _ _ _ _ _ c
    · rw [skipDigits_digit c r h]
      have hd : 48 ≤ c ∧ c ≤ 57 := (isDigit_iff c).mp h
      have hT : (inState .stateDot0 stk).stepByte c = (inState .stateDot0 stk, .scanContinue) := by
        simp only [Scanner.stepByte, inState, stateDot0, if_pos hd]
      rw [checkValid_ok _ _ _ c r hT (by decide)]
      exact ih

/-- After the decimal point. -/
theorem checkValid_Dot (r : Bytes) (stk : List ParseState) :
    checkValid r (inState .stateDot stk) = andThen stk ((digits1 r).bind optExp) := by
  cases r with
  | nil => rfl
  | cons c r =>
    rw [digits1_cons]
    cases h : isDigit c
    · have hd : ¬ (48 ≤ c ∧ c ≤ 57) := by rw [← isDigit_iff, h]; decide
      have hT : (inState .stateDot stk).stepByte c =
          (⟨.stateError, false, stk, true⟩, .scanError) := by
        simp only [Scanner.stepByte, inState, stateDot, if_neg hd, Scanner.error]
      rw [checkValid_err _ _ c r hT]
      rfl
    · have hd : 48 ≤ c ∧ c ≤ 57 := (isDigit_iff c).mp h
      have hT : (inState .stateDot stk).stepByte c = (inState .stateDot0 stk, .scanContinue) := by
        simp only [Scanner.stepByte, inState, stateDot, if_pos hd]
      rw [checkValid_ok _ _ _ c r hT (by decide), checkValid_Dot0]
      rfl

theorem optFrac_cons (c : Nat) (r : Bytes) :
    optFrac (c :: r) = if c = 46 then digits1 r else some (c :: r) := rfl

/-- After a leading zero. -/
theorem checkValid_0 (r : Bytes) (stk : List ParseState) :
    checkValid r (inState .state0 stk) = andThen stk ((optFrac r).bind optExp) := by
  cases r with
  | nil => exact checkValid_numEnd_nil .state0 stk rfl
  | cons c r =>
    rw [optFrac_cons]
    by_cases h1 : c = 46
    · rw [if_pos h1]
      have hT : (inState .state0 stk).stepByte c = (inState .stateDot stk, .scanContinue) := by
        simp only [Scanner.stepByte, inState, state0, if_pos h1]
      rw [checkValid_ok _ _ _ c r hT (by decide)]
      exact checkValid_Dot r stk
    · rw [if_neg h1]
      simp only [Option.some_bind, optExp_cons]
      by_cases he : c = 101 ∨ c = 69
      · rw [if_pos he]
        have hT : (inState .state0 stk).stepByte c = (inState .stateE stk, .scanContinue) := by
          simp only [Scanner.stepByte, inState, state0, if_neg h1, if_pos he]
        rw [checkValid_ok _ _ _ c r hT (by decide)]
        exact checkValid_E r stk
      · rw [if_neg he]
        refine checkValid_congr _ _ c r ?_
        simp only [Scanner.stepByte, inState, state0, if_neg h1, if_neg he]
        exact stateEndValue_irrel _ _ _ _ _ c

/-- After a leading digit other than zero. -/
theorem checkValid_1 (r : Bytes) (stk : List ParseState) :
    checkValid r (inState .state1 stk) =
      andThen stk ((optFrac (skipDigits r)).bind optExp) := by
  induction r with
  | nil => exact checkValid_numEnd_nil .state1 stk rfl
  | cons c r ih =>
    cases h : isDigit c
    · rw [skipDigits_other c r h, ← checkValid_0 (c :: r) stk]
      have hd : ¬ (48 ≤ c ∧ c ≤ 57) := by rw [← isDigit_iff, h]; decide
      refine checkValid_congr _ _ c r ?_
      simp only [Scanner.stepByte, inState, state1, if_neg hd, state0]
      by_cases h1 : c = 46
      · simp only [if_pos h1]
      · simp only [if_neg h1]
        by_cases he : c = 101 ∨ c = 69
        · simp only [if_pos he]
        · simp only [if_neg he]
          exact stateEndValue_irrel _ _ _ _ _ c
    · rw [skipDigits_digit c r h]
      have hd : 48 ≤ c ∧ c ≤ 57 := (isDigit_iff c).mp h
      have hT : (inState .state1 stk).stepByte c = (inState .state1 stk, .scanContinue) := by
        simp only [Scanner.stepByte, inState, state1, if_pos hd]
      rw [checkValid_ok _ _ _ c r hT (by decide)]
      exact ih

theorem intPart_cons (c : Nat) (r : Bytes) :
    intPart (c :: r) =
      if c = 48 then some r else if 49 ≤ c ∧ c ≤ 57 then some (skipDigits r) else none := rfl

/-- After the minus sign. -/
theorem checkValid_Neg (r : Bytes) (stk : List ParseState) :
    checkValid r (inState .stateNeg stk) =
      andThen stk (((intPart r).bind optFrac).bind optExp) := by
  cases r with
  | nil => rfl
  | cons c r =>
    rw [intPart_cons]
    by_cases h0 : c = 48
    · rw [if_pos h0]
      have hT : (inState .stateNeg stk).stepByte c = (inState .state0 stk, .scanContinue) := by
        simp only [Scanner.stepByte, inState, stateNeg, if_pos h0]
      rw [checkValid_ok _ _ _ c r hT (by decide)]
      exact checkValid_0 r stk
    · rw [if_neg h0]
      by_cases h1 : 49 ≤ c ∧ c ≤ 57
      · rw [if_pos h1]
        have hT : (inState .stateNeg stk).stepByte c = (inState .state1 stk, .scanContinue) := by
          simp only [Scanner.stepByte, inState, stateNeg, if_neg h0, if_pos h1]
        rw [checkValid_ok _ _ _ c r hT (by decide)]
        exact checkValid_1 r stk
      · rw [if_neg h1]
        have hT : (inState .stateNeg stk).stepByte c =
            (⟨.stateError, false, stk, true⟩, .scanError) := by
          simp only [Scanner.stepByte, inState, stateNeg, if_neg h0, if_neg h1, Scanner.error]
        rw [checkValid_err _ _ c r hT]
        rfl

/-! ### Lengths: every rule leaves a suffix of what it read -/

theorem digits1_length (r r1 : Bytes) (h : digits1 r = some r1) : r1.length < r.length := by
  cases r with
  | nil => cases h
  | cons c r =>
    rw [digits1_cons] at h
    split at h
    · injection h with h
      rw [← h]
      have := skipDigits_length r
      simp only [List.length_cons]; omega
    · cases h

theorem expTail_length (r r1 : Bytes) (h : expTail r = some r1) : r1.length < r.length := by
  cases r with
  | nil => cases h
  | cons c r =>
    rw [expTail_cons] at h
    split at h
    · have := digits1_length r r1 h
      simp only [List.length_cons]; omega
    · exact digits1_length (c :: r) r1 h

theorem optExp_length (r r1 : Bytes) (h : optExp r = some r1) : r1.length ≤ r.length := by
  cases r with
  | nil => injection h with h; rw [← h]
  | cons c r =>
    rw [optExp_cons] at h
    split at h
    · have := expTail_length r r1 h
      simp only [List.length_cons]; omega
    · injection h with h; rw [← h]

theorem optFrac_length (r r1 : Bytes) (h : optFrac r = some r1) : r1.length ≤ r.length := by
  cases r with
  | nil => injection h with h; rw [← h]
  | cons c r =>
    rw [optFrac_cons] at h
    split at h
    · have := digits1_length r r1 h
      simp only [List.length_cons]; omega
    · injection h with h; rw [← h]

theorem intPart_length (r r1 : Bytes) (h : intPart r = some r1) : r1.length < r.length := by
  cases r with
  | nil => cases h
  | cons c r =>
    rw [intPart_cons] at h
    split at h
    · injection h with h; rw [← h]; simp
    · split at h
      · injection h with h
        rw [← h]
        have := skipDigits_length r
        simp only [List.length_cons]; omega
      · cases h

theorem number_length (r r1 : Bytes) (h : number r = some r1) : r1.length < r.length := by
  cases r with
  | nil => cases h
  | cons c r =>
    rw [number_cons] at h
    cases h1 : (if c = 45 then intPart r else intPart (c :: r)) with
    | none => rw [h1] at h; cases h
    | some a =>
      rw [h1] at h
      simp only [Option.some_bind] at h
      cases h2 : optFrac a with
      | none => rw [h2] at h; cases h
      | some b =>
        rw [h2] at h
        simp only [Option.some_bind] at h
        have l2 := optFrac_length a b h2
        have l3 := optExp_length b r1 h
        have l1 : a.length ≤ r.length := by
          split at h1
          · have := intPart_length r a h1; omega
          · have := intPart_length (c :: r) a h1
            simp only [List.length_cons] at this; omega
        simp only [List.length_cons]; omega

end Json

namespace Json

/-! ### Values, arrays and objects -/

theorem skipWs_noLeadingSpace (r : Bytes) : NoLeadingSpace (skipWs r) :=
  fun c r0 h => skipWs_head r c r0 h

theorem stateBeginValue_irrel (st st1 : Step) (et : Bool) (stk : List ParseState) (er : Bool)
    (c : Nat) (h : isSpace c = false) :
    stateBeginValue ⟨st, et, stk, er⟩ c = stateBeginValue ⟨st1, et, stk, er⟩ c := by
  unfold stateBeginValue
  simp only [h, Bool.false_eq_true, if_false]
  rfl

theorem stateBeginString_irrel (st st1 : Step) (et : Bool) (stk : List ParseState) (er : Bool)
    (c : Nat) (h : isSpace c = false) :
    stateBeginString ⟨st, et, stk, er⟩ c = stateBeginString ⟨st1, et, stk, er⟩ c := by
  unfold stateBeginString
  simp only [h, Bool.false_eq_true, if_false]
  rfl

/-- The first element of an array is read as the later ones. -/
theorem checkValid_firstElement (c : Nat) (r : Bytes) (stk : List ParseState)
    (h : isSpace c = false) (h93 : c ≠ 93) :
    checkValid (c :: r) (inState .stateBeginValueOrEmpty stk) =
      checkValid (c :: r) (inState .stateBeginValue stk) := by
  refine checkValid_congr _ _ c r ?_
  simp only [Scanner.stepByte, inState, stateBeginValueOrEmpty, h, Bool.false_eq_true, if_false,
    if_neg h93]
  exact stateBeginValue_irrel _ _ _ _ _ c h

/-- The first key of an object is read as the later ones. -/
theorem checkValid_firstMember (c : Nat) (r : Bytes) (stk : List ParseState)
    (h : isSpace c = false) (h125 : c ≠ 125) :
    checkValid (c :: r) (inState .stateBeginStringOrEmpty stk) =
      checkValid (c :: r) (inState .stateBeginString stk) := by
  refine checkValid_congr _ _ c r ?_
  simp only [Scanner.stepByte, inState, stateBeginStringOrEmpty, h, Bool.false_eq_true, if_false,
    if_neg h125]
  exact stateBeginString_irrel _ _ _ _ _ c h

/-- A closing bracket right after the opening one. -/
theorem checkValid_emptyArray (r : Bytes) (stk : List ParseState) :
    checkValid (93 :: r) (inState .stateBeginValueOrEmpty (.parseArrayValue :: stk)) =
      afterValue stk r := by
  rw [checkValid_ok (inState .stateBeginValueOrEmpty (.parseArrayValue :: stk))
    (popParseState ⟨.stateBeginValueOrEmpty, false, .parseArrayValue :: stk, false⟩) .scanEndArray 93 r rfl (by decide)]
  exact checkValid_popped r _ _ stk

theorem checkValid_emptyObject (r : Bytes) (stk : List ParseState) :
    checkValid (125 :: r) (inState .stateBeginStringOrEmpty (.parseObjectKey :: stk)) =
      afterValue stk r := by
  rw [checkValid_ok (inState .stateBeginStringOrEmpty (.parseObjectKey :: stk))
    (popParseState ⟨.stateBeginStringOrEmpty, false, .parseObjectValue :: stk, false⟩) .scanEndObject 125 r rfl (by decide)]
  exact checkValid_popped r _ _ stk

/-- After an element of an array: a comma and the next element, or the closing bracket. -/
theorem afterValue_array (c : Nat) (r : Bytes) (stk : List ParseState)
    (h : isSpace c = false) :
    afterValue (.parseArrayValue :: stk) (c :: r) =
      if c = 44 then checkValid r (inState .stateBeginValue (.parseArrayValue :: stk))
      else if c = 93 then afterValue stk r
      else false := by
  unfold afterValue
  by_cases h1 : c = 44
  · rw [if_pos h1]
    subst h1
    exact checkValid_ok _ _ .scanArrayValue 44 r rfl (by decide)
  rw [if_neg h1]
  by_cases h2 : c = 93
  · rw [if_pos h2]
    subst h2
    rw [checkValid_ok (inState .stateEndValue (.parseArrayValue :: stk))
      (popParseState ⟨.stateEndValue, false, .parseArrayValue :: stk, false⟩)
      .scanEndArray 93 r rfl (by decide)]
    exact checkValid_popped r _ _ stk
  rw [if_neg h2]
  refine checkValid_err _ ⟨.stateError, false, .parseArrayValue :: stk, true⟩ c r ?_
  simp only [Scanner.stepByte, inState, stateEndValue, h, Bool.false_eq_true, if_false,
    if_neg h1, if_neg h2, Scanner.error]

/-- After a key of an object: the colon and the value. -/
theorem afterValue_key (c : Nat) (r : Bytes) (stk : List ParseState)
    (h : isSpace c = false) :
    afterValue (.parseObjectKey :: stk) (c :: r) =
      if c = 58 then checkValid r (inState .stateBeginValue (.parseObjectValue :: stk))
      else false := by
  unfold afterValue
  by_cases h1 : c = 58
  · rw [if_pos h1]
    subst h1
    exact checkValid_ok _ _ .scanObjectKey 58 r rfl (by decide)
  rw [if_neg h1]
  refine checkValid_err _ ⟨.stateError, false, .parseObjectKey :: stk, true⟩ c r ?_
  simp only [Scanner.stepByte, inState, stateEndValue, h, Bool.false_eq_true, if_false,
    if_neg h1, Scanner.error]

/-- After a value of an object: a comma and the next member, or the closing bracket. -/
theorem afterValue_object (c : Nat) (r : Bytes) (stk : List ParseState)
    (h : isSpace c = false) :
    afterValue (.parseObjectValue :: stk) (c :: r) =
      if c = 44 then checkValid r (inState .stateBeginString (.parseObjectKey :: stk))
      else if c = 125 then afterValue stk r
      else false := by
  unfold afterValue
  by_cases h1 : c = 44
  · rw [if_pos h1]
    subst h1
    exact checkValid_ok _ _ .scanObjectValue 44 r rfl (by decide)
  rw [if_neg h1]
  by_cases h2 : c = 125
  · rw [if_pos h2]
    subst h2
    rw [checkValid_ok (inState .stateEndValue (.parseObjectValue :: stk))
      (popParseState ⟨.stateEndValue, false, .parseObjectValue :: stk, false⟩)
      .scanEndObject 125 r rfl (by decide)]
    exact checkValid_popped r _ _ stk
  rw [if_neg h2]
  refine checkValid_err _ ⟨.stateError, false, .parseObjectValue :: stk, true⟩ c r ?_
  simp only [Scanner.stepByte, inState, stateEndValue, h, Bool.false_eq_true, if_false,
    if_neg h1, if_neg h2, Scanner.error]

end Json

namespace Json

theorem value_nil (f d : Nat) : value f d [] = none := by
  cases f <;> rfl

theorem value_obj0 (f : Nat) (r : Bytes) : value (f + 1) 0 (123 :: r) = none := rfl

theorem value_obj (f d : Nat) (r : Bytes) :
    value (f + 1) (d + 1) (123 :: r) =
      match skipWs r with
      | [] => none
      | c1 :: r1 => if c1 = 125 then some r1 else members f d (c1 :: r1) := rfl

theorem value_arr0 (f : Nat) (r : Bytes) : value (f + 1) 0 (91 :: r) = none := rfl

theorem value_arr (f d : Nat) (r : Bytes) :
    value (f + 1) (d + 1) (91 :: r) =
      match skipWs r with
      | [] => none
      | c1 :: r1 => if c1 = 93 then some r1 else elements f d (c1 :: r1) := rfl

theorem value_scalar (f d c : Nat) (r : Bytes) (h1 : c ≠ 123) (h2 : c ≠ 91) :
    value (f + 1) d (c :: r) =
      if c = 34 then chars (r.length + 1) r
      else if c = 116 then literal [114, 117, 101] r
      else if c = 102 then literal [97, 108, 115, 101] r
      else if c = 110 then literal [117, 108, 108] r
      else if c = 45 ∨ isDigit c = true then number (c :: r)
      else none := by
  have h : value (f + 1) d (c :: r) =
      if c = 123 then
        match d with
        | 0 => none
        | d + 1 =>
          match skipWs r with
          | [] => none
          | c1 :: r1 => if c1 = 125 then some r1 else members f d (c1 :: r1)
      else if c = 91 then
        match d with
        | 0 => none
        | d + 1 =>
          match skipWs r with
          | [] => none
          | c1 :: r1 => if c1 = 93 then some r1 else elements f d (c1 :: r1)
      else if c = 34 then chars (r.length + 1) r
      else if c = 116 then literal [114, 117, 101] r
      else if c = 102 then literal [97, 108, 115, 101] r
      else if c = 110 then literal [117, 108, 108] r
      else if c = 45 ∨ isDigit c = true then number (c :: r)
      else none := rfl
  rw [h, if_neg h1, if_neg h2]

/-- The scalar values: strings, literal names and numbers. -/
theorem value_scalar_ok (f d c : Nat) (r : Bytes) (stk : List ParseState) (h1 : c ≠ 123)
    (h2 : c ≠ 91) (hsp : isSpace c = false) :
    checkValid (c :: r) (inState .stateBeginValue stk) =
        andThen stk (value (f + 1) d (c :: r)) ∧
      ∀ r1, value (f + 1) d (c :: r) = some r1 → r1.length < (c :: r).length := by
  rw [value_scalar f d c r h1 h2]
  simp only [List.length_cons]
  by_cases h3 : c = 34
  · rw [if_pos h3]
    have hT : (inState .stateBeginValue stk).stepByte c =
        (inState .stateInString stk, .scanBeginLiteral) := by
      simp only [Scanner.stepByte, inState, stateBeginValue, hsp, Bool.false_eq_true, if_false,
        if_neg h1, if_neg h2, if_pos h3]
    rw [checkValid_ok _ _ _ c r hT (by decide)]
    refine ⟨checkValid_chars (r.length + 1) r stk (by omega), fun r1 h => ?_⟩
    have := chars_length _ r r1 h
    omega
  rw [if_neg h3]
  by_cases h4 : c = 116
  · rw [if_pos h4]
    have hT : (inState .stateBeginValue stk).stepByte c =
        (inState .stateT stk, .scanBeginLiteral) := by
      subst h4; rfl
    rw [checkValid_ok _ _ _ c r hT (by decide)]
    refine ⟨checkValid_true r stk, fun r1 h => ?_⟩
    have := literal_length _ r r1 h
    omega
  rw [if_neg h4]
  by_cases h5 : c = 102
  · rw [if_pos h5]
    have hT : (inState .stateBeginValue stk).stepByte c =
        (inState .stateF stk, .scanBeginLiteral) := by
      subst h5; rfl
    rw [checkValid_ok _ _ _ c r hT (by decide)]
    refine ⟨checkValid_false r stk, fun r1 h => ?_⟩
    have := literal_length _ r r1 h
    omega
  rw [if_neg h5]
  by_cases h6 : c = 110
  · rw [if_pos h6]
    have hT : (inState .stateBeginValue stk).stepByte c =
        (inState .stateN stk, .scanBeginLiteral) := by
      subst h6; rfl
    rw [checkValid_ok _ _ _ c r hT (by decide)]
    refine ⟨checkValid_null r stk, fun r1 h => ?_⟩
    have := literal_length _ r r1 h
    omega
  rw [if_neg h6]
  have hlen : ∀ r1, number (c :: r) = some r1 → r1.length < r.length + 1 := by
    intro r1 h
    have := number_length _ r1 h
    simpa using this
  by_cases h7 : c = 45
  · rw [if_pos (Or.inl h7)]
    refine ⟨?_, hlen⟩
    have hT : (inState .stateBeginValue stk).stepByte c =
        (inState .stateNeg stk, .scanBeginLiteral) := by
      subst h7; rfl
    rw [checkValid_ok _ _ _ c r hT (by decide), number_cons, if_pos h7]
    exact checkValid_Neg r stk
  by_cases h8 : c = 48
  · have hd : isDigit c = true := by subst h8; rfl
    rw [if_pos (Or.inr hd)]
    refine ⟨?_, hlen⟩
    have hT : (inState .stateBeginValue stk).stepByte c =
        (inState .state0 stk, .scanBeginLiteral) := by
      subst h8; rfl
    rw [checkValid_ok _ _ _ c r hT (by decide), number_cons, if_neg h7, intPart_cons, if_pos h8]
    exact checkValid_0 r stk
  by_cases h9 : 49 ≤ c ∧ c ≤ 57
  · have hd : isDigit c = true := (isDigit_iff c).mpr ⟨by omega, h9.2⟩
    rw [if_pos (Or.inr hd)]
    refine ⟨?_, hlen⟩
    have hT : (inState .stateBeginValue stk).stepByte c =
        (inState .state1 stk, .scanBeginLiteral) := by
      simp only [Scanner.stepByte, inState, stateBeginValue, hsp, Bool.false_eq_true, if_false,
        if_neg h1, if_neg h2, if_neg h3, if_neg h4, if_neg h5, if_neg h6, if_neg h7, if_neg h8,
        if_pos h9]
    rw [checkValid_ok _ _ _ c r hT (by decide), number_cons, if_neg h7, intPart_cons, if_neg h8,
      if_pos h9]
    exact checkValid_1 r stk
  · have hd : ¬ (c = 45 ∨ isDigit c = true) := by
      rw [isDigit_iff]; omega
    rw [if_neg hd]
    refine ⟨?_, fun r1 h => by cases h⟩
    refine checkValid_err _ ⟨.stateError, false, stk, true⟩ c r ?_
    simp only [Scanner.stepByte, inState, stateBeginValue, hsp, Bool.false_eq_true, if_false,
      if_neg h1, if_neg h2, if_neg h3, if_neg h4, if_neg h5, if_neg h6, if_neg h7, if_neg h8,
      if_neg h9, Scanner.error]

end Json

namespace Json

theorem isSpace_123 : isSpace 123 = false := by decide

theorem isSpace_91 : isSpace 91 = false := by decide

theorem isSpace_34 : isSpace 34 = false := by decide

/-- From the rules for elements and members with fuel `f`, the rule for values with one more. -/
theorem value_step (f : Nat) (hE : ElementsOk f) (hM : MembersOk f) : ValueOk (f + 1) := by
  intro r stk d hf hd hns
  cases r with
  | nil =>
    rw [value_nil]
    exact ⟨checkValid_nil_begins _ rfl rfl, fun r1 h => by cases h⟩
  | cons c r0 =>
    have hsp := hns c r0 rfl
    simp only [List.length_cons] at hf
    by_cases h1 : c = 123
    · subst h1
      cases d with
      | zero =>
        rw [value_obj0]
        refine ⟨?_, fun r1 h => by cases h⟩
        have hdeep : ¬ ((ParseState.parseObjectKey :: stk).length ≤ maxNestingDepth) := by
          simp only [List.length_cons]; omega
        refine checkValid_err _ ⟨.stateError, false, .parseObjectKey :: stk, true⟩ 123 r0 ?_
        simp only [Scanner.stepByte, inState, stateBeginValue, isSpace_123, Bool.false_eq_true,
          if_false, if_true, pushParseState, if_neg hdeep, Scanner.error]
      | succ d =>
        rw [value_obj]
        have hok : (ParseState.parseObjectKey :: stk).length ≤ maxNestingDepth := by
          simp only [List.length_cons]; omega
        have hT : (inState .stateBeginValue stk).stepByte 123 =
            (inState .stateBeginStringOrEmpty (.parseObjectKey :: stk), .scanBeginObject) := by
          simp only [Scanner.stepByte, inState, stateBeginValue, isSpace_123, Bool.false_eq_true,
            if_false, if_true, pushParseState, if_pos hok]
        rw [checkValid_ok _ _ _ 123 r0 hT (by decide),
          checkValid_skipWs_begins r0
            (inState .stateBeginStringOrEmpty (.parseObjectKey :: stk)) rfl]
        have hl := skipWs_length r0
        cases hs : skipWs r0 with
        | nil => exact ⟨checkValid_nil_begins _ rfl rfl, fun r1 h => by cases h⟩
        | cons c1 r1 =>
          rw [hs] at hl
          simp only [List.length_cons] at hl
          have hc1 := skipWs_head r0 c1 r1 hs
          simp only []
          by_cases h125 : c1 = 125
          · rw [if_pos h125]
            subst h125
            refine ⟨checkValid_emptyObject r1 stk, fun r2 h => ?_⟩
            injection h with h
            subst h
            simp only [List.length_cons]; omega
          · rw [if_neg h125, checkValid_firstMember c1 r1 _ hc1 h125]
            have := hM (c1 :: r1) stk d (by simp only [List.length_cons]; omega) (by omega)
              (fun a b hab => by injection hab with h1 h2; rw [← h1]; exact hc1)
            refine ⟨this.1, fun r2 h => ?_⟩
            have := this.2 r2 h
            simp only [List.length_cons] at this ⊢
            omega
    by_cases h2 : c = 91
    · subst h2
      cases d with
      | zero =>
        rw [value_arr0]
        refine ⟨?_, fun r1 h => by cases h⟩
        have hdeep : ¬ ((ParseState.parseArrayValue :: stk).length ≤ maxNestingDepth) := by
          simp only [List.length_cons]; omega
        refine checkValid_err _ ⟨.stateError, false, .parseArrayValue :: stk, true⟩ 91 r0 ?_
        simp only [Scanner.stepByte, inState, stateBeginValue, isSpace_91, Bool.false_eq_true,
          if_false, if_true, pushParseState, if_neg hdeep, Scanner.error, if_neg h1]
      | succ d =>
        rw [value_arr]
        have hok : (ParseState.parseArrayValue :: stk).length ≤ maxNestingDepth := by
          simp only [List.length_cons]; omega
        have hT : (inState .stateBeginValue stk).stepByte 91 =
            (inState .stateBeginValueOrEmpty (.parseArrayValue :: stk), .scanBeginArray) := by
          simp only [Scanner.stepByte, inState, stateBeginValue, isSpace_91, Bool.false_eq_true,
            if_false, if_true, pushParseState, if_pos hok, if_neg h1]
        rw [checkValid_ok _ _ _ 91 r0 hT (by decide),
          checkValid_skipWs_begins r0
            (inState .stateBeginValueOrEmpty (.parseArrayValue :: stk)) rfl]
        have hl := skipWs_length r0
        cases hs : skipWs r0 with
        | nil => exact ⟨checkValid_nil_begins _ rfl rfl, fun r1 h => by cases h⟩
        | cons c1 r1 =>
          rw [hs] at hl
          simp only [List.length_cons] at hl
          have hc1 := skipWs_head r0 c1 r1 hs
          simp only []
          by_cases h93 : c1 = 93
          · rw [if_pos h93]
            subst h93
            refine ⟨checkValid_emptyArray r1 stk, fun r2 h => ?_⟩
            injection h with h
            subst h
            simp only [List.length_cons]; omega
          · rw [if_neg h93, checkValid_firstElement c1 r1 _ hc1 h93]
            have := hE (c1 :: r1) stk d (by simp only [List.length_cons]; omega) (by omega)
              (fun a b hab => by injection hab with h1 h2; rw [← h1]; exact hc1)
            refine ⟨this.1, fun r2 h => ?_⟩
            have := this.2 r2 h
            simp only [List.length_cons] at this ⊢
            omega
    exact value_scalar_ok f d c r0 stk h1 h2 hsp

theorem elements_succ (f d : Nat) (r : Bytes) :
    elements (f + 1) d r =
      match value f d r with
      | none => none
      | some r1 =>
        match skipWs r1 with
        | [] => none
        | c :: r2 =>
          if c = 44 then elements f d (skipWs r2)
          else if c = 93 then some r2
          else none := rfl

/-- From the rules for values and elements with fuel `f`, the rule for elements with one
more. -/
theorem elements_step (f : Nat) (hV : ValueOk f) (hE : ElementsOk f) : ElementsOk (f + 1) := by
  intro r stk d hf hd hns
  rw [elements_succ]
  have hv := hV r (.parseArrayValue :: stk) d (by omega)
    (by simp only [List.length_cons]; omega) hns
  rw [hv.1]
  cases hval : value f d r with
  | none => exact ⟨rfl, fun r1 h => by cases h⟩
  | some r1 =>
    have hl1 := hv.2 r1 hval
    simp only [andThen]
    rw [afterValue_skipWs]
    have hl2 := skipWs_length r1
    cases hs : skipWs r1 with
    | nil => exact ⟨rfl, fun r1 h => by cases h⟩
    | cons c r2 =>
      rw [hs] at hl2
      simp only [List.length_cons] at hl2
      have hc := skipWs_head r1 c r2 hs
      rw [afterValue_array c r2 stk hc]
      simp only []
      by_cases h44 : c = 44
      · rw [if_pos h44, if_pos h44, checkValid_skipWs_begins r2
          (inState .stateBeginValue (.parseArrayValue :: stk)) rfl]
        have hl3 := skipWs_length r2
        have := hE (skipWs r2) stk d (by omega) hd (skipWs_noLeadingSpace r2)
        refine ⟨this.1, fun r3 h => ?_⟩
        have := this.2 r3 h
        omega
      · rw [if_neg h44, if_neg h44]
        by_cases h93 : c = 93
        · rw [if_pos h93, if_pos h93]
          refine ⟨rfl, fun r3 h => ?_⟩
          injection h with h
          subst h
          omega
        · rw [if_neg h93, if_neg h93]
          exact ⟨rfl, fun r3 h => by cases h⟩

theorem members_nil (f d : Nat) : members f d [] = none := by
  cases f <;> rfl

theorem members_succ (f d q : Nat) (r : Bytes) :
    members (f + 1) d (q :: r) =
      if q = 34 then
        match chars (r.length + 1) r with
        | none => none
        | some r1 =>
          match skipWs r1 with
          | [] => none
          | c :: r2 =>
            if c = 58 then
              match value f d (skipWs r2) with
              | none => none
              | some r3 =>
                match skipWs r3 with
                | [] => none
                | c3 :: r4 =>
                  if c3 = 44 then members f d (skipWs r4)
                  else if c3 = 125 then some r4
                  else none
            else none
      else none := rfl

/-- From the rules for values and members with fuel `f`, the rule for members with one
more. -/
theorem members_step (f : Nat) (hV : ValueOk f) (hM : MembersOk f) : MembersOk (f + 1) := by
  intro r stk d hf hd hns
  cases r with
  | nil =>
    rw [members_nil]
    exact ⟨checkValid_nil_begins _ rfl rfl, fun r1 h => by cases h⟩
  | cons q r0 =>
    have hq := hns q r0 rfl
    simp only [List.length_cons] at hf
    rw [members_succ]
    by_cases h34 : q = 34
    · rw [if_pos h34]
      subst h34
      have hT : (inState .stateBeginString (.parseObjectKey :: stk)).stepByte 34 =
          (inState .stateInString (.parseObjectKey :: stk), .scanBeginLiteral) := rfl
      rw [checkValid_ok _ _ _ 34 r0 hT (by decide),
        checkValid_chars (r0.length + 1) r0 _ (by omega)]
      cases hch : chars (r0.length + 1) r0 with
      | none => exact ⟨rfl, fun r1 h => by cases h⟩
      | some r1 =>
        have hl1 := chars_length _ r0 r1 hch
        simp only [andThen]
        rw [afterValue_skipWs]
        have hl2 := skipWs_length r1
        cases hs : skipWs r1 with
        | nil => exact ⟨rfl, fun r1 h => by cases h⟩
        | cons c r2 =>
          rw [hs] at hl2
          simp only [List.length_cons] at hl2
          have hc := skipWs_head r1 c r2 hs
          rw [afterValue_key c r2 stk hc]
          simp only []
          by_cases h58 : c = 58
          · rw [if_pos h58, if_pos h58, checkValid_skipWs_begins r2
              (inState .stateBeginValue (.parseObjectValue :: stk)) rfl]
            have hl3 := skipWs_length r2
            have hv := hV (skipWs r2) (.parseObjectValue :: stk) d (by omega)
              (by simp only [List.length_cons]; omega) (skipWs_noLeadingSpace r2)
            rw [hv.1]
            cases hval : value f d (skipWs r2) with
            | none => exact ⟨rfl, fun r1 h => by cases h⟩
            | some r3 =>
              have hl4 := hv.2 r3 hval
              simp only [andThen]
              rw [afterValue_skipWs]
              have hl5 := skipWs_length r3
              cases hs3 : skipWs r3 with
              | nil => exact ⟨rfl, fun r1 h => by cases h⟩
              | cons c3 r4 =>
                rw [hs3] at hl5
                simp only [List.length_cons] at hl5
                have hc3 := skipWs_head r3 c3 r4 hs3
                rw [afterValue_object c3 r4 stk hc3]
                simp only []
                by_cases h44 : c3 = 44
                · rw [if_pos h44, if_pos h44, checkValid_skipWs_begins r4
                    (inState .stateBeginString (.parseObjectKey :: stk)) rfl]
                  have hl6 := skipWs_length r4
                  have := hM (skipWs r4) stk d (by omega) hd (skipWs_noLeadingSpace r4)
                  refine ⟨this.1, fun r5 h => ?_⟩
                  have := this.2 r5 h
                  simp only [List.length_cons]
                  omega
                · rw [if_neg h44, if_neg h44]
                  by_cases h125 : c3 = 125
                  · rw [if_pos h125, if_pos h125]
                    refine ⟨rfl, fun r5 h => ?_⟩
                    injection h with h
                    subst h
                    simp only [List.length_cons]
                    omega
                  · rw [if_neg h125, if_neg h125]
                    exact ⟨rfl, fun r5 h => by cases h⟩
          · rw [if_neg h58, if_neg h58]
            exact ⟨rfl, fun r5 h => by cases h⟩
    · rw [if_neg h34]
      refine ⟨?_, fun r1 h => by cases h⟩
      refine checkValid_err _ ⟨.stateError, false, .parseObjectKey :: stk, true⟩ q r0 ?_
      simp only [Scanner.stepByte, inState, stateBeginString, hq, Bool.false_eq_true, if_false,
        if_neg h34, Scanner.error]

/-- The scanner and the grammar agree on values, elements and members, for every fuel. -/
theorem grammar_ok (f : Nat) : ValueOk f ∧ ElementsOk f ∧ MembersOk f := by
  induction f with
  | zero =>
    refine ⟨?_, ?_, ?_⟩
    · intro r stk d hf hd hns
      cases r with
      | nil => exact ⟨checkValid_nil_begins _ rfl rfl, fun r1 h => by cases h⟩
      | cons c r => simp only [List.length_cons] at hf; omega
    · intro r stk d hf; omega
    · intro r stk d hf; omega
  | succ f ih =>
    exact ⟨value_step f ih.2.1 ih.2.2, elements_step f ih.1 ih.2.1,
      members_step f ih.1 ih.2.2⟩

end Json

namespace Json

/-- Go's `Valid` accepts exactly the JSON texts nested at most `maxNestingDepth` deep. -/
theorem checkValid_eq_jsonWithin (p : Bytes) :
    checkValid p newScanner = jsonWithin maxNestingDepth p := by
  have h0 : newScanner = inState .stateBeginValue [] := rfl
  rw [h0, checkValid_skipWs_begins p (inState .stateBeginValue []) rfl]
  have hl := skipWs_length p
  have h := (grammar_ok (2 * p.length + 1)).1 (skipWs p) [] maxNestingDepth (by omega) rfl
    (skipWs_noLeadingSpace p)
  rw [h.1]
  unfold jsonWithin
  cases value (2 * p.length + 1) maxNestingDepth (skipWs p) with
  | none => rfl
  | some r => exact afterValue_top r

/-- The formatter produces an output exactly when `Valid` accepts the rest of the text. -/
theorem formatFrom_isSome (src : Bytes) (s : Scanner) (ni : Bool) :
    (formatFrom s ni src).isSome = checkValid src s := by
  induction src generalizing s ni with
  | nil =>
    unfold formatFrom checkValid
    cases s.eof <;> rfl
  | cons c src ih =>
    cases hT : s.stepByte c with
    | mk s1 v =>
      by_cases h1 : v = .scanSkipSpace
      · subst h1
        rw [formatFrom_skip s s1 ni c src hT, checkValid_ok s s1 _ c src hT (by decide)]
        exact ih s1 ni
      · by_cases h2 : v = .scanError
        · subst h2
          rw [formatFrom_fail s s1 ni c src hT, checkValid_err s s1 c src hT]
          rfl
        · rw [formatFrom_emit s s1 v ni c src hT h1 h2, checkValid_ok s s1 v c src hT h2,
            Option.isSome_map']
          exact ih s1 _

/-- The source's `formatJSON` returns exactly on the JSON texts nested at most
`maxNestingDepth` deep. -/
theorem formatJSON_isSome (p : Bytes) :
    (formatJSON p).isSome = jsonWithin maxNestingDepth p := by
  rw [formatJSON_eq, formatFrom_isSome, checkValid_eq_jsonWithin]

theorem replicate_append_same (k a : Nat) (rest : Bytes) :
    List.replicate k a ++ a :: rest = a :: (List.replicate k a ++ rest) := by
  induction k with
  | zero => rfl
  | succ k ih => rw [List.replicate_succ, List.cons_append, ih, List.cons_append]

theorem nested_succ (k : Nat) (rest : Bytes) :
    nested (k + 2) ++ rest = 91 :: (nested (k + 1) ++ 93 :: rest) := by
  unfold nested
  rw [List.replicate_succ, List.cons_append, List.cons_append, List.append_assoc,
    List.append_assoc, List.replicate_succ 93, List.cons_append,
    replicate_append_same (k + 1) 93 rest]

theorem nested_one (rest : Bytes) : nested 1 ++ rest = 91 :: 93 :: rest := rfl

theorem nested_head (k : Nat) (rest : Bytes) :
    nested (k + 1) ++ rest = 91 :: (List.replicate k 91 ++ List.replicate (k + 1) 93 ++ rest) := by
  simp [nested, List.replicate_succ]

theorem skipWs_93 (r : Bytes) : skipWs (93 :: r) = 93 :: r :=
  skipWs_other 93 r (by decide)

theorem skipWs_91 (r : Bytes) : skipWs (91 :: r) = 91 :: r :=
  skipWs_other 91 r (by decide)

/-- With fuel and depth to spare, the grammar reads the empty array nested `k + 1` deep. -/
theorem value_nested (k : Nat) : ∀ (f d : Nat) (rest : Bytes),
    value (f + 2 * k + 1) (d + k + 1) (nested (k + 1) ++ rest) = some rest := by
  induction k with
  | zero =>
    intro f d rest
    rw [nested_one]
    show value (f + 1) (d + 1) (91 :: 93 :: rest) = some rest
    rw [value_arr, skipWs_93]
    rfl
  | succ k ih =>
    intro f d rest
    rw [nested_succ]
    show value ((f + 2 * k + 2) + 1) ((d + k + 1) + 1) _ = some rest
    rw [value_arr, nested_head, skipWs_91]
    simp only []
    rw [if_neg (by decide), ← nested_head, elements_succ, ih f d (93 :: rest)]
    simp only []
    rw [skipWs_93]
    rfl

/-- The empty array nested deeper than the allowed depth is not read. -/
theorem value_too_deep (d : Nat) : ∀ (f j : Nat) (rest : Bytes),
    value f d (List.replicate (d + 1 + j) 91 ++ rest) = none := by
  induction d with
  | zero =>
    intro f j rest
    cases f with
    | zero => rfl
    | succ f =>
      rw [show 0 + 1 + j = j + 1 by omega, List.replicate_succ, List.cons_append]
      exact value_arr0 f _
  | succ d ih =>
    intro f j rest
    cases f with
    | zero => rfl
    | succ f =>
      rw [show d + 1 + 1 + j = (d + 1 + j) + 1 by omega, List.replicate_succ, List.cons_append,
        value_arr]
      rw [show d + 1 + j = (d + j) + 1 by omega, List.replicate_succ, List.cons_append,
        skipWs_91]
      simp only []
      rw [if_neg (by decide)]
      cases f with
      | zero => rfl
      | succ f =>
        rw [elements_succ, ← List.cons_append, ← List.replicate_succ,
          show d + j + 1 = d + 1 + j by omega, ih f j rest]

theorem nested_length (n : Nat) : (nested n).length = 2 * n := by
  simp [nested]; omega

theorem skipWs_nested (n : Nat) : skipWs (nested n) = nested n := by
  cases n with
  | zero => rfl
  | succ n =>
    have := nested_head n []
    rw [List.append_nil] at this
    rw [this, skipWs_91]

/-- The empty array nested `n + 1` deep is a JSON text within every depth of at least
`n + 1`. -/
theorem jsonWithin_nested (n D : Nat) (h : n + 1 ≤ D) : jsonWithin D (nested (n + 1)) = true := by
  obtain ⟨e, rfl⟩ : ∃ e, D = e + n + 1 := ⟨D - (n + 1), by omega⟩
  unfold jsonWithin
  rw [skipWs_nested, nested_length]
  have hf : 2 * (2 * (n + 1)) + 1 = (2 * n + 4) + 2 * n + 1 := by omega
  have := value_nested n (2 * n + 4) e []
  rw [List.append_nil] at this
  rw [hf, this]
  rfl

/-- The empty array nested `n + 1` deep is not a JSON text within a depth up to `n`. -/
theorem jsonWithin_nested_deep (n D : Nat) (h : D ≤ n) :
    jsonWithin D (nested (n + 1)) = false := by
  unfold jsonWithin
  rw [skipWs_nested]
  have := value_too_deep D (2 * (nested (n + 1)).length + 1) (n - D) (List.replicate (n + 1) 93)
  rw [show D + 1 + (n - D) = n + 1 by omega] at this
  unfold nested
  unfold nested at this
  rw [this]

end Json

namespace Json

theorem value_space (f d c : Nat) (r : Bytes) (h : isSpace c = true) :
    value f d (c :: r) = none := by
  cases f with
  | zero => rfl
  | succ f => rcases isSpace_cases c h with h | h | h | h <;> subst h <;> rfl

theorem value_scalar_length (f d c : Nat) (r r1 : Bytes) (h1 : c ≠ 123) (h2 : c ≠ 91)
    (h : value (f + 1) d (c :: r) = some r1) : r1.length < (c :: r).length := by
  cases hsp : isSpace c
  · exact (value_scalar_ok f d c r [] h1 h2 hsp).2 r1 h
  · rw [value_space (f + 1) d c r hsp] at h
    cases h

theorem value_scalar_depth (f d d1 c : Nat) (r : Bytes) (h1 : c ≠ 123) (h2 : c ≠ 91) :
    value (f + 1) d (c :: r) = value (f + 1) d1 (c :: r) := by
  rw [value_scalar f d c r h1 h2, value_scalar f d1 c r h1 h2]

/-- Every rule of the grammar consumes at least one byte. -/
theorem grammar_length (f : Nat) :
    (∀ (d : Nat) (r r1 : Bytes), value f d r = some r1 → r1.length < r.length) ∧
      (∀ (d : Nat) (r r1 : Bytes), elements f d r = some r1 → r1.length < r.length) ∧
      ∀ (d : Nat) (r r1 : Bytes), members f d r = some r1 → r1.length < r.length := by
  induction f with
  | zero =>
    exact ⟨fun d r r1 h => (by cases h), fun d r r1 h => (by cases h),
      fun d r r1 h => (by cases h)⟩
  | succ f ih =>
    obtain ⟨ihV, ihE, ihM⟩ := ih
    refine ⟨?_, ?_, ?_⟩
    · intro d r x h
      cases r with
      | nil => rw [value_nil] at h; cases h
      | cons c r0 =>
        by_cases h1 : c = 123
        · subst h1
          cases d with
          | zero => rw [value_obj0] at h; cases h
          | succ d =>
            rw [value_obj] at h
            have hl := skipWs_length r0
            cases hs : skipWs r0 with
            | nil => rw [hs] at h; cases h
            | cons c1 r1 =>
              rw [hs] at h hl
              simp only [List.length_cons] at hl ⊢
              simp only [] at h
              by_cases h125 : c1 = 125
              · rw [if_pos h125] at h
                injection h with h
                subst h
                omega
              · rw [if_neg h125] at h
                have := ihM d _ _ h
                simp only [List.length_cons] at this
                omega
        by_cases h2 : c = 91
        · subst h2
          cases d with
          | zero => rw [value_arr0] at h; cases h
          | succ d =>
            rw [value_arr] at h
            have hl := skipWs_length r0
            cases hs : skipWs r0 with
            | nil => rw [hs] at h; cases h
            | cons c1 r1 =>
              rw [hs] at h hl
              simp only [List.length_cons] at hl ⊢
              simp only [] at h
              by_cases h93 : c1 = 93
              · rw [if_pos h93] at h
                injection h with h
                subst h
                omega
              · rw [if_neg h93] at h
                have := ihE d _ _ h
                simp only [List.length_cons] at this
                omega
        exact value_scalar_length f d c r0 x h1 h2 h
    · intro d r x h
      rw [elements_succ] at h
      cases hv : value f d r with
      | none => rw [hv] at h; cases h
      | some r1 =>
        rw [hv] at h
        simp only [] at h
        have hl1 := ihV d r r1 hv
        have hl2 := skipWs_length r1
        cases hs : skipWs r1 with
        | nil => rw [hs] at h; cases h
        | cons c r2 =>
          rw [hs] at h hl2
          simp only [List.length_cons] at hl2
          simp only [] at h
          by_cases h44 : c = 44
          · rw [if_pos h44] at h
            have := ihE d _ _ h
            have := skipWs_length r2
            omega
          · rw [if_neg h44] at h
            by_cases h93 : c = 93
            · rw [if_pos h93] at h
              injection h with h
              subst h
              omega
            · rw [if_neg h93] at h
              cases h
    · intro d r x h
      cases r with
      | nil => rw [members_nil] at h; cases h
      | cons q r0 =>
        rw [members_succ] at h
        simp only [List.length_cons]
        by_cases h34 : q = 34
        · rw [if_pos h34] at h
          cases hch : chars (r0.length + 1) r0 with
          | none => rw [hch] at h; cases h
          | some r1 =>
            rw [hch] at h
            simp only [] at h
            have hl1 := chars_length _ r0 r1 hch
            have hl2 := skipWs_length r1
            cases hs : skipWs r1 with
            | nil => rw [hs] at h; cases h
            | cons c r2 =>
              rw [hs] at h hl2
              simp only [List.length_cons] at hl2
              simp only [] at h
              by_cases h58 : c = 58
              · rw [if_pos h58] at h
                have hl3 := skipWs_length r2
                cases hv : value f d (skipWs r2) with
                | none => rw [hv] at h; cases h
                | some r3 =>
                  rw [hv] at h
                  simp only [] at h
                  have hl4 := ihV d _ r3 hv
                  have hl5 := skipWs_length r3
                  cases hs3 : skipWs r3 with
                  | nil => rw [hs3] at h; cases h
                  | cons c3 r4 =>
                    rw [hs3] at h hl5
                    simp only [List.length_cons] at hl5
                    simp only [] at h
                    by_cases h44 : c3 = 44
                    · rw [if_pos h44] at h
                      have := ihM d _ _ h
                      have := skipWs_length r4
                      omega
                    · rw [if_neg h44] at h
                      by_cases h125 : c3 = 125
                      · rw [if_pos h125] at h
                        injection h with h
                        subst h
                        omega
                      · rw [if_neg h125] at h
                        cases h
              · rw [if_neg h58] at h
                cases h
        · rw [if_neg h34] at h
          cases h

/-- A text read within a depth is read, with the same rest, within every larger depth and
within every depth of at least its length. -/
theorem grammar_depth (f : Nat) :
    (∀ (d e : Nat) (r x : Bytes), d ≤ e ∨ r.length ≤ e →
        value f d r = some x → value f e r = some x) ∧
      (∀ (d e : Nat) (r x : Bytes), d ≤ e ∨ r.length ≤ e →
        elements f d r = some x → elements f e r = some x) ∧
      ∀ (d e : Nat) (r x : Bytes), d ≤ e ∨ r.length ≤ e →
        members f d r = some x → members f e r = some x := by
  induction f with
  | zero =>
    exact ⟨fun d e r x _ h => (by cases h), fun d e r x _ h => (by cases h),
      fun d e r x _ h => (by cases h)⟩
  | succ f ih =>
    obtain ⟨ihV, ihE, ihM⟩ := ih
    obtain ⟨lenV, -, -⟩ := grammar_length f
    refine ⟨?_, ?_, ?_⟩
    · intro d e r x hde h
      cases r with
      | nil => rw [value_nil] at h; cases h
      | cons c r0 =>
        simp only [List.length_cons] at hde
        by_cases h1 : c = 123
        · subst h1
          cases d with
          | zero => rw [value_obj0] at h; cases h
          | succ d =>
            obtain ⟨e, rfl⟩ : ∃ e0, e = e0 + 1 := ⟨e - 1, by omega⟩
            rw [value_obj] at h
            rw [value_obj]
            have hl := skipWs_length r0
            cases hs : skipWs r0 with
            | nil => rw [hs] at h; cases h
            | cons c1 r1 =>
              rw [hs] at h hl
              simp only [List.length_cons] at hl
              simp only [] at h ⊢
              by_cases h125 : c1 = 125
              · rw [if_pos h125] at h ⊢
                exact h
              · rw [if_neg h125] at h ⊢
                refine ihM d e _ x ?_ h
                simp only [List.length_cons]
                omega
        by_cases h2 : c = 91
        · subst h2
          cases d with
          | zero => rw [value_arr0] at h; cases h
          | succ d =>
            obtain ⟨e, rfl⟩ : ∃ e0, e = e0 + 1 := ⟨e - 1, by omega⟩
            rw [value_arr] at h
            rw [value_arr]
            have hl := skipWs_length r0
            cases hs : skipWs r0 with
            | nil => rw [hs] at h; cases h
            | cons c1 r1 =>
              rw [hs] at h hl
              simp only [List.length_cons] at hl
              simp only [] at h ⊢
              by_cases h93 : c1 = 93
              · rw [if_pos h93] at h ⊢
                exact h
              · rw [if_neg h93] at h ⊢
                refine ihE d e _ x ?_ h
                simp only [List.length_cons]
                omega
        rw [← value_scalar_depth f d e c r0 h1 h2]
        exact h
    · intro d e r x hde h
      rw [elements_succ] at h
      rw [elements_succ]
      cases hv : value f d r with
      | none => rw [hv] at h; cases h
      | some r1 =>
        rw [hv] at h
        rw [ihV d e r r1 hde hv]
        simp only [] at h ⊢
        have hl1 := lenV d r r1 hv
        have hl2 := skipWs_length r1
        cases hs : skipWs r1 with
        | nil => rw [hs] at h; cases h
        | cons c r2 =>
          rw [hs] at h hl2
          simp only [List.length_cons] at hl2
          simp only [] at h ⊢
          by_cases h44 : c = 44
          · rw [if_pos h44] at h ⊢
            have := skipWs_length r2
            exact ihE d e _ x (by omega) h
          · rw [if_neg h44] at h ⊢
            exact h
    · intro d e r x hde h
      cases r with
      | nil => rw [members_nil] at h; cases h
      | cons q r0 =>
        rw [members_succ] at h
        rw [members_succ]
        simp only [List.length_cons] at hde
        by_cases h34 : q = 34
        · rw [if_pos h34] at h ⊢
          cases hch : chars (r0.length + 1) r0 with
          | none => rw [hch] at h; cases h
          | some r1 =>
            rw [hch] at h
            simp only [] at h ⊢
            have hl1 := chars_length _ r0 r1 hch
            have hl2 := skipWs_length r1
            cases hs : skipWs r1 with
            | nil => rw [hs] at h; cases h
            | cons c r2 =>
              rw [hs] at h hl2
              simp only [List.length_cons] at hl2
              simp only [] at h ⊢
              by_cases h58 : c = 58
              · rw [if_pos h58] at h ⊢
                have hl3 := skipWs_length r2
                cases hv : value f d (skipWs r2) with
                | none => rw [hv] at h; cases h
                | some r3 =>
                  rw [hv] at h
                  rw [ihV d e _ r3 (by omega) hv]
                  simp only [] at h ⊢
                  have hl4 := lenV d _ r3 hv
                  have hl5 := skipWs_length r3
                  cases hs3 : skipWs r3 with
                  | nil => rw [hs3] at h; cases h
                  | cons c3 r4 =>
                    rw [hs3] at h hl5
                    simp only [List.length_cons] at hl5
                    simp only [] at h ⊢
                    by_cases h44 : c3 = 44
                    · rw [if_pos h44] at h ⊢
                      have := skipWs_length r4
                      exact ihM d e _ x (by omega) h
                    · rw [if_neg h44] at h ⊢
                      exact h
              · rw [if_neg h58] at h
                cases h
        · rw [if_neg h34] at h
          cases h

/-- A JSON text within a depth is one within every larger depth and within every depth of at
least its length. -/
theorem jsonWithin_depth (d e : Nat) (p : Bytes) (hde : d ≤ e ∨ p.length ≤ e)
    (h : jsonWithin d p = true) : jsonWithin e p = true := by
  unfold jsonWithin at h ⊢
  have hl := skipWs_length p
  cases hv : value (2 * p.length + 1) d (skipWs p) with
  | none => rw [hv] at h; cases h
  | some r =>
    rw [hv] at h
    rw [(grammar_depth _).1 d e _ r (by omega) hv]
    exact h

/-- A JSON text within some depth is a valid JSON text. -/
theorem validJSON_of_within (d : Nat) (p : Bytes) (h : jsonWithin d p = true) :
    validJSON p = true :=
  jsonWithin_depth d p.length p (Or.inr (Nat.le_refl _)) h

/-- A valid JSON text is one within every depth of at least its length. -/
theorem within_of_validJSON (e : Nat) (p : Bytes) (hl : p.length ≤ e)
    (h : validJSON p = true) : jsonWithin e p = true :=
  jsonWithin_depth p.length e p (Or.inl hl) h

end Json

namespace Json

/-- The source's `formatJSON` panics on the empty array nested 10001 deep. -/
theorem formatJSON_nested_deep : formatJSON (nested 10001) = none := by
  have hout : jsonWithin maxNestingDepth (nested (10000 + 1)) = false :=
    jsonWithin_nested_deep 10000 maxNestingDepth (Nat.le_refl _)
  have h := formatJSON_isSome (nested (10000 + 1))
  rw [hout] at h
  cases hf : formatJSON (nested (10000 + 1)) with
  | none => rfl
  | some out => rw [hf] at h; cases h

end Json

namespace Client

/-- C7 as stated fails: the empty array nested 10001 deep is a valid JSON payload, yet
selection 2 on a ledger that answers with it prints no result: `formatJSON` panics on the
payload and the iteration ends panicked after the prompt and the call. -/
theorem evaluate_deep_payload_panics :
    Json.validJSON (Json.nested 10001) = true ∧
      scanInt "2" = some 2 ∧
      iteration wholePrices (fun _ _ => .ok (Json.nested 10001))
          (Session.start ["2", "CAR1"]) =
        .panicked ⟨2, [], menuLines ++ [utf8 "Car ID: "],
          [⟨.evaluate, "ReadCarAsset", ["CAR1"]⟩]⟩ := by
  refine ⟨Json.validJSON_of_within 10001 _ (Json.jsonWithin_nested 10000 10001 (Nat.le_refl _)),
    by decide, ?_⟩
  rw [iteration_eq wholePrices _ (Session.start ["2", "CAR1"]) "2" ["CAR1"] 2 rfl (by decide),
    if_neg (by decide),
    dispatch_eq wholePrices _ 2 ["CAR1"] _ _ ⟨.evaluate, "ReadCarAsset", ["CAR1"]⟩ (by decide)]
  simp [afterCall, afterEvaluate, Json.formatJSON_nested_deep, Session.start, prompts, arity]

/-- C7, amended: for every evaluate selection whose ledger call succeeds with a valid JSON
payload `p` nested at most 10000 deep, `formatJSON` returns on `p` and the iteration prints,
after the prompts, the one write `######## Result:` followed by `formatJSON(p)` and a line
feed, and `formatJSON(p)` differs from `p` only in insignificant whitespace outside string
literals: dropping the space bytes outside string literals from both gives the same bytes,
so the structure, every scalar and string token and the order of the keys are those of `p`.
The whitespace is reformatted: a car with its fields on one line is printed one field a
line, a space after each colon. -/
theorem evaluate_prints_reformatted_payload (fp : Float32) (l : Ledger) (s : Session)
    (tok : String) (inputs : List String) (n : Int) (c : Call) (p : Bytes)
    (hin : s.stdin = tok :: inputs) (hn : scanInt tok = some n)
    (hc : tableCall fp n (received n inputs) = some c) (hk : c.kind = .evaluate)
    (hok : l s.calls c = .ok p) (hvalid : Json.jsonWithin Json.maxNestingDepth p = true) :
    (∃ out, Json.formatJSON p = some out ∧
        iteration fp l s = .awaiting ⟨n, inputs.drop (arity n),
          s.stdout ++ (menuLines ++ prompts n ++
            [utf8 "######## Result:" ++ out ++ [10], utf8 "\n"]),
          s.calls ++ [c]⟩ ∧
        Json.compact out = Json.compact p) ∧
      Json.formatJSON (ascii "\x7b\"ID\":\"CAR1\", \"color\":\"blue\"\x7d") =
        some (ascii "\x7b\n\"ID\": \"CAR1\",\n\"color\": \"blue\"\n\x7d") := by
  refine ⟨?_, by decide⟩
  have hsome : (Json.formatJSON p).isSome = true := by
    rw [Json.formatJSON_isSome]; exact hvalid
  obtain ⟨out, hfmt⟩ := Option.isSome_iff_exists.mp hsome
  have hr := tableCall_range fp n (received n inputs) c hc
  have h9 : n ≠ 9 := by omega
  refine ⟨out, hfmt, ?_, ?_⟩
  · rw [iteration_eq fp l s tok inputs n hin hn, if_neg h9, dispatch_eq fp l n inputs _ _ c hc,
      hok, hk]
    simp [afterCall, afterEvaluate, hfmt, printf]
  · rw [Json.formatJSON_eq] at hfmt
    exact Json.formatFrom_compact p Json.newScanner false out Json.newScanner_WF
      (fun hni => by cases hni) hfmt

/-- The car of the examples is a JSON text within the depth the scanner allows. -/
theorem car_payload_within :
    Json.jsonWithin Json.maxNestingDepth
      (ascii "\x7b\"ID\":\"CAR1\", \"color\":\"blue\"\x7d") = true := by
  rw [← Json.formatJSON_isSome]
  decide

/-- The statement of `evaluate_prints_reformatted_payload` holds at selection 2 on a ledger
that answers every call with one car as JSON. -/
theorem evaluate_prints_reformatted_payload_witness :
    scanInt "2" = some 2 ∧
      Json.jsonWithin Json.maxNestingDepth
        (ascii "\x7b\"ID\":\"CAR1\", \"color\":\"blue\"\x7d") = true ∧
      ∃ out, Json.formatJSON (ascii "\x7b\"ID\":\"CAR1\", \"color\":\"blue\"\x7d") = some out ∧
        iteration wholePrices
            (fun _ _ => .ok (ascii "\x7b\"ID\":\"CAR1\", \"color\":\"blue\"\x7d"))
            (Session.start ["2", "CAR1"]) =
          .awaiting ⟨2, [],
            [] ++ (menuLines ++ prompts 2 ++ [utf8 "######## Result:" ++ out ++ [10], utf8 "\n"]),
            [] ++ [⟨.evaluate, "ReadCarAsset", ["CAR1"]⟩]⟩ ∧
        Json.compact out = Json.compact (ascii "\x7b\"ID\":\"CAR1\", \"color\":\"blue\"\x7d") :=
  ⟨by decide, car_payload_within,
    (evaluate_prints_reformatted_payload wholePrices
      (fun _ _ => .ok (ascii "\x7b\"ID\":\"CAR1\", \"color\":\"blue\"\x7d"))
      (Session.start ["2", "CAR1"]) "2" ["CAR1"] 2 ⟨.evaluate, "ReadCarAsset", ["CAR1"]⟩
      (ascii "\x7b\"ID\":\"CAR1\", \"color\":\"blue\"\x7d")
      rfl (by decide) (by decide) rfl rfl car_payload_within).1⟩

end Client

namespace Client

/-- C10 as stated fails: the empty array nested 10001 deep, 10001 opening square brackets
followed by 10001 closing ones, is a valid JSON text, and a JSON text within depth 10001,
yet `formatJSON` panics on it, since the scanner of `json.Indent` gives up beyond
`maxNestingDepth` open brackets. -/
theorem deeply_nested_json_panics :
    Json.nested 10001 = List.replicate 10001 91 ++ List.replicate 10001 93 ∧
      Json.validJSON (Json.nested 10001) = true ∧
      Json.jsonWithin 10001 (Json.nested 10001) = true ∧
      Json.formatJSON (Json.nested 10001) = none := by
  have hin : Json.jsonWithin 10001 (Json.nested (10000 + 1)) = true :=
    Json.jsonWithin_nested 10000 10001 (Nat.le_refl _)
  have hout : Json.jsonWithin Json.maxNestingDepth (Json.nested (10000 + 1)) = false :=
    Json.jsonWithin_nested_deep 10000 Json.maxNestingDepth (Nat.le_refl _)
  refine ⟨rfl, Json.validJSON_of_within 10001 _ hin, hin, ?_⟩
  have h := Json.formatJSON_isSome (Json.nested (10000 + 1))
  rw [hout] at h
  cases hf : Json.formatJSON (Json.nested (10000 + 1)) with
  | none => rfl
  | some out => rw [hf] at h; cases h

/-- C10, amended: `formatJSON` returns normally exactly on the JSON texts of RFC 8259 whose
arrays and objects are nested at most `maxNestingDepth` (10000) deep, and it panics on every
other input.  An input on which it returns is a valid JSON text, and for an input of at most
10000 bytes returning normally is the same as being a valid JSON text.  Consequently an
evaluate selection can panic after a successful call: `formatJSON` panics on the empty
payload, and selection 3 on a ledger that answers the empty payload without error ends
panicked, after the prompt and the one call, with nothing printed after the prompt. -/
theorem formatJSON_returns_iff_json_within_depth (p : Bytes) :
    ((∃ out, Json.formatJSON p = some out) ↔
        Json.jsonWithin Json.maxNestingDepth p = true) ∧
      (Json.formatJSON p = none ↔ Json.jsonWithin Json.maxNestingDepth p = false) ∧
      ((∃ out, Json.formatJSON p = some out) → Json.validJSON p = true) ∧
      (p.length ≤ Json.maxNestingDepth →
        ((∃ out, Json.formatJSON p = some out) ↔ Json.validJSON p = true)) ∧
      Json.formatJSON [] = none ∧
      emptyLedger [] ⟨.evaluate, "GetCarsByColor", ["red"]⟩ = .ok [] ∧
      iteration wholePrices emptyLedger (Session.start ["3", "red"]) =
        .panicked ⟨3, [], menuLines ++ [utf8 "Car color: "],
          [⟨.evaluate, "GetCarsByColor", ["red"]⟩]⟩ := by
  have h := Json.formatJSON_isSome p
  have hiff : (∃ out, Json.formatJSON p = some out) ↔
      Json.jsonWithin Json.maxNestingDepth p = true := by
    rw [← h]
    cases Json.formatJSON p with
    | none => exact ⟨fun ⟨out, ho⟩ => (by cases ho), fun hs => (by cases hs)⟩
    | some out => exact ⟨fun _ => rfl, fun _ => ⟨out, rfl⟩⟩
  refine ⟨hiff, ?_, ?_, ?_, rfl, rfl, by decide⟩
  · rw [← h]
    cases Json.formatJSON p with
    | none => exact ⟨fun _ => rfl, fun _ => rfl⟩
    | some out => exact ⟨fun hs => (by cases hs), fun hs => (by cases hs)⟩
  · intro hout
    exact Json.validJSON_of_within _ p (hiff.mp hout)
  · intro hl
    rw [hiff]
    exact ⟨Json.validJSON_of_within _ p, Json.within_of_validJSON _ p hl⟩

end Client
